import Mathlib

/-!
# commute-api-go: station resolution and time-series downsampling

A shallow embedding of `main.go`.

* Go slices are lists (a nil slice and an empty slice are both `[]`).
* Go `int` / `int64` values are mathematical integers; the only arithmetic
  the program performs on them is `i % modulus` on a slice index, which
  cannot overflow.
* `float64` values are kept as their IEEE-754 bit pattern; the program only
  passes them on and compares them with zero.
* The Redis client, the InfluxDB client and `encoding/json` are external:
  their behaviour is a parameter (`Env`), so every theorem holds for every
  behaviour of the stores and of the decoder. `strconv.ParseFloat` and
  `time.Parse`, which only the handlers call, are a parameter too (`Lib`).
* Where a property depends on what `encoding/json` does with a `Station`
  (payloads that cannot be decoded, the round trip through the interchange
  format), the decoder of the environment is `Json.Unmarshal`, the library
  at type `Station`: the validity check of the whole text, then the decoding
  member by member under the names of the `json` tags. Go strings are
  sequences of Unicode characters there, and the text of a `float64` is that
  of `strconv`, a parameter.
* A handler takes the `gin.Context` as the query values and the parameters
  the router bound, and returns the run of the strategy it chose together
  with the status and the value it hands to `c.JSON`.
* Every domain function returns the list of store commands it issued
  together with its outcome: a normal return, a runtime panic, or the
  termination of the process (`log.Fatal`).
* `log.Println` / `fmt.Printf` lines only write to the log and are left out,
  except where evaluating their arguments can panic (`v[1]` in
  `MapPointsToStationBikeStates`).
-/

namespace Commute

/-! ## Values -/

/-- Go `float64`, as the 64-bit IEEE-754 pattern of the value. -/
structure Float64 where
  bits : Nat
deriving DecidableEq, Repr

/-- The `float64` constant `100`: sign 0, exponent 1029, fraction 0x9000000000000. -/
def Float64.hundred : Float64 := ⟨0x4059000000000000⟩

/-- The rational number a finite pattern denotes; `none` for infinities and NaN. -/
def Float64.value (x : Float64) : Option ℚ :=
  let s : Nat := x.bits / 2 ^ 63 % 2
  let e : Nat := x.bits / 2 ^ 52 % 2 ^ 11
  let frac : Nat := x.bits % 2 ^ 52
  let sign : ℚ := if s = 1 then -1 else 1
  if e = 2047 then none
  else if e = 0 then some (sign * (frac : ℚ) / 2 ^ 1074)
  else some (sign * ((2 ^ 52 + frac : Nat) : ℚ) * 2 ^ e / 2 ^ 1075)

/-- Go `interface{}` values as the two stores hand them out. -/
inductive Obj where
  | nil
  | str (s : String)
  | number (n : String)
  | bool (b : Bool)
deriving DecidableEq, Repr

/-- Runtime panics the program can raise. -/
inductive Panic where
  | indexOutOfRange
  | interfaceConversion
  | divideByZero
deriving DecidableEq, Repr

/-- How a Go call ends: it returns, it panics, or the process exits. -/
inductive Outcome (α : Type) where
  | ok (a : α)
  | panic (p : Panic)
  | exit (code : Nat)
deriving DecidableEq, Repr

/-- Sequencing: a panic or an exit skips the rest. -/
def Outcome.bind {α β : Type} : Outcome α → (α → Outcome β) → Outcome β
  | .ok a, f => f a
  | .panic p, _ => .panic p
  | .exit c, _ => .exit c

/-! ## Structs (`main.go` 56-87) -/

structure Image where
  Uid : Int
  Width : Int
  Quality : Int
deriving DecidableEq, Repr

structure Position where
  Latitude : Float64
  Longitude : Float64
deriving DecidableEq, Repr

structure Station where
  Number : Int
  Name : String
  Address : String
  Position : Position
  Banking : Bool
  Bonus : Bool
  Status : String
  ContractName : String
  BikeStands : Int
  AvailableBikeStands : Int
  AvailableBikes : Int
  LastUpdate : String
  Images : List Image
deriving DecidableEq, Repr

/-- The value of `var station Station`: every field at its zero value. -/
def Station.zero : Station :=
  { Number := 0, Name := "", Address := "", Position := ⟨⟨0⟩, ⟨0⟩⟩,
    Banking := false, Bonus := false, Status := "", ContractName := "",
    BikeStands := 0, AvailableBikeStands := 0, AvailableBikes := 0,
    LastUpdate := "", Images := [] }

structure StationBikeState where
  Time : String
  AvailableBikeStands : Int
  AvailableBikes : Int
deriving DecidableEq, Repr

/-! ## The Redis client (go-redis) -/

/-- Fields of `redis.GeoRadiusQuery` (`Sort_` is its `Sort`, a reserved word here). -/
structure GeoRadiusQuery where
  Radius : Float64
  Unit : String
  WithCoord : Bool
  WithDist : Bool
  WithGeoHash : Bool
  Count : Int
  Sort_ : String
deriving DecidableEq, Repr

/-- Fields of `redis.GeoLocation`. -/
structure GeoLocation where
  Name : String
  Longitude : Float64
  Latitude : Float64
  Dist : Float64
  GeoHash : Int
deriving DecidableEq, Repr

/-- A go-redis command result: the value and the error it carries. -/
structure Cmd (α : Type) where
  val : α
  err : Option String

/-- The `.Val()` accessor: the value, the error dropped. -/
def Cmd.Val {α : Type} (c : Cmd α) : α := c.val

/-- The three commands `main.go` sends through `cli`. -/
structure RedisClient where
  GeoRadius : String → Float64 → Float64 → GeoRadiusQuery → Cmd (List GeoLocation)
  MGet : List String → Cmd (List Obj)
  Keys : String → Cmd (List String)

/-- The entry a bulk get returns for one key: the stored text, or nil when the key is missing. -/
def bulkEntry : Option String → Obj
  | some s => .str s
  | none => .nil

/-! ## The InfluxDB client (client/v2) -/

/-- Fields of `models.Row` that the program reads or that identify the series. -/
structure Row where
  Name : String
  Columns : List String
  Values : List (List Obj)
deriving DecidableEq, Repr

/-- Fields of `client.Result`. -/
structure Result where
  Series : List Row
  Err : String
deriving DecidableEq, Repr

/-- Fields of `client.Response`. -/
structure Response where
  Results : List Result
  Err : String
deriving DecidableEq, Repr

/-- The `client.Query` the program builds. -/
structure Query where
  Command : String
  Database : String
deriving DecidableEq, Repr

/-- `Response.Error()`: the response error, else the first result error, else nil. -/
def Response.Error (r : Response) : Option String :=
  if r.Err ≠ "" then some r.Err
  else match r.Results.find? (fun result => result.Err != "") with
    | some result => some result.Err
    | none => none

/-- `clnt.Query(q)`: a response, or a transport error. -/
structure InfluxClient where
  Query : Query → Except String Response

/-! ## Commands issued and the environment -/

/-- A command sent to one of the two stores. -/
inductive Call where
  | GeoRadius (key : String) (longitude latitude : Float64) (query : GeoRadiusQuery)
  | MGet (keys : List String)
  | Keys (pattern : String)
  | Query (q : Query)
deriving DecidableEq, Repr

/-- A finished call: the store commands it issued, in order, and how it ended. -/
structure Run (α : Type) where
  calls : List Call
  outcome : Outcome α
deriving DecidableEq, Repr

/-- The package-level handles of `main.go` (`cli`, `influx`, `dbDatabase`) and
`json.Unmarshal` at type `*Station`: the target after decoding, and the error. -/
structure Env where
  cli : RedisClient
  influx : InfluxClient
  dbDatabase : String
  jsonUnmarshal : String → Station → Station × Option String

/-! ## `time.Time` and `strconv` -/

/-- A `time.Time`, as the calendar fields `Format` prints (in the value's location). -/
structure Time where
  Year : Int
  Month : Nat
  Day : Nat
  Hour : Nat
  Minute : Nat
  Second : Nat
  Nanosecond : Nat
deriving DecidableEq, Repr

/-- Decimal digits of `n`, zero-padded on the left to `width`. -/
def padDigits (n width : Nat) : String :=
  let ds := Nat.toDigits 10 n
  String.mk (List.replicate (width - ds.length) '0' ++ ds)

/-- The `appendInt` of package `time`: sign, then zero-padded digits. -/
def appendInt (x : Int) (width : Nat) : String :=
  if x < 0 then "-" ++ padDigits x.natAbs width else padDigits x.natAbs width

/-- The method `date.Format("2006-01-02 15:04")`. -/
def Time.Format (date : Time) : String :=
  appendInt date.Year 4 ++ "-" ++ padDigits date.Month 2 ++ "-" ++ padDigits date.Day 2
    ++ " " ++ padDigits date.Hour 2 ++ ":" ++ padDigits date.Minute 2

/-- The two errors of `strconv`. -/
inductive NumError where
  | malformed
  | range
deriving DecidableEq, Repr

def maxUint64 : Nat := 2 ^ 64 - 1

/-- The digit loop of `strconv.ParseUint(s, 10, 64)`. -/
def ParseUint.loop : List Char → Nat → Nat × Option NumError
  | [], n => (n, none)
  | c :: cs, n =>
    if c.toNat < 48 ∨ 57 < c.toNat then (0, some .malformed)
    else if n ≥ maxUint64 / 10 + 1 then (maxUint64, some .range)
    else
      let n1 := n * 10 + (c.toNat - 48)
      if n1 > maxUint64 then (maxUint64, some .range)
      else ParseUint.loop cs n1

/-- `strconv.ParseUint(s, 10, 64)`. -/
def ParseUint (s : List Char) : Nat × Option NumError :=
  if s = [] then (0, some .malformed) else ParseUint.loop s 0

/-- `strconv.ParseInt(s, 10, 64)`. -/
def ParseInt (s : String) : Int × Option NumError :=
  if s.data = [] then (0, some .malformed)
  else
    let neg := s.data.head? = some '-'
    let body := if s.data.head? = some '+' ∨ s.data.head? = some '-' then s.data.tail else s.data
    match ParseUint body with
    | (_, some .malformed) => (0, some .malformed)
    | (un, _) =>
      let cutoff : Nat := 2 ^ 63
      if ¬ neg ∧ un ≥ cutoff then ((cutoff : Int) - 1, some .range)
      else if neg ∧ un > cutoff then (-(cutoff : Int), some .range)
      else if neg then (-(un : Int), none) else ((un : Int), none)

/-- `json.Number.Int64()` with the error dropped, as in `x, _ := n.Int64()`. -/
def Int64 (n : String) : Int := (ParseInt n).1

/-! ## Utils (`main.go` 312-398) -/

def FilterString (vs : List String) (f : String → Bool) : List String :=
  vs.filter f

def FilterNil (vs : List Obj) : List Obj :=
  vs.filter (fun v => v != Obj.nil)

/-- The loop of `FilterStationBikeStatesByModulus`: index `i`, rest of `vs`, `vsf` so far. -/
def FilterStationBikeStatesByModulus.loop (modulus : Int) :
    Nat → List StationBikeState → List StationBikeState → Outcome (List StationBikeState)
  | _, [], vsf => .ok vsf
  | i, v :: vs, vsf =>
    if modulus = 0 then .panic .divideByZero
    else if Int.tmod (i : Int) modulus = 0 then
      FilterStationBikeStatesByModulus.loop modulus (i + 1) vs (vsf ++ [v])
    else FilterStationBikeStatesByModulus.loop modulus (i + 1) vs vsf

def FilterStationBikeStatesByModulus (vs : List StationBikeState) (modulus : Int) :
    Outcome (List StationBikeState) :=
  FilterStationBikeStatesByModulus.loop modulus 0 vs []

/-- One iteration of `MapPointsToStationBikeStates`: the log line reads `v[1]`,
then `v[0].(string)`, `v[1].(json.Number)`, `v[2].(json.Number)`. -/
def MapPointsToStationBikeStates.row : List Obj → Outcome StationBikeState
  | v0 :: v1 :: rest =>
    match v0 with
    | .str t =>
      match v1 with
      | .number n1 =>
        match rest with
        | (.number n2) :: _ => .ok ⟨t, Int64 n1, Int64 n2⟩
        | _ :: _ => .panic .interfaceConversion
        | [] => .panic .indexOutOfRange
      | _ => .panic .interfaceConversion
    | _ => .panic .interfaceConversion
  | _ => .panic .indexOutOfRange

def MapPointsToStationBikeStates : List (List Obj) → Outcome (List StationBikeState)
  | [] => .ok []
  | v :: vs =>
    (MapPointsToStationBikeStates.row v).bind fun s =>
      (MapPointsToStationBikeStates vs).bind fun rest => .ok (s :: rest)

/-- The loop body `vsm[i] = v.(string)`; the assertion panics on any other value. -/
def MapObjectsToStrings : List Obj → Outcome (List String)
  | [] => .ok []
  | .str s :: vs => (MapObjectsToStrings vs).bind fun rest => .ok (s :: rest)
  | _ :: _ => .panic .interfaceConversion

def MapGeoLocationsToStationNumbers (vs : List GeoLocation) : List String :=
  vs.map (fun v => v.Name)

def MapStringsToStrings (vs : List String) (f : String → String) : List String :=
  vs.map f

def MapStringsToStations (vs : List String) (f : String → Station) : List Station :=
  vs.map f

def UnmarshalStringsToStations (env : Env) (serializedStation : String) : Station :=
  (env.jsonUnmarshal serializedStation Station.zero).1

/-! ## InfluxDB (`main.go` 281-295) -/

/-- The function `queryDB`: the command sent, then `(res, err)`. -/
def queryDB (clnt : InfluxClient) (db : String) (cmd : String) :
    List Call × List Result × Option String :=
  let q : Query := { Command := cmd, Database := db }
  match clnt.Query q with
  | .ok response =>
    match response.Error with
    | some e => ([Call.Query q], [], some e)
    | none => ([Call.Query q], response.Results, none)
  | .error err => ([Call.Query q], [], some err)

/-! ## Domain (`main.go` 169-273) -/

def findNearby (env : Env) (contractName : String) (lat : Float64) (lng : Float64)
    (_distance : Float64) : Run (List Station) :=
  let query : GeoRadiusQuery :=
    { Radius := Float64.hundred, Unit := "km", WithCoord := false, WithDist := true,
      WithGeoHash := false, Count := 0, Sort_ := "ASC" }
  let geoLocations := (env.cli.GeoRadius (contractName ++ "_stations") lng lat query).Val
  let keys := MapStringsToStrings (MapGeoLocationsToStationNumbers geoLocations)
    (fun number => contractName ++ "_" ++ number)
  let keysFiltered := FilterString keys (fun v => v != contractName ++ "_images")
  let calls := [Call.GeoRadius (contractName ++ "_stations") lng lat query, Call.MGet keysFiltered]
  ⟨calls, (MapObjectsToStrings (FilterNil (env.cli.MGet keysFiltered).Val)).bind fun results =>
    .ok (MapStringsToStations results (UnmarshalStringsToStations env))⟩

def findByNumbers (env : Env) (contractName : String) (numbers : List String) :
    Run (List Station) :=
  if numbers.length ≤ 0 then ⟨[], .ok []⟩
  else
    let keys := MapStringsToStrings numbers (fun number => contractName ++ "_" ++ number)
    let keysFiltered := FilterString keys (fun v => v != contractName ++ "_images")
    ⟨[Call.MGet keysFiltered],
      (MapObjectsToStrings (FilterNil (env.cli.MGet keysFiltered).Val)).bind fun results =>
        .ok (MapStringsToStations results (UnmarshalStringsToStations env))⟩

def findByContractName (env : Env) (contractName : String) : Run (List Station) :=
  let keys := (env.cli.Keys (contractName ++ "_*")).Val
  let keysFiltered := FilterString keys (fun v => v != contractName ++ "_images")
  ⟨[Call.Keys (contractName ++ "_*"), Call.MGet keysFiltered],
    (MapObjectsToStrings (FilterNil (env.cli.MGet keysFiltered).Val)).bind fun results =>
      .ok (MapStringsToStations results (UnmarshalStringsToStations env))⟩

/-- The `query` string of `fetchInfluxDbDataByDateAndStationNumber` (lines 232-239). -/
def fetchInfluxDbDataByDateAndStationNumber.query (contractName : String) (date : Time)
    (stationNumber : String) : String :=
  let dateFormatted := date.Format ++ ":00"
  "SELECT * FROM " ++ contractName ++ "_" ++ stationNumber
    ++ " WHERE time >= \x27" ++ dateFormatted ++ "\x27 AND time < \x27" ++ dateFormatted
    ++ "\x27 + 24h"

def fetchInfluxDbDataByDateAndStationNumber (env : Env) (contractName : String) (date : Time)
    (stationNumber : String) (modulus : Int) : Run (List StationBikeState) :=
  let query := fetchInfluxDbDataByDateAndStationNumber.query contractName date stationNumber
  match queryDB env.influx env.dbDatabase query with
  | (calls, _, some _) => ⟨calls, .exit 1⟩
  | (calls, results, none) =>
    match results with
    | [] => ⟨calls, .ok []⟩
    | result0 :: _ =>
      match result0.Series with
      | [] => ⟨calls, .ok []⟩
      | series0 :: _ =>
        if series0.Values.length ≤ 0 then ⟨calls, .ok []⟩
        else
          let points := series0.Values
          ⟨calls, (MapPointsToStationBikeStates points).bind fun states =>
            FilterStationBikeStatesByModulus states modulus⟩

/-! ## `encoding/json` at type `Station`

`json.Unmarshal` first checks that the whole text is one JSON value (RFC 8259) and only
then decodes it into the target; `json.Marshal` writes the compact text of a struct, field
by field, under the names of the `json` tags. The text of a `float64` comes from
`strconv` and is a parameter here (`formatFloat`, `parseFloat`). -/


/-- A JSON value as the decoder reads it; a number keeps its text. -/
inductive Json where
  | null
  | bool (b : Bool)
  | num (token : String)
  | str (s : String)
  | arr (elems : List Json)
  | obj (members : List (String × Json))

namespace Json

/-- The four characters of JSON white space. -/
def isSpace (c : Char) : Bool :=
  c = ' ' || c = '\t' || c = '\r' || c = '\n'

def skipSpace : List Char → List Char
  | [] => []
  | c :: cs => if isSpace c then skipSpace cs else c :: cs

def isDigit (c : Char) : Bool :=
  decide (48 ≤ c.toNat) && decide (c.toNat ≤ 57)

/-- The value of a hexadecimal digit, either case. -/
def hexValue (c : Char) : Option Nat :=
  if 48 ≤ c.toNat ∧ c.toNat ≤ 57 then some (c.toNat - 48)
  else if 97 ≤ c.toNat ∧ c.toNat ≤ 102 then some (c.toNat - 87)
  else if 65 ≤ c.toNat ∧ c.toNat ≤ 70 then some (c.toNat - 55)
  else none

/-- The value of four hexadecimal digits (`getu4`). -/
def hex4 (a b c d : Char) : Option Nat :=
  match hexValue a, hexValue b, hexValue c, hexValue d with
  | some x, some y, some z, some w => some (((x * 16 + y) * 16 + z) * 16 + w)
  | _, _, _, _ => none

/-- The low half of a surrogate pair, when the text starts with its `\uXXXX` escape. -/
def lowSurrogate : List Char → Option Nat
  | b :: u :: e :: f :: g :: h :: _ =>
    if b = '\\' ∧ u = 'u' then
      match hex4 e f g h with
      | some v => if 0xDC00 ≤ v ∧ v < 0xE000 then some v else none
      | none => none
    else none
  | _ => none

/-- The character an escape stands for and the number of characters it takes after the
backslash. A surrogate half that is not part of a valid pair becomes U+FFFD. -/
def escapeAt : List Char → Option (Char × Nat)
  | [] => none
  | e :: rest =>
    if e = '"' then some ('"', 1)
    else if e = '\\' then some ('\\', 1)
    else if e = '/' then some ('/', 1)
    else if e = 'b' then some (Char.ofNat 8, 1)
    else if e = 'f' then some (Char.ofNat 12, 1)
    else if e = 'n' then some ('\n', 1)
    else if e = 'r' then some ('\r', 1)
    else if e = 't' then some ('\t', 1)
    else if e = 'u' then
      match rest with
      | a :: b :: c :: d :: more =>
        match hex4 a b c d with
        | none => none
        | some u =>
          if 0xD800 ≤ u ∧ u < 0xDC00 then
            match lowSurrogate more with
            | some v => some (Char.ofNat (0x10000 + (u - 0xD800) * 0x400 + (v - 0xDC00)), 11)
            | none => some (Char.ofNat 0xFFFD, 5)
          else if 0xDC00 ≤ u ∧ u < 0xE000 then some (Char.ofNat 0xFFFD, 5)
          else some (Char.ofNat u, 5)
      | _ => none
    else none

/-- A string literal after its opening quote: the characters it denotes and the text
after the closing quote. `skip` counts the characters of an escape still to pass over. -/
def scanString : Nat → List Char → Option (List Char × List Char)
  | _, [] => none
  | skip + 1, _ :: rest => scanString skip rest
  | 0, c :: rest =>
    if c = '"' then some ([], rest)
    else if c = '\\' then
      match escapeAt rest with
      | some (ch, n) => (scanString n rest).map fun (s, r) => (ch :: s, r)
      | none => none
    else if c.toNat < 32 then none
    else (scanString 0 rest).map fun (s, r) => (c :: s, r)

/-- The optional fraction of a number: a point and at least one digit. -/
def scanFraction : List Char → Option (List Char × List Char)
  | [] => some ([], [])
  | c :: rest =>
    if c = '.' then
      if rest.takeWhile isDigit = [] then none
      else some (c :: rest.takeWhile isDigit, rest.dropWhile isDigit)
    else some ([], c :: rest)

/-- The digits of an exponent after its optional sign: at least one. -/
def scanExponentDigits (mark : List Char) (cs : List Char) : Option (List Char × List Char) :=
  if cs.takeWhile isDigit = [] then none
  else some (mark ++ cs.takeWhile isDigit, cs.dropWhile isDigit)

/-- The optional exponent of a number: `e` or `E`, an optional sign, at least one digit. -/
def scanExponent : List Char → Option (List Char × List Char)
  | [] => some ([], [])
  | c :: rest =>
    if c = 'e' ∨ c = 'E' then
      match rest with
      | s :: rest2 =>
        if s = '+' ∨ s = '-' then scanExponentDigits [c, s] rest2
        else scanExponentDigits [c] (s :: rest2)
      | [] => none
    else some ([], c :: rest)

/-- The integer part, the fraction and the exponent of a number, after the sign. -/
def scanUnsigned : List Char → Option (List Char × List Char)
  | [] => none
  | d :: rest =>
    if isDigit d then
      let intPart := if d = '0' then [d] else d :: rest.takeWhile isDigit
      let afterInt := if d = '0' then rest else rest.dropWhile isDigit
      match scanFraction afterInt with
      | none => none
      | some (fraction, afterFraction) =>
        match scanExponent afterFraction with
        | none => none
        | some (exponent, afterExponent) =>
          some (intPart ++ fraction ++ exponent, afterExponent)
    else none

/-- A number token at the head of the text and the text after it. -/
def scanNumber : List Char → Option (List Char × List Char)
  | [] => none
  | c :: rest =>
    if c = '-' then (scanUnsigned rest).map fun (t, r) => (c :: t, r)
    else scanUnsigned (c :: rest)

/-- A text is a number token from its first to its last character. -/
def isNumber (token : String) : Bool :=
  scanNumber token.data == some (token.data, [])

/-- What may follow a value inside a JSON text: nothing, a comma or a closing mark. -/
def endsValue : List Char → Bool
  | [] => true
  | c :: _ => c = ',' || c = '}' || c = ']'

/-- The text after `literal`, when the text starts with it. -/
def dropLiteral : List Char → List Char → Option (List Char)
  | [], cs => some cs
  | _ :: _, [] => none
  | l :: ls, c :: cs => if l = c then dropLiteral ls cs else none

mutual

/-- One JSON value at the head of the text (white space before it allowed) and the text
after it. `fuel` bounds the depth of the calls. -/
def parseValue : Nat → List Char → Option (Json × List Char)
  | 0, _ => none
  | fuel + 1, cs =>
    match skipSpace cs with
    | [] => none
    | c :: rest =>
      if c = '{' then
        match skipSpace rest with
        | [] => none
        | c2 :: rest2 =>
          if c2 = '}' then some (.obj [], rest2)
          else (parseMembers fuel (c2 :: rest2)).map fun (ms, r) => (.obj ms, r)
      else if c = '[' then
        match skipSpace rest with
        | [] => none
        | c2 :: rest2 =>
          if c2 = ']' then some (.arr [], rest2)
          else (parseElements fuel (c2 :: rest2)).map fun (es, r) => (.arr es, r)
      else if c = '"' then (scanString 0 rest).map fun (s, r) => (.str (String.mk s), r)
      else if c = 't' then (dropLiteral ['r', 'u', 'e'] rest).map fun r => (.bool true, r)
      else if c = 'f' then
        (dropLiteral ['a', 'l', 's', 'e'] rest).map fun r => (.bool false, r)
      else if c = 'n' then (dropLiteral ['u', 'l', 'l'] rest).map fun r => (.null, r)
      else (scanNumber (c :: rest)).map fun (t, r) => (.num (String.mk t), r)

/-- The members of an object after its opening brace, up to and with the closing brace. -/
def parseMembers : Nat → List Char → Option (List (String × Json) × List Char)
  | 0, _ => none
  | fuel + 1, cs =>
    match skipSpace cs with
    | [] => none
    | q :: rest =>
      if q = '"' then
        match scanString 0 rest with
        | none => none
        | some (key, afterKey) =>
          match skipSpace afterKey with
          | [] => none
          | colon :: afterColon =>
            if colon = ':' then
              match parseValue fuel afterColon with
              | none => none
              | some (value, afterValue) =>
                match skipSpace afterValue with
                | [] => none
                | sep :: afterSep =>
                  if sep = ',' then
                    (parseMembers fuel afterSep).map fun (ms, r) =>
                      ((String.mk key, value) :: ms, r)
                  else if sep = '}' then some ([(String.mk key, value)], afterSep)
                  else none
            else none
      else none

/-- The elements of an array after its opening bracket, up to and with the closing one. -/
def parseElements : Nat → List Char → Option (List Json × List Char)
  | 0, _ => none
  | fuel + 1, cs =>
    match parseValue fuel cs with
    | none => none
    | some (value, afterValue) =>
      match skipSpace afterValue with
      | [] => none
      | sep :: afterSep =>
        if sep = ',' then (parseElements fuel afterSep).map fun (es, r) => (value :: es, r)
        else if sep = ']' then some ([value], afterSep)
        else none

end

mutual

/-- No array or object of the value lies deeper than `depth` arrays and objects. -/
def withinDepth : Nat → Json → Bool
  | depth, .arr elems => decide (0 < depth) && withinDepthElements (depth - 1) elems
  | depth, .obj members => decide (0 < depth) && withinDepthMembers (depth - 1) members
  | _, _ => true

def withinDepthElements : Nat → List Json → Bool
  | _, [] => true
  | depth, e :: es => withinDepth depth e && withinDepthElements depth es

def withinDepthMembers : Nat → List (String × Json) → Bool
  | _, [] => true
  | depth, m :: ms => withinDepth depth m.2 && withinDepthMembers depth ms

end

/-- The scanner gives up past this many nested arrays and objects. -/
def maxNestingDepth : Nat := 10000

/-- The JSON value a text consists of, white space around it allowed; `none` when the
text is not valid JSON or is nested too deep (`checkValid`). -/
def parse (data : String) : Option Json :=
  match parseValue (2 * data.length + 2) data.data with
  | some (value, rest) =>
    if skipSpace rest = [] ∧ withinDepth maxNestingDepth value = true then some value else none
  | none => none

/-- How the decoder names the kind of a value in a type error. -/
def kind : Json → String
  | .null => "null"
  | .bool _ => "bool"
  | .num _ => "number"
  | .str _ => "string"
  | .arr _ => "array"
  | .obj _ => "object"

end Json


namespace Json

/-! ### Decoding into a `Station` -/

/-- The fold of one character of a key (`foldRune`): ASCII letters to upper case, and the
two characters outside ASCII that fold to an ASCII letter. -/
def foldChar (c : Char) : Char :=
  if 97 ≤ c.toNat ∧ c.toNat ≤ 122 then Char.ofNat (c.toNat - 32)
  else if c.toNat = 0x17F then 'S'
  else if c.toNat = 0x212A then 'K'
  else c

def foldName (s : String) : String :=
  String.mk (s.data.map foldChar)

/-- A key selects the field of that name, exactly or up to case folding. -/
def matchesField (key : String) (name : String) : Bool :=
  key == name || foldName key == foldName name

/-- The message of an `UnmarshalTypeError`: what was read, the struct and the path of the
field it was read for (none at the top level), and the Go type of the target. -/
def typeErrorText (what field goType : String) : String :=
  if field = "" then "json: cannot unmarshal " ++ what ++ " into Go value of type " ++ goType
  else "json: cannot unmarshal " ++ what ++ " into Go struct field " ++ field ++ " of type "
    ++ goType

/-- The error of a value that does not fit the Go type of its target. -/
def typeError (value : Json) (field goType : String) : String :=
  typeErrorText value.kind field goType

/-- The decoder reports the first type error it met (`saveError`). -/
def saveError (first : Option String) (next : Option String) : Option String :=
  match first with
  | some e => some e
  | none => next

/-- A value into an `int` or `int64` target: `null` changes nothing, a number must pass
`strconv.ParseInt`, anything else is a type error and the target stays. -/
def decodeInt (field goType : String) (value : Json) (old : Int) : Int × Option String :=
  match value with
  | .null => (old, none)
  | .num token =>
    match ParseInt token with
    | (n, none) => (n, none)
    | (_, some _) => (old, some (typeErrorText ("number " ++ token) field goType))
  | other => (old, some (typeError other field goType))

/-- A value into a `float64` target, the number read by `strconv.ParseFloat`. -/
def decodeFloat (parseFloat : String → Float64 × Option NumError) (field : String)
    (value : Json) (old : Float64) : Float64 × Option String :=
  match value with
  | .null => (old, none)
  | .num token =>
    match parseFloat token with
    | (x, none) => (x, none)
    | (_, some _) => (old, some (typeErrorText ("number " ++ token) field "float64"))
  | other => (old, some (typeError other field "float64"))

def decodeString (field : String) (value : Json) (old : String) : String × Option String :=
  match value with
  | .null => (old, none)
  | .str s => (s, none)
  | other => (old, some (typeError other field "string"))

def decodeBool (field : String) (value : Json) (old : Bool) : Bool × Option String :=
  match value with
  | .null => (old, none)
  | .bool b => (b, none)
  | other => (old, some (typeError other field "bool"))

/-- One member of an object into an `Image`; a key that names no field is skipped. An
error names the struct `Image` and the path of the field from the `Station`. -/
def decodeImageMember (acc : Image × Option String) (member : String × Json) :
    Image × Option String :=
  if matchesField member.1 "uid" then
    ({ acc.1 with Uid := (decodeInt "Image.images.uid" "int" member.2 acc.1.Uid).1 },
      saveError acc.2 (decodeInt "Image.images.uid" "int" member.2 acc.1.Uid).2)
  else if matchesField member.1 "width" then
    ({ acc.1 with Width := (decodeInt "Image.images.width" "int" member.2 acc.1.Width).1 },
      saveError acc.2 (decodeInt "Image.images.width" "int" member.2 acc.1.Width).2)
  else if matchesField member.1 "quality" then
    ({ acc.1 with Quality :=
        (decodeInt "Image.images.quality" "int" member.2 acc.1.Quality).1 },
      saveError acc.2 (decodeInt "Image.images.quality" "int" member.2 acc.1.Quality).2)
  else acc

def decodeImage (value : Json) (old : Image) : Image × Option String :=
  match value with
  | .null => (old, none)
  | .obj members => members.foldl decodeImageMember (old, none)
  | other => (old, some (typeError other "Station.images" "main.Image"))

/-- The elements of an array into a slice: element `i` is decoded into the old element
`i` when there is one, else into a zero `Image`. -/
def decodeElements : List Json → List Image → List Image × Option String
  | [], _ => ([], none)
  | e :: es, old =>
    ((decodeImage e (old.headD ⟨0, 0, 0⟩)).1 :: (decodeElements es old.tail).1,
      saveError (decodeImage e (old.headD ⟨0, 0, 0⟩)).2 (decodeElements es old.tail).2)

/-- A value into the slice `[]Image`: `null` gives the nil slice, an array is decoded
element by element and gives a slice of its length. -/
def decodeImages (value : Json) (old : List Image) : List Image × Option String :=
  match value with
  | .null => ([], none)
  | .arr elems => decodeElements elems old
  | other => (old, some (typeError other "Station.images" "[]main.Image"))

def decodePositionMember (parseFloat : String → Float64 × Option NumError)
    (acc : Position × Option String) (member : String × Json) : Position × Option String :=
  if matchesField member.1 "lat" then
    ({ acc.1 with Latitude :=
        (decodeFloat parseFloat "Position.position.lat" member.2 acc.1.Latitude).1 },
      saveError acc.2 (decodeFloat parseFloat "Position.position.lat" member.2 acc.1.Latitude).2)
  else if matchesField member.1 "lng" then
    ({ acc.1 with Longitude :=
        (decodeFloat parseFloat "Position.position.lng" member.2 acc.1.Longitude).1 },
      saveError acc.2
        (decodeFloat parseFloat "Position.position.lng" member.2 acc.1.Longitude).2)
  else acc

def decodePosition (parseFloat : String → Float64 × Option NumError) (value : Json)
    (old : Position) : Position × Option String :=
  match value with
  | .null => (old, none)
  | .obj members => members.foldl (decodePositionMember parseFloat) (old, none)
  | other => (old, some (typeError other "Station.position" "main.Position"))

/-- One member of an object into a `Station`, by the names of the `json` tags
(`main.go` 67-81). -/
def decodeStationMember (parseFloat : String → Float64 × Option NumError)
    (acc : Station × Option String) (member : String × Json) : Station × Option String :=
  if matchesField member.1 "number" then
    ({ acc.1 with Number := (decodeInt "Station.number" "int" member.2 acc.1.Number).1 },
      saveError acc.2 (decodeInt "Station.number" "int" member.2 acc.1.Number).2)
  else if matchesField member.1 "name" then
    ({ acc.1 with Name := (decodeString "Station.name" member.2 acc.1.Name).1 },
      saveError acc.2 (decodeString "Station.name" member.2 acc.1.Name).2)
  else if matchesField member.1 "address" then
    ({ acc.1 with Address := (decodeString "Station.address" member.2 acc.1.Address).1 },
      saveError acc.2 (decodeString "Station.address" member.2 acc.1.Address).2)
  else if matchesField member.1 "position" then
    ({ acc.1 with Position := (decodePosition parseFloat member.2 acc.1.Position).1 },
      saveError acc.2 (decodePosition parseFloat member.2 acc.1.Position).2)
  else if matchesField member.1 "banking" then
    ({ acc.1 with Banking := (decodeBool "Station.banking" member.2 acc.1.Banking).1 },
      saveError acc.2 (decodeBool "Station.banking" member.2 acc.1.Banking).2)
  else if matchesField member.1 "bonus" then
    ({ acc.1 with Bonus := (decodeBool "Station.bonus" member.2 acc.1.Bonus).1 },
      saveError acc.2 (decodeBool "Station.bonus" member.2 acc.1.Bonus).2)
  else if matchesField member.1 "status" then
    ({ acc.1 with Status := (decodeString "Station.status" member.2 acc.1.Status).1 },
      saveError acc.2 (decodeString "Station.status" member.2 acc.1.Status).2)
  else if matchesField member.1 "contract_name" then
    ({ acc.1 with ContractName := (decodeString "Station.contract_name" member.2 acc.1.ContractName).1 },
      saveError acc.2 (decodeString "Station.contract_name" member.2 acc.1.ContractName).2)
  else if matchesField member.1 "bike_stands" then
    ({ acc.1 with BikeStands := (decodeInt "Station.bike_stands" "int64" member.2 acc.1.BikeStands).1 },
      saveError acc.2 (decodeInt "Station.bike_stands" "int64" member.2 acc.1.BikeStands).2)
  else if matchesField member.1 "available_bike_stands" then
    ({ acc.1 with AvailableBikeStands :=
        (decodeInt "Station.available_bike_stands" "int64" member.2 acc.1.AvailableBikeStands).1 },
      saveError acc.2 (decodeInt "Station.available_bike_stands" "int64" member.2 acc.1.AvailableBikeStands).2)
  else if matchesField member.1 "available_bikes" then
    ({ acc.1 with AvailableBikes := (decodeInt "Station.available_bikes" "int64" member.2 acc.1.AvailableBikes).1 },
      saveError acc.2 (decodeInt "Station.available_bikes" "int64" member.2 acc.1.AvailableBikes).2)
  else if matchesField member.1 "last_update" then
    ({ acc.1 with LastUpdate := (decodeString "Station.last_update" member.2 acc.1.LastUpdate).1 },
      saveError acc.2 (decodeString "Station.last_update" member.2 acc.1.LastUpdate).2)
  else if matchesField member.1 "images" then
    ({ acc.1 with Images := (decodeImages member.2 acc.1.Images).1 },
      saveError acc.2 (decodeImages member.2 acc.1.Images).2)
  else acc

def decodeStation (parseFloat : String → Float64 × Option NumError) (value : Json)
    (old : Station) : Station × Option String :=
  match value with
  | .null => (old, none)
  | .obj members => members.foldl (decodeStationMember parseFloat) (old, none)
  | other => (old, some (typeError other "" "main.Station"))

/-- `json.Unmarshal(data, &station)`: a text that is not valid JSON is rejected before the
target is touched; a valid one is decoded as far as its values fit. The message of the
syntax error, which in the library names the offending character, is shortened; the
program drops it (`main.go` 395). -/
def Unmarshal (parseFloat : String → Float64 × Option NumError) (data : String)
    (station : Station) : Station × Option String :=
  match parse data with
  | none => (station, some "json: invalid character in the text or unexpected end of JSON input")
  | some value => decodeStation parseFloat value station

/-! ### Encoding a `Station` -/

/-- A hexadecimal digit, lower case. -/
def hexDigit (n : Nat) : Char :=
  if n < 10 then Char.ofNat (48 + n) else Char.ofNat (87 + n)

/-- One character inside a string literal: the quote and the backslash get a backslash,
the control characters their short or `\u00XX` escape, and `<`, `>`, `&`, U+2028 and
U+2029 their `\uXXXX` escape. -/
def escapeChar (c : Char) : List Char :=
  if c = '"' then ['\\', '"']
  else if c = '\\' then ['\\', '\\']
  else if c.toNat = 8 then ['\\', 'b']
  else if c.toNat = 12 then ['\\', 'f']
  else if c = '\n' then ['\\', 'n']
  else if c = '\r' then ['\\', 'r']
  else if c = '\t' then ['\\', 't']
  else if c.toNat < 32 ∨ c = '<' ∨ c = '>' ∨ c = '&' then
    ['\\', 'u', '0', '0', hexDigit (c.toNat / 16), hexDigit (c.toNat % 16)]
  else if c.toNat = 0x2028 then ['\\', 'u', '2', '0', '2', '8']
  else if c.toNat = 0x2029 then ['\\', 'u', '2', '0', '2', '9']
  else [c]

def escapeChars : List Char → List Char
  | [] => []
  | c :: cs => escapeChar c ++ escapeChars cs

/-- A string literal. -/
def quote (s : String) : List Char :=
  '"' :: (escapeChars s.data ++ ['"'])

/-- The members of an object, each `"name":value`, separated by commas. -/
def printMembers : List (String × List Char) → List Char
  | [] => []
  | [member] => quote member.1 ++ ':' :: member.2
  | member :: rest => quote member.1 ++ ':' :: member.2 ++ ',' :: printMembers rest

def printObject (members : List (String × List Char)) : List Char :=
  '{' :: (printMembers members ++ ['}'])

def printElements : List (List Char) → List Char
  | [] => []
  | [element] => element
  | element :: rest => element ++ ',' :: printElements rest

def printArray (elements : List (List Char)) : List Char :=
  '[' :: (printElements elements ++ [']'])

/-- Neither an infinity nor a NaN: the exponent field is not all ones. -/
def isFinite (x : Float64) : Bool :=
  x.bits / 2 ^ 52 % 2 ^ 11 != 2047

/-- How the encoder names a value that is not finite in its error. -/
def nonFiniteText (x : Float64) : String :=
  if x.bits % 2 ^ 52 ≠ 0 then "NaN"
  else if x.bits / 2 ^ 63 % 2 = 1 then "-Inf"
  else "+Inf"

def encodeImage (image : Image) : List Char :=
  printObject [("uid", (toString image.Uid).data), ("width", (toString image.Width).data),
    ("quality", (toString image.Quality).data)]

def encodePosition (formatFloat : Float64 → String) (position : Position) : List Char :=
  printObject [("lat", (formatFloat position.Latitude).data),
    ("lng", (formatFloat position.Longitude).data)]

/-- The slice `Images`: `null` for the nil slice, else the array of its elements. The
empty list stands for the nil slice when `nilImages` holds and for the empty slice else. -/
def encodeImages (nilImages : Bool) (images : List Image) : List Char :=
  if images = [] ∧ nilImages = true then ['n', 'u', 'l', 'l']
  else printArray (images.map encodeImage)

/-- `json.Marshal(station)`: the compact object of the thirteen fields in the order of
the struct, or an error when a coordinate is an infinity or a NaN. -/
def Marshal (formatFloat : Float64 → String) (nilImages : Bool) (station : Station) :
    Except String String :=
  if isFinite station.Position.Latitude = false then
    .error ("json: unsupported value: " ++ nonFiniteText station.Position.Latitude)
  else if isFinite station.Position.Longitude = false then
    .error ("json: unsupported value: " ++ nonFiniteText station.Position.Longitude)
  else
    .ok (String.mk (printObject
      [("number", (toString station.Number).data),
        ("name", quote station.Name),
        ("address", quote station.Address),
        ("position", encodePosition formatFloat station.Position),
        ("banking", (toString station.Banking).data),
        ("bonus", (toString station.Bonus).data),
        ("status", quote station.Status),
        ("contract_name", quote station.ContractName),
        ("bike_stands", (toString station.BikeStands).data),
        ("available_bike_stands", (toString station.AvailableBikeStands).data),
        ("available_bikes", (toString station.AvailableBikes).data),
        ("last_update", quote station.LastUpdate),
        ("images", encodeImages nilImages station.Images)]))

/-! ### What a Go `Station` can hold, and the value its text stands for -/

/-- A value of a Go `int` or `int64`. -/
def isInt64 (z : Int) : Prop :=
  -(2 : Int) ^ 63 ≤ z ∧ z < (2 : Int) ^ 63

/-- The integer fields of an `Image` are Go integers. -/
def wellFormedImage (image : Image) : Prop :=
  isInt64 image.Uid ∧ isInt64 image.Width ∧ isInt64 image.Quality

/-- The integer fields of a `Station` and of its images are Go integers. -/
def wellFormed (station : Station) : Prop :=
  isInt64 station.Number ∧ isInt64 station.BikeStands ∧ isInt64 station.AvailableBikeStands ∧
    isInt64 station.AvailableBikes ∧ ∀ image ∈ station.Images, wellFormedImage image

/-- The contract of `strconv` on the text of one finite `float64`: `FormatFloat` writes a
JSON number that `ParseFloat` reads back as the same value. -/
def floatText (formatFloat : Float64 → String)
    (parseFloat : String → Float64 × Option NumError) (x : Float64) : Prop :=
  isNumber (formatFloat x) = true ∧ parseFloat (formatFloat x) = (x, none)

/-- The JSON value `encodeImage` writes. -/
def imageJson (image : Image) : Json :=
  .obj [("uid", .num (toString image.Uid)), ("width", .num (toString image.Width)),
    ("quality", .num (toString image.Quality))]

/-- The JSON value `encodePosition` writes. -/
def positionJson (formatFloat : Float64 → String) (position : Position) : Json :=
  .obj [("lat", .num (formatFloat position.Latitude)),
    ("lng", .num (formatFloat position.Longitude))]

/-- The JSON value `encodeImages` writes. -/
def imagesJson (nilImages : Bool) (images : List Image) : Json :=
  if images = [] ∧ nilImages = true then .null else .arr (images.map imageJson)

/-- The JSON value `Marshal` writes for a station with finite coordinates. -/
def stationJson (formatFloat : Float64 → String) (nilImages : Bool) (station : Station) : Json :=
  .obj [("number", .num (toString station.Number)),
    ("name", .str station.Name),
    ("address", .str station.Address),
    ("position", positionJson formatFloat station.Position),
    ("banking", .bool station.Banking),
    ("bonus", .bool station.Bonus),
    ("status", .str station.Status),
    ("contract_name", .str station.ContractName),
    ("bike_stands", .num (toString station.BikeStands)),
    ("available_bike_stands", .num (toString station.AvailableBikeStands)),
    ("available_bikes", .num (toString station.AvailableBikes)),
    ("last_update", .str station.LastUpdate),
    ("images", imagesJson nilImages station.Images)]

end Json

/-! ## The integer a number token stands for

The reading of "the 64-bit integer value" of a numeric field that the code is compared
with: the mathematical value of the JSON number, when that value is an integer. -/

/-- The number a run of decimal digits reads as. -/
def digitsValue (cs : List Char) : Nat :=
  cs.foldl (fun a c => a * 10 + (c.toNat - 48)) 0

/-- The exponent written after the fraction of a number token: nothing, or `e` or `E`,
an optional sign and digits. -/
def specExponent : List Char → Int
  | [] => 0
  | _ :: '-' :: ds => -(digitsValue ds : Int)
  | _ :: '+' :: ds => (digitsValue ds : Int)
  | _ :: ds => (digitsValue ds : Int)

/-- The integer that a JSON number token denotes: sign, digits, fraction and exponent are
read as `± digits.fraction × 10 ^ exponent`; `none` when the token is not a JSON number or
its value is not an integer. -/
def specIntegerValue (token : String) : Option Int :=
  if Json.isNumber token = false then none
  else
    let negative : Bool := token.data.head? == some '-'
    let body := if negative then token.data.tail else token.data
    let whole := body.takeWhile Json.isDigit
    let afterWhole := body.dropWhile Json.isDigit
    let dotted : Bool := afterWhole.head? == some '.'
    let fraction := if dotted then afterWhole.tail.takeWhile Json.isDigit else []
    let afterFraction := if dotted then afterWhole.tail.dropWhile Json.isDigit else afterWhole
    let scale : Int := specExponent afterFraction - (fraction.length : Int)
    let digits : Nat := digitsValue (whole ++ fraction)
    let mantissa : Int := if negative then -(digits : Int) else (digits : Int)
    if 0 ≤ scale then some (mantissa * ((10 ^ scale.toNat : Nat) : Int))
    else if digits % 10 ^ (-scale).toNat = 0 then
      some (if negative then -((digits / 10 ^ (-scale).toNat : Nat) : Int)
        else ((digits / 10 ^ (-scale).toNat : Nat) : Int))
    else none

/-! ## Request handling (`main.go` 94-162) -/

/-- The pieces of `strings.Split(s, sep)` for a one-character separator, on characters:
one piece more than there are separators, the empty text giving one empty piece. -/
def Split.chars (sep : Char) : List Char → List (List Char)
  | [] => [[]]
  | c :: cs =>
    if c = sep then [] :: Split.chars sep cs
    else
      match Split.chars sep cs with
      | [] => [[c]]
      | piece :: pieces => (c :: piece) :: pieces

/-- `strings.Split(s, sep)` for a one-character separator. -/
def Split (s : String) (sep : Char) : List String :=
  (Split.chars sep s.data).map String.mk

/-- Standard-library parsers the handlers call, each giving its value and its error:
`strconv.ParseFloat(s, 64)` and `time.Parse(layout, value)`. -/
structure Lib where
  ParseFloat : String → Float64 × Option NumError
  Parse : String → String → Time × Option String

/-- A `gin.Context` as far as the handlers read it: the first value of each URL query key,
and the parameters the router bound from the path, in order. -/
structure Context where
  query : List (String × String)
  params : List (String × String)

/-- `c.DefaultQuery(key, defaultValue)`: the value of the key when present, else the default. -/
def Context.DefaultQuery (c : Context) (key : String) (defaultValue : String) : String :=
  match c.query.lookup key with
  | some value => value
  | none => defaultValue

/-- `c.Query(key)`: the value of the key when present, else the empty text. -/
def Context.Query (c : Context) (key : String) : String :=
  match c.query.lookup key with
  | some value => value
  | none => ""

/-- `c.Param(key)`: the value of the first bound parameter of that name, else the empty text. -/
def Context.Param (c : Context) (key : String) : String :=
  match c.params.lookup key with
  | some value => value
  | none => ""

/-- `c.JSON(code, obj)` after `obj` was computed by `run`: the response is the pair of the
status code and the value; a run that did not return writes no response. -/
def JSON {α : Type} (code : Nat) (run : Run α) : Run (Nat × α) :=
  ⟨run.calls, run.outcome.bind fun obj => .ok (code, obj)⟩

/-- `http.StatusOK`. -/
def StatusOK : Nat := 200

/-- `lat != 0` on `float64`: every pattern but the two zeros (NaN included) differs from 0. -/
def Float64.neZero (x : Float64) : Bool :=
  x.bits != 0 && x.bits != 2 ^ 63

def stationsHandler (env : Env) (lib : Lib) (c : Context) : Run (Nat × List Station) :=
  let contractName := c.DefaultQuery "contract-name" "Paris"
  let numbers := FilterString (Split (c.DefaultQuery "numbers" "") ',')
    (fun number => number != "")
  let lat := (lib.ParseFloat (c.Query "lat")).1
  let lng := (lib.ParseFloat (c.Query "lng")).1
  let distance := (lib.ParseFloat (c.DefaultQuery "distance" "5000")).1
  if numbers.length > 0 then
    JSON StatusOK (findByNumbers env contractName numbers)
  else if lat.neZero && lng.neZero then
    JSON StatusOK (findNearby env contractName lat lng distance)
  else
    JSON StatusOK (findByContractName env contractName)

def stationsAvailabilityInfosHandler (env : Env) (lib : Lib) (c : Context) :
    Run (Nat × List StationBikeState) :=
  let contractName := if c.Param "contract-name" = "" then "Paris" else c.Param "contract-name"
  let date := (lib.Parse "20060102-1504" (c.Param "date")).1
  let stationNumber := c.Param "stationNumber"
  JSON StatusOK (fetchInfluxDbDataByDateAndStationNumber env contractName date stationNumber 60)

/-- The router, one segment at a time: a `:name` segment of the pattern binds the path
segment (an empty one too) under `name`, any other segment must be equal. -/
def bindSegments : List String → List String → Option (List (String × String))
  | [], [] => some []
  | pattern :: patterns, segment :: segments =>
    match pattern.data with
    | ':' :: name =>
      (bindSegments patterns segments).map fun rest => (String.mk name, segment) :: rest
    | _ => if pattern = segment then bindSegments patterns segments else none
  | _, _ => none

/-- The parameters the router binds when `path` matches the route `pattern`. -/
def matchRoute (pattern : String) (path : String) : Option (List (String × String)) :=
  bindSegments (Split pattern '/') (Split path '/')

/-- The route registered for `stationsAvailabilityInfosHandler` (line 110). -/
def availabilityInfosRoute : String :=
  "/stations/:contractName/:stationNumber/:date/availability-infos"

/-- A GET request on `path` with no query, served by the route of line 110 when it
matches; `none` stands for a path the route does not match. -/
def serveAvailabilityInfos (env : Env) (lib : Lib) (path : String) :
    Option (Run (Nat × List StationBikeState)) :=
  (matchRoute availabilityInfosRoute path).map fun params =>
    stationsAvailabilityInfosHandler env lib { query := [], params := params }

/-! ## Sample inputs -/

/-- A one-minute sample: the minute index stands in both counters. -/
def sampleState (i : Nat) : StationBikeState := ⟨"2020-01-01T00:00:00Z", i, i⟩

/-- 180 one-minute samples. -/
def rows180 : List StationBikeState := (List.range 180).map sampleState

/-- A Redis server: a geo index per key, a key listing per pattern, and string values.
A bulk get is positional; with no key at all the server rejects the command. -/
def redisOf (geo : String → List GeoLocation) (listing : String → List String)
    (lookup : String → Option String) : RedisClient :=
  { GeoRadius := fun key _ _ _ => ⟨geo key, none⟩
    MGet := fun keys =>
      if keys = [] then ⟨[], some "ERR wrong number of arguments"⟩
      else ⟨keys.map (fun k => bulkEntry (lookup k)), none⟩
    Keys := fun pattern => ⟨listing pattern, none⟩ }

/-- An InfluxDB client that gives the same answer to every query. -/
def influxOf (answer : Except String Response) : InfluxClient := ⟨fun _ => answer⟩

/-- The JSON text of a record that carries only a station number 1. -/
def textNumber1 : String := "\x7b\"number\":1\x7d"

/-- The JSON text of a record that carries only a station number 7. -/
def textNumber7 : String := "\x7b\"number\":7\x7d"

/-- What `json.Unmarshal` does with the two sample texts: the `number` field is set, the
other fields are left as they were, no error. Any other text is outside the samples and
is answered with an error and the target untouched. -/
def sampleUnmarshal (data : String) (station : Station) : Station × Option String :=
  if data = textNumber1 then ({ station with Number := 1 }, none)
  else if data = textNumber7 then ({ station with Number := 7 }, none)
  else (station, some "json: cannot decode")

/-- Geo members of the sample index, nearest first: 0.5 km, 1 km, 2 km. -/
def sampleGeo (key : String) : List GeoLocation :=
  if key = "Paris_stations" then
    [⟨"7", ⟨0⟩, ⟨0⟩, ⟨0x3FE0000000000000⟩, 0⟩, ⟨"2", ⟨0⟩, ⟨0⟩, ⟨0x3FF0000000000000⟩, 0⟩,
      ⟨"1", ⟨0⟩, ⟨0⟩, ⟨0x4000000000000000⟩, 0⟩]
  else []

def sampleListing (pattern : String) : List String :=
  if pattern = "Paris_*" then ["Paris_1", "Paris_images", "Paris_7"] else []

/-- The sample cache: stations 1 and 7 of Paris and the reserved images entry. -/
def sampleLookup (key : String) : Option String :=
  if key = "Paris_1" then some textNumber1
  else if key = "Paris_7" then some textNumber7
  else if key = "Paris_images" then some "[]"
  else none

/-- A cache whose entry under `Paris_1` holds the record of station 7. -/
def mismatchLookup (key : String) : Option String :=
  if key = "Paris_1" then some textNumber7 else none

def emptyResponse : Response := { Results := [], Err := "" }

def sampleEnv : Env :=
  { cli := redisOf sampleGeo sampleListing sampleLookup
    influx := influxOf (.ok emptyResponse)
    dbDatabase := "commute"
    jsonUnmarshal := sampleUnmarshal }

def mismatchEnv : Env :=
  { cli := redisOf sampleGeo sampleListing mismatchLookup
    influx := influxOf (.ok emptyResponse)
    dbDatabase := "commute"
    jsonUnmarshal := sampleUnmarshal }

/-- An environment whose time-series store is unreachable. -/
def unreachableEnv : Env :=
  { cli := redisOf sampleGeo sampleListing sampleLookup
    influx := influxOf (.error "dial tcp: connection refused")
    dbDatabase := "commute"
    jsonUnmarshal := sampleUnmarshal }

/-- An environment whose time-series store answers with an error in the response. -/
def rejectingEnv : Env :=
  { cli := redisOf sampleGeo sampleListing sampleLookup
    influx := influxOf (.ok { Results := [], Err := "database not found" })
    dbDatabase := "commute"
    jsonUnmarshal := sampleUnmarshal }

/-- A successful answer with one result holding one series that has no row. -/
def noRowsResponse : Response :=
  { Results := [{ Series := [{ Name := "Paris_1", Columns := ["time"], Values := [] }],
                  Err := "" }],
    Err := "" }

/-- An environment whose time-series store has no row in the window. -/
def noRowsEnv : Env :=
  { cli := redisOf sampleGeo sampleListing sampleLookup
    influx := influxOf (.ok noRowsResponse)
    dbDatabase := "commute"
    jsonUnmarshal := sampleUnmarshal }

/-- The anchor of the scenario: 2020-01-01 00:00. -/
def sampleDate : Time := ⟨2020, 1, 1, 0, 0, 0, 0⟩

/-- The zero `time.Time`: January 1, year 1, 00:00:00. -/
def zeroTime : Time := ⟨1, 1, 1, 0, 0, 0, 0⟩

/-- What the two parsers answer on the texts of the samples: `ParseFloat` on "1", "2", "5000"
and on the empty text (an error and 0); `Parse` on the date "20200101-0000". Any other text
is outside the samples and is answered with an error. -/
def sampleLib : Lib :=
  { ParseFloat := fun s =>
      if s = "1" then (⟨0x3FF0000000000000⟩, none)
      else if s = "2" then (⟨0x4000000000000000⟩, none)
      else if s = "5000" then (⟨0x40B3880000000000⟩, none)
      else (⟨0⟩, some .malformed)
    Parse := fun layout value =>
      if layout = "20060102-1504" ∧ value = "20200101-0000" then (sampleDate, none)
      else (zeroTime, some "parsing time: cannot parse") }

/-- A cache that cannot be reached: every command fails and carries no value. -/
def unreachableRedis : RedisClient :=
  { GeoRadius := fun _ _ _ _ => ⟨[], some "dial tcp: connection refused"⟩
    MGet := fun _ => ⟨[], some "dial tcp: connection refused"⟩
    Keys := fun _ => ⟨[], some "dial tcp: connection refused"⟩ }

/-- A cache whose geo index and key listing answer but whose bulk get fails. -/
def failingBulkGetRedis : RedisClient :=
  { GeoRadius := fun key _ _ _ => ⟨sampleGeo key, none⟩
    MGet := fun _ => ⟨[], some "READONLY command rejected"⟩
    Keys := fun pattern => ⟨sampleListing pattern, none⟩ }

/-- An environment whose cache fails every bulk get. -/
def failingCacheEnv : Env :=
  { cli := failingBulkGetRedis
    influx := influxOf (.ok emptyResponse)
    dbDatabase := "commute"
    jsonUnmarshal := sampleUnmarshal }

/-- An environment whose cache works and holds nothing. -/
def emptyCacheEnv : Env :=
  { cli := redisOf (fun _ => []) (fun _ => []) (fun _ => none)
    influx := influxOf (.ok emptyResponse)
    dbDatabase := "commute"
    jsonUnmarshal := sampleUnmarshal }

/-- A JSON text whose `number` has the wrong type and whose `name` is well typed. -/
def textWrongType : String := "\x7b\"number\":\"x\",\"name\":\"A\"\x7d"

/-- A text that is not JSON. -/
def textMalformed : String := "\x7bnot json"

/-- A text that is JSON but holds an array where the object of a station is expected. -/
def textArray : String := "[1,2]"

/-- A cache whose entry under `Paris_1` is `textWrongType` and under `Paris_2` is not JSON. -/
def undecodableLookup (key : String) : Option String :=
  if key = "Paris_1" then some textWrongType
  else if key = "Paris_2" then some textMalformed
  else none

/-- An environment over that cache whose decoder is `json.Unmarshal`. -/
def undecodableEnv : Env :=
  { cli := redisOf sampleGeo sampleListing undecodableLookup
    influx := influxOf (.ok emptyResponse)
    dbDatabase := "commute"
    jsonUnmarshal := Json.Unmarshal sampleLib.ParseFloat }

/-- What `strconv.FormatFloat` writes, in the shortest form that reads back, for the three
values that `sampleLib` reads: "1", "2" and "5000". Any other value is outside the samples and is
answered with "0". -/
def sampleFormatFloat (x : Float64) : String :=
  if x.bits = 0x3FF0000000000000 then "1"
  else if x.bits = 0x4000000000000000 then "2"
  else if x.bits = 0x40B3880000000000 then "5000"
  else "0"

/-- A station with every field set: texts with characters that are escaped, a negative
counter, the coordinates 1 and 2, and two images. -/
def fullStation : Station :=
  { Number := 42, Name := "Quai <de> l\"Horloge\n", Address := "1 & 2, rue \\ Paris",
    Position := ⟨⟨0x3FF0000000000000⟩, ⟨0x4000000000000000⟩⟩,
    Banking := true, Bonus := false, Status := "OPEN", ContractName := "Paris",
    BikeStands := 20, AvailableBikeStands := -3, AvailableBikes := 9223372036854775807,
    LastUpdate := "2020-01-01T00:00:00Z", Images := [⟨1, 640, 80⟩, ⟨2, 1280, 90⟩] }

/-- The sample environment with `json.Unmarshal` as its decoder. -/
def jsonEnv : Env :=
  { cli := redisOf sampleGeo sampleListing sampleLookup
    influx := influxOf (.ok emptyResponse)
    dbDatabase := "commute"
    jsonUnmarshal := Json.Unmarshal sampleLib.ParseFloat }

/-- The text `json.Marshal` writes for `fullStation`. -/
def fullStationText : String :=
  "\x7b\"number\":42,\"name\":\"Quai \\u003cde\\u003e l\\\"Horloge\\n\","
    ++ "\"address\":\"1 \\u0026 2, rue \\\\ Paris\","
    ++ "\"position\":\x7b\"lat\":1,\"lng\":2\x7d,\"banking\":true,\"bonus\":false,"
    ++ "\"status\":\"OPEN\",\"contract_name\":\"Paris\",\"bike_stands\":20,"
    ++ "\"available_bike_stands\":-3,\"available_bikes\":9223372036854775807,"
    ++ "\"last_update\":\"2020-01-01T00:00:00Z\","
    ++ "\"images\":[\x7b\"uid\":1,\"width\":640,\"quality\":80\x7d,\x7b\"uid\":2,\"width\":1280,\"quality\":90\x7d]\x7d"

/-- A station whose latitude is a NaN (exponent all ones, fraction not zero). -/
def nanStation : Station :=
  { Station.zero with Position := ⟨⟨0x7FF8000000000000⟩, ⟨0⟩⟩ }

/-- A row whose counters are the numbers 1000 and 12, written `1e3` and `12.0`. -/
def exponentRow : List Obj := [.str "2020-01-01T00:00:00Z", .number "1e3", .number "12.0"]

/-- Three one-minute rows as the time-series store returns them. -/
def sampleRows : List (List Obj) :=
  [[.str "2020-01-01T00:00:00Z", .number "12", .number "8"],
   [.str "2020-01-01T00:01:00Z", .number "11", .number "9"],
   [.str "2020-01-01T00:02:00Z", .number "10", .number "10"]]

/-- A successful answer whose first series holds `sampleRows`, followed by a second
series and a second result. -/
def rowsResponse : Response :=
  { Results :=
      [{ Series := [{ Name := "Paris_1", Columns := ["time"], Values := sampleRows },
                    { Name := "other", Columns := [], Values := [[.nil]] }],
         Err := "" },
       { Series := [{ Name := "more", Columns := [], Values := [[.bool true]] }], Err := "" }],
    Err := "" }

def rowsEnv : Env :=
  { cli := redisOf sampleGeo sampleListing sampleLookup
    influx := influxOf (.ok rowsResponse)
    dbDatabase := "commute"
    jsonUnmarshal := sampleUnmarshal }

end Commute

/-! ## Downsampling: `FilterStationBikeStatesByModulus` -/

namespace Commute

/-- A non-negative index and a positive modulus: Go's `%` is the remainder on naturals. -/
theorem tmod_natCast_eq_zero_iff (i k : Nat) : Int.tmod (i : Int) (k : Int) = 0 ↔ k ∣ i := by
  rw [← Int.ofNat_tmod, Nat.dvd_iff_mod_eq_zero]
  exact Int.natCast_eq_zero

/-- The loop keeps what it has and appends the elements whose index is a multiple of `k`:
if the next multiple of `k` is `t` steps ahead, the `j`-th appended element sits at `t + j * k`. -/
theorem FilterStationBikeStatesByModulus.loop_spec (k : Nat) (hk : 0 < k) :
    ∀ (vs : List StationBikeState) (i : Nat) (vsf : List StationBikeState),
      ∃ r, FilterStationBikeStatesByModulus.loop (k : Int) i vs vsf = .ok (vsf ++ r) ∧
        ∀ t, t < k → k ∣ i + t → ∀ j, r[j]? = vs[t + j * k]? := by
  intro vs
  induction vs with
  | nil =>
    intro i vsf
    exact ⟨[], by simp [FilterStationBikeStatesByModulus.loop], by simp⟩
  | cons v vs ih =>
    intro i vsf
    have hk0 : (k : Int) ≠ 0 := by exact_mod_cast hk.ne.symm
    by_cases hdiv : k ∣ i
    · obtain ⟨r, hr, hsel⟩ := ih (i + 1) (vsf ++ [v])
      refine ⟨v :: r, ?_, ?_⟩
      · rw [FilterStationBikeStatesByModulus.loop, if_neg hk0,
          if_pos ((tmod_natCast_eq_zero_iff i k).2 hdiv), hr]
        simp
      · intro t ht hit j
        have ht0 : t = 0 :=
          Nat.eq_zero_of_dvd_of_lt ((Nat.dvd_add_right hdiv).1 hit) ht
        subst ht0
        cases j with
        | zero => simp
        | succ j =>
          have hnext : k ∣ i + 1 + (k - 1) := by
            have : i + 1 + (k - 1) = i + k := by omega
            rw [this]
            exact (Nat.dvd_add_right hdiv).2 (dvd_refl k)
          have hidx : 0 + (j + 1) * k = (k - 1 + j * k) + 1 := by
            rw [Nat.add_mul]; omega
          rw [hidx, List.getElem?_cons_succ, List.getElem?_cons_succ]
          exact hsel (k - 1) (by omega) hnext j
    · obtain ⟨r, hr, hsel⟩ := ih (i + 1) vsf
      refine ⟨r, ?_, ?_⟩
      · rw [FilterStationBikeStatesByModulus.loop, if_neg hk0,
          if_neg (fun h => hdiv ((tmod_natCast_eq_zero_iff i k).1 h)), hr]
      · intro t ht hit j
        cases t with
        | zero => exact absurd (by simpa using hit) hdiv
        | succ t =>
          have hidx : t + 1 + j * k = (t + j * k) + 1 := by omega
          rw [hidx, List.getElem?_cons_succ]
          exact hsel t (by omega) (by rw [Nat.add_assoc, Nat.add_comm 1 t]; exact hit) j

/-- For a positive modulus the call returns, and its `j`-th element is `vs[j * k]`. -/
theorem FilterStationBikeStatesByModulus.getElem?_eq (vs : List StationBikeState) (k : Nat)
    (hk : 0 < k) :
    ∃ r, FilterStationBikeStatesByModulus vs (k : Int) = .ok r ∧ ∀ j, r[j]? = vs[j * k]? := by
  obtain ⟨r, hr, hsel⟩ := FilterStationBikeStatesByModulus.loop_spec k hk vs 0 []
  refine ⟨r, by simpa [FilterStationBikeStatesByModulus] using hr, fun j => ?_⟩
  simpa using hsel 0 hk (by simp) j

/-- The result is shorter than `j` exactly when `vs` ends before position `j * k`. -/
theorem length_le_iff_of_getElem? {r vs : List StationBikeState} {k : Nat}
    (h : ∀ j, r[j]? = vs[j * k]?) (j : Nat) : r.length ≤ j ↔ vs.length ≤ j * k := by
  rw [← List.getElem?_eq_none_iff, ← List.getElem?_eq_none_iff, h j]

end Commute

namespace Commute

/-- C1: for every sequence `vs` and every modulus `k ≥ 1`,
`FilterStationBikeStatesByModulus vs k` returns, and its result consists of exactly the
elements of `vs` at positions `0, k, 2k, ...` in order: its `j`-th element is `vs[j * k]`
whenever `j * k < len vs`, and it has no element at any other `j`; so the first element of
a non-empty `vs` is kept first, and 180 rows with `k = 60` keep positions 0, 60 and 120. -/
theorem FilterStationBikeStatesByModulus_positions (vs : List StationBikeState) (k : Int)
    (hk : 1 ≤ k) :
    ∃ r, FilterStationBikeStatesByModulus vs k = .ok r ∧
      (∀ j, j * k.toNat < vs.length → r[j]? = vs[j * k.toNat]?) ∧
      (∀ j, vs.length ≤ j * k.toNat → r[j]? = none) ∧
      (vs ≠ [] → r.head? = vs.head?) ∧
      (vs.length = 180 → k = 60 →
        ∃ a b c, vs[0]? = some a ∧ vs[60]? = some b ∧ vs[120]? = some c ∧ r = [a, b, c]) := by
  have hkn : ((k.toNat : Nat) : Int) = k := Int.toNat_of_nonneg (by omega)
  have hpos : 0 < k.toNat := by omega
  obtain ⟨r, hr, hsel⟩ := FilterStationBikeStatesByModulus.getElem?_eq vs k.toNat hpos
  rw [hkn] at hr
  refine ⟨r, hr, fun j _ => hsel j, fun j hj => ?_, fun _ => ?_, fun hlen hk60 => ?_⟩
  · rw [hsel j]; exact List.getElem?_eq_none_iff.2 hj
  · have h0 := hsel 0
    rw [Nat.zero_mul] at h0
    rw [List.head?_eq_getElem?, List.head?_eq_getElem?, h0]
  · subst hk60
    have h0 := hsel 0
    have h1 := hsel 1
    have h2 := hsel 2
    have h3 : r.length ≤ 3 := (length_le_iff_of_getElem? hsel 3).2 (by simp [hlen])
    have e0 : (0 : Nat) * (60 : Int).toNat = 0 := by simp
    have e1 : (1 : Nat) * (60 : Int).toNat = 60 := by simp
    have e2 : (2 : Nat) * (60 : Int).toNat = 120 := by simp
    rw [e0] at h0
    rw [e1] at h1
    rw [e2] at h2
    have l0 : (0 : Nat) < vs.length := by omega
    have l1 : (60 : Nat) < vs.length := by omega
    have l2 : (120 : Nat) < vs.length := by omega
    refine ⟨vs[0], vs[60], vs[120], List.getElem?_eq_getElem l0, List.getElem?_eq_getElem l1,
      List.getElem?_eq_getElem l2, ?_⟩
    rw [List.getElem?_eq_getElem l0] at h0
    rw [List.getElem?_eq_getElem l1] at h1
    rw [List.getElem?_eq_getElem l2] at h2
    match r, h0, h1, h2, h3 with
    | [a, b, c], h0, h1, h2, _ =>
      simp at h0 h1 h2
      simp [h0, h1, h2]
    | [], h0, _, _, _ => simp at h0
    | [_], _, h1, _, _ => simp at h1
    | [_, _], _, _, h2, _ => simp at h2
    | _ :: _ :: _ :: _ :: _, _, _, _, h3 => simp at h3

/-- C1 at 180 one-minute rows and `k = 60`: positions 0, 60 and 120 are kept. -/
theorem FilterStationBikeStatesByModulus_positions_witness :
    (1 : Int) ≤ 60 ∧
      FilterStationBikeStatesByModulus rows180 60
        = .ok [sampleState 0, sampleState 60, sampleState 120] := by
  refine ⟨by decide, ?_⟩
  obtain ⟨r, hr, _, _, _, h180⟩ :=
    FilterStationBikeStatesByModulus_positions rows180 60 (by decide)
  obtain ⟨a, b, c, ha, hb, hc, hrabc⟩ := h180 (by simp [rows180]) rfl
  simp [rows180] at ha hb hc
  rw [hr, hrabc, ← ha, ← hb, ← hc]

/-- C2: for every sampling interval `k ≥ 1` and every `N`-element sequence,
`FilterStationBikeStatesByModulus` returns exactly `ceil (N / k)` elements: none when
`N = 0`, all `N` when `k = 1`, and one when `k ≥ N ≥ 1`. -/
theorem FilterStationBikeStatesByModulus_length (vs : List StationBikeState) (k : Int)
    (hk : 1 ≤ k) :
    ∃ r, FilterStationBikeStatesByModulus vs k = .ok r ∧
      r.length = ⌈(vs.length : ℚ) / (k : ℚ)⌉₊ ∧
      (vs.length = 0 → r.length = 0) ∧
      (k = 1 → r.length = vs.length) ∧
      (1 ≤ vs.length → (vs.length : Int) ≤ k → r.length = 1) := by
  have hkn : ((k.toNat : Nat) : Int) = k := Int.toNat_of_nonneg (by omega)
  have hpos : 0 < k.toNat := by omega
  obtain ⟨r, hr, hsel⟩ := FilterStationBikeStatesByModulus.getElem?_eq vs k.toNat hpos
  have hlen := length_le_iff_of_getElem? hsel
  rw [hkn] at hr
  have hkq : (k : ℚ) = (k.toNat : ℚ) :=
    calc (k : ℚ) = (((k.toNat : Nat) : Int) : ℚ) := by rw [hkn]
      _ = (k.toNat : ℚ) := Int.cast_natCast _
  have hq : (0 : ℚ) < (k.toNat : ℚ) := by exact_mod_cast hpos
  refine ⟨r, hr, ?_, fun h0 => ?_, fun h1 => ?_, fun hN hle => ?_⟩
  · rw [hkq]
    apply le_antisymm
    · apply (hlen _).2
      have h := Nat.le_ceil ((vs.length : ℚ) / (k.toNat : ℚ))
      rw [div_le_iff₀ hq] at h
      exact_mod_cast h
    · apply Nat.ceil_le.2
      rw [div_le_iff₀ hq]
      have h := (hlen r.length).1 le_rfl
      exact_mod_cast h
  · exact Nat.le_zero.1 ((hlen 0).2 (by omega))
  · subst h1
    apply le_antisymm
    · exact (hlen vs.length).2 (by simp)
    · have h := (hlen r.length).1 le_rfl
      simpa using h
  · apply le_antisymm
    · apply (hlen 1).2
      rw [Nat.one_mul]
      omega
    · by_contra hlt
      have h := (hlen 0).1 (by omega)
      omega

/-- C2 at 180 rows and `k = 60`: three elements. -/
theorem FilterStationBikeStatesByModulus_length_witness :
    (1 : Int) ≤ 60 ∧ ∃ r, FilterStationBikeStatesByModulus rows180 60 = .ok r ∧
      r.length = ⌈((rows180.length : ℕ) : ℚ) / ((60 : Int) : ℚ)⌉₊ ∧
      (rows180.length = 0 → r.length = 0) ∧
      ((60 : Int) = 1 → r.length = rows180.length) ∧
      (1 ≤ rows180.length → (rows180.length : Int) ≤ 60 → r.length = 1) :=
  ⟨by decide, FilterStationBikeStatesByModulus_length rows180 60 (by decide)⟩

end Commute

/-! ## Station resolution -/

namespace Commute

set_option exponentiation.threshold 2048 in
/-- The pattern of `Float64.hundred` denotes the number 100. -/
theorem Float64.hundred_value : Float64.hundred.value = some 100 := by
  norm_num [Float64.value, Float64.hundred]

/-- The reserved key never survives the key filter of the three strategies. -/
theorem images_not_mem_FilterString (c : String) (keys : List String) :
    c ++ "_images" ∉ FilterString keys (fun v => v != c ++ "_images") := by
  simp [FilterString]

/-- On a response made of nil and string entries the type assertion never fails, and
the strings come out in response order. -/
theorem MapObjectsToStrings_FilterNil (resp : List Obj)
    (h : ∀ o ∈ resp, o = Obj.nil ∨ ∃ s, o = Obj.str s) :
    MapObjectsToStrings (FilterNil resp)
      = .ok (resp.filterMap fun o => match o with
          | .str s => some s
          | _ => none) := by
  induction resp with
  | nil => rfl
  | cons o rest ih =>
    have ih := ih (fun o ho => h o (List.mem_cons_of_mem _ ho))
    rcases h o (List.mem_cons_self _ _) with rfl | ⟨s, rfl⟩
    · simpa [FilterNil] using ih
    · simp only [FilterNil] at ih
      simp [FilterNil, MapObjectsToStrings, ih, Outcome.bind]

/-- A positional bulk get over string values yields the stored texts of the present keys. -/
theorem MapObjectsToStrings_positional (lookup : String → Option String) (keys : List String) :
    MapObjectsToStrings (FilterNil (keys.map fun k => bulkEntry (lookup k)))
      = .ok (keys.filterMap lookup) := by
  induction keys with
  | nil => rfl
  | cons k rest ih =>
    simp only [FilterNil] at ih
    cases hk : lookup k with
    | none =>
      have e : bulkEntry (lookup k) = Obj.nil := by rw [hk]; rfl
      simpa [FilterNil, e, hk] using ih
    | some s =>
      have e : bulkEntry (lookup k) = Obj.str s := by rw [hk]; rfl
      simp [FilterNil, e, hk, MapObjectsToStrings, ih, Outcome.bind]

/-- Filtering derived keys and dropping the missing ones is a filter on the members the
keys were derived from. -/
theorem filterMap_filter_map_eq {α β : Type} (l : List α) (f : α → String) (p : String → Bool)
    (lookup : String → Option String) (u : String → β) :
    (((l.map f).filter p).filterMap lookup).map u
      = (l.filter fun g => p (f g) && (lookup (f g)).isSome).map
          fun g => u ((lookup (f g)).getD "") := by
  induction l with
  | nil => rfl
  | cons g rest ih =>
    cases hp : p (f g) with
    | false => simpa [hp] using ih
    | true =>
      cases hl : lookup (f g) with
      | none => simpa [hp, hl] using ih
      | some s => simpa [hp, hl] using ih

end Commute

namespace Commute

/-- C3: in each of the three strategies (`findByNumbers`, `findNearby`,
`findByContractName`), whatever the stores answer, no bulk get is issued with a key list
that contains the reserved key `contractName ++ "_images"`; consequently the value stored
under that key cannot reach the result: two caches that answer alike on every key list
free of the reserved key give the same runs. -/
theorem bulk_get_never_asks_for_images (env : Env) (contractName : String) :
    (∀ numbers keys, Call.MGet keys ∈ (findByNumbers env contractName numbers).calls →
      contractName ++ "_images" ∉ keys) ∧
    (∀ lat lng distance keys,
      Call.MGet keys ∈ (findNearby env contractName lat lng distance).calls →
        contractName ++ "_images" ∉ keys) ∧
    (∀ keys, Call.MGet keys ∈ (findByContractName env contractName).calls →
      contractName ++ "_images" ∉ keys) ∧
    (∀ env2 : Env, env2.cli.GeoRadius = env.cli.GeoRadius → env2.cli.Keys = env.cli.Keys →
      env2.jsonUnmarshal = env.jsonUnmarshal →
      (∀ keys, contractName ++ "_images" ∉ keys → env2.cli.MGet keys = env.cli.MGet keys) →
      (∀ numbers, findByNumbers env2 contractName numbers
        = findByNumbers env contractName numbers) ∧
      (∀ lat lng distance, findNearby env2 contractName lat lng distance
        = findNearby env contractName lat lng distance) ∧
      findByContractName env2 contractName = findByContractName env contractName) := by
  refine ⟨?_, ?_, ?_, ?_⟩
  · intro numbers keys hmem
    unfold findByNumbers at hmem
    split at hmem
    · simp at hmem
    · simp only [List.mem_singleton, Call.MGet.injEq] at hmem
      rw [hmem]
      exact images_not_mem_FilterString contractName _
  · intro lat lng distance keys hmem
    simp only [findNearby, List.mem_cons, List.mem_singleton, Call.MGet.injEq,
      List.not_mem_nil, or_false, false_or, reduceCtorEq] at hmem
    rw [hmem]
    exact images_not_mem_FilterString contractName _
  · intro keys hmem
    simp only [findByContractName, List.mem_cons, List.mem_singleton, Call.MGet.injEq,
      List.not_mem_nil, or_false, false_or, reduceCtorEq] at hmem
    rw [hmem]
    exact images_not_mem_FilterString contractName _
  · intro env2 hgeo hkeys hjson hmget
    have hU : UnmarshalStringsToStations env2 = UnmarshalStringsToStations env := by
      funext s
      simp [UnmarshalStringsToStations, hjson]
    refine ⟨fun numbers => ?_, fun lat lng distance => ?_, ?_⟩
    · unfold findByNumbers
      simp only [hU, hmget _ (images_not_mem_FilterString contractName _)]
    · unfold findNearby
      simp only [hU, hgeo, hmget _ (images_not_mem_FilterString contractName _)]
    · unfold findByContractName
      simp only [hU, hkeys, hmget _ (images_not_mem_FilterString contractName _)]

/-- C4: for every contract name `c`, every non-empty `numbers` and every positional
bulk-get response (one entry per requested key, each nil or a string), `findByNumbers`
returns the decoding, in key order, of exactly the non-nil entries answered for the keys
`c ++ "_" ++ n` (reserved key removed), with one bulk get; so it has at most
`len numbers` elements, and with numbers `["1", "2"]`, `Paris_1` present and `Paris_2`
absent it is the one-element sequence holding the decoded record of station 1. -/
theorem findByNumbers_decodes_present_entries (env : Env) (contractName : String)
    (numbers : List String) (hne : numbers ≠ [])
    (hlen : (env.cli.MGet ((numbers.map fun n => contractName ++ "_" ++ n).filter
        fun v => v != contractName ++ "_images")).Val.length
      = ((numbers.map fun n => contractName ++ "_" ++ n).filter
        fun v => v != contractName ++ "_images").length)
    (hshape : ∀ o ∈ (env.cli.MGet ((numbers.map fun n => contractName ++ "_" ++ n).filter
        fun v => v != contractName ++ "_images")).Val, o = Obj.nil ∨ ∃ s, o = Obj.str s) :
    (∃ r, findByNumbers env contractName numbers
        = ⟨[Call.MGet ((numbers.map fun n => contractName ++ "_" ++ n).filter
            fun v => v != contractName ++ "_images")], .ok r⟩ ∧
      r = ((env.cli.MGet ((numbers.map fun n => contractName ++ "_" ++ n).filter
            fun v => v != contractName ++ "_images")).Val.filterMap fun o => match o with
              | .str s => some s
              | _ => none).map (UnmarshalStringsToStations env) ∧
      r.length ≤ numbers.length) ∧
    (∀ (env1 : Env) (payload : String),
      (env1.cli.MGet ["Paris_1", "Paris_2"]).Val = [Obj.str payload, Obj.nil] →
      (findByNumbers env1 "Paris" ["1", "2"]).outcome
        = .ok [UnmarshalStringsToStations env1 payload]) := by
  constructor
  · refine ⟨_, ?_, rfl, ?_⟩
    · have hpos : ¬ numbers.length ≤ 0 := by
        cases numbers with
        | nil => exact absurd rfl hne
        | cons _ _ => simp
      unfold findByNumbers
      rw [if_neg hpos]
      simp only [MapStringsToStrings, FilterString, MapStringsToStations]
      rw [MapObjectsToStrings_FilterNil _ hshape]
      rfl
    · rw [List.length_map]
      refine le_trans (List.length_filterMap_le _ _) ?_
      rw [hlen]
      refine le_trans (List.length_filter_le _ _) ?_
      rw [List.length_map]
  · intro env1 payload hresp
    have hkeys : FilterString (MapStringsToStrings ["1", "2"] fun number => "Paris" ++ "_" ++ number)
        (fun v => v != "Paris" ++ "_images") = ["Paris_1", "Paris_2"] := by decide
    unfold findByNumbers
    rw [if_neg (by decide)]
    simp only [hkeys, hresp]
    rfl

/-- C4 on the sample cache: numbers `["1", "2"]`, `Paris_1` stored, `Paris_2` missing. -/
theorem findByNumbers_decodes_present_entries_witness :
    ["1", "2"] ≠ ([] : List String) ∧
      findByNumbers sampleEnv "Paris" ["1", "2"]
        = ⟨[Call.MGet ["Paris_1", "Paris_2"]], .ok [{ Station.zero with Number := 1 }]⟩ := by
  refine ⟨by decide, ?_⟩
  obtain ⟨⟨r, hrun, hr, _⟩, _⟩ :=
    findByNumbers_decodes_present_entries sampleEnv "Paris" ["1", "2"] (by decide)
      (by decide) (by
        intro o ho
        have ho2 : o ∈ [Obj.str textNumber1, Obj.nil] := ho
        simp only [List.mem_cons, List.mem_singleton, List.not_mem_nil, or_false] at ho2
        rcases ho2 with rfl | rfl
        · exact Or.inr ⟨_, rfl⟩
        · exact Or.inl rfl)
  rw [hrun, hr]
  decide

/-- C6: for every contract name, `findByNumbers contractName []` returns the empty
sequence and issues no store command, so its run is the same in every environment. -/
theorem findByNumbers_nil (env : Env) (contractName : String) :
    (findByNumbers env contractName []).outcome = .ok [] ∧
      (findByNumbers env contractName []).calls = [] ∧
      ∀ env2 : Env, findByNumbers env2 contractName [] = findByNumbers env contractName [] :=
  ⟨rfl, rfl, fun _ => rfl⟩

/-- C8: `findNearby` always sends one geo query, to the index `contractName ++ "_stations"`,
centred at `(lng, lat)`, radius 100 km, with distances, sorted ascending, whatever the
`distance` argument: two calls that differ only in `distance` issue the same commands and
end the same way. -/
theorem findNearby_ignores_distance (env : Env) (contractName : String) (lat lng : Float64)
    (d1 d2 : Float64) :
    findNearby env contractName lat lng d1 = findNearby env contractName lat lng d2 ∧
      (findNearby env contractName lat lng d1).calls.filter
          (fun call => match call with
            | .GeoRadius _ _ _ _ => true
            | _ => false)
        = [Call.GeoRadius (contractName ++ "_stations") lng lat
            { Radius := Float64.hundred, Unit := "km", WithCoord := false, WithDist := true,
              WithGeoHash := false, Count := 0, Sort_ := "ASC" }] ∧
      Float64.hundred.value = some 100 := by
  exact ⟨rfl, rfl, Float64.hundred_value⟩

end Commute

namespace Commute

/-- The sample server answers a bulk get positionally. -/
theorem redisOf_MGet_Val (geo : String → List GeoLocation) (listing : String → List String)
    (lookup : String → Option String) (keys : List String) :
    ((redisOf geo listing lookup).MGet keys).Val = keys.map fun k => bulkEntry (lookup k) := by
  unfold redisOf
  by_cases h : keys = []
  · simp [h, Cmd.Val]
  · simp [h, Cmd.Val]

/-- C5 fails on a cache whose entry under `Paris_1` holds the record of station 7:
`findByNumbers "Paris" ["1"]` returns a station numbered 7, the value of no token. -/
theorem findByNumbers_number_counterexample :
    ["1"] ≠ ([] : List String) ∧
      (findByNumbers mismatchEnv "Paris" ["1"]).outcome
        = .ok [{ Station.zero with Number := 7 }] ∧
      ¬ ∃ n ∈ ["1"], ParseInt n = (({ Station.zero with Number := 7 } : Station).Number, none) := by
  refine ⟨by decide, by decide, ?_⟩
  rintro ⟨n, hn, hparse⟩
  rw [List.mem_singleton] at hn
  subst hn
  revert hparse
  decide

/-- C5, amended: for every contract name `c`, every non-empty `numbers` and every cache
(answering bulk gets positionally) in which the text stored under each key `c ++ "_" ++ n`,
`n` in `numbers`, decodes to a station whose number is the integer value of `n`,
`findByNumbers` returns, and each station it returns has a number field equal to the
integer value of one of the tokens in `numbers`. -/
theorem findByNumbers_numbers_of_consistent_cache (env : Env) (contractName : String)
    (numbers : List String) (lookup : String → Option String) (hne : numbers ≠ [])
    (hpos : ∀ keys, (env.cli.MGet keys).Val = keys.map fun k => bulkEntry (lookup k))
    (hcons : ∀ n ∈ numbers, ∀ s, lookup (contractName ++ "_" ++ n) = some s →
      ParseInt n = ((UnmarshalStringsToStations env s).Number, none)) :
    ∃ r, (findByNumbers env contractName numbers).outcome = .ok r ∧
      ∀ st ∈ r, ∃ n ∈ numbers, ParseInt n = (st.Number, none) := by
  have hlen : ¬ numbers.length ≤ 0 := by
    cases numbers with
    | nil => exact absurd rfl hne
    | cons _ _ => simp
  refine ⟨MapStringsToStations
    ((FilterString (MapStringsToStrings numbers fun number => contractName ++ "_" ++ number)
      fun v => v != contractName ++ "_images").filterMap lookup)
    (UnmarshalStringsToStations env), ?_, ?_⟩
  · unfold findByNumbers
    rw [if_neg hlen]
    simp only [hpos, MapObjectsToStrings_positional, Outcome.bind]
  · intro st hst
    simp only [MapStringsToStations, FilterString, MapStringsToStrings, List.mem_map,
      List.mem_filterMap, List.mem_filter] at hst
    obtain ⟨s, ⟨key, ⟨⟨n, hn, rfl⟩, _⟩, hlook⟩, rfl⟩ := hst
    exact ⟨n, hn, hcons n hn s hlook⟩

/-- The amended C5 on the sample cache, numbers `["1", "7"]`. -/
theorem findByNumbers_numbers_of_consistent_cache_witness :
    ["1", "7"] ≠ ([] : List String) ∧
      ∃ r, (findByNumbers sampleEnv "Paris" ["1", "7"]).outcome = .ok r ∧
        ∀ st ∈ r, ∃ n ∈ ["1", "7"], ParseInt n = (st.Number, none) := by
  refine ⟨by decide, ?_⟩
  refine findByNumbers_numbers_of_consistent_cache sampleEnv "Paris" ["1", "7"] sampleLookup
    (by decide) (redisOf_MGet_Val _ _ _) ?_
  intro n hn s hs
  simp only [List.mem_cons, List.mem_singleton, List.not_mem_nil, or_false] at hn
  rcases hn with rfl | rfl
  · have h1 : sampleLookup ("Paris" ++ "_" ++ "1") = some textNumber1 := by decide
    rw [h1] at hs
    cases hs
    decide
  · have h7 : sampleLookup ("Paris" ++ "_" ++ "7") = some textNumber7 := by decide
    rw [h7] at hs
    cases hs
    decide

/-- C7: for every contract name, query point and cache content (bulk gets answered
positionally), `findNearby` returns, in the order of the geo response, the decoding of the
present entries of the geo members (reserved key and missing keys dropped): the members
behind the result are a sublist of the geo response, so when the response is sorted by
non-decreasing distance, for any way of comparing distances, a station at an earlier
position never comes from a member farther away than one at a later position. -/
theorem findNearby_follows_geo_order (env : Env) (contractName : String) (lat lng : Float64)
    (distance : Float64) (lookup : String → Option String)
    (hpos : ∀ keys, (env.cli.MGet keys).Val = keys.map fun k => bulkEntry (lookup k)) :
    ∃ geo members : List GeoLocation,
      geo = (env.cli.GeoRadius (contractName ++ "_stations") lng lat
        { Radius := Float64.hundred, Unit := "km", WithCoord := false, WithDist := true,
          WithGeoHash := false, Count := 0, Sort_ := "ASC" }).Val ∧
      members = geo.filter (fun g => (contractName ++ "_" ++ g.Name != contractName ++ "_images")
        && (lookup (contractName ++ "_" ++ g.Name)).isSome) ∧
      (findNearby env contractName lat lng distance).outcome
        = .ok (members.map fun g =>
            UnmarshalStringsToStations env ((lookup (contractName ++ "_" ++ g.Name)).getD "")) ∧
      members.Sublist geo ∧
      ∀ le : Float64 → Float64 → Prop, geo.Pairwise (fun a b => le a.Dist b.Dist) →
        members.Pairwise (fun a b => le a.Dist b.Dist) := by
  refine ⟨_, _, rfl, rfl, ?_, List.filter_sublist _, fun le hsorted =>
    List.Pairwise.sublist (List.filter_sublist _) hsorted⟩
  unfold findNearby
  simp only [hpos, MapObjectsToStrings_positional, Outcome.bind, MapStringsToStations,
    FilterString, MapStringsToStrings, MapGeoLocationsToStationNumbers, List.map_map]
  rw [filterMap_filter_map_eq]
  rfl

/-- C7 on the sample cache: members 7, 2, 1 by distance, station 2 missing from the cache. -/
theorem findNearby_follows_geo_order_witness :
    (∀ keys, (sampleEnv.cli.MGet keys).Val = keys.map fun k => bulkEntry (sampleLookup k)) ∧
      (findNearby sampleEnv "Paris" ⟨0⟩ ⟨0⟩ ⟨0⟩).outcome
        = .ok [{ Station.zero with Number := 7 }, { Station.zero with Number := 1 }] := by
  refine ⟨redisOf_MGet_Val _ _ _, ?_⟩
  obtain ⟨geo, members, hgeo, hmem, hout, _, _⟩ :=
    findNearby_follows_geo_order sampleEnv "Paris" ⟨0⟩ ⟨0⟩ ⟨0⟩ sampleLookup
      (redisOf_MGet_Val _ _ _)
  rw [hout, hmem, hgeo]
  decide

end Commute

/-! ## Time-series history -/

namespace Commute

/-- When the client returns a response without an error, `queryDB` hands its results on. -/
theorem queryDB_ok (clnt : InfluxClient) (db cmd : String) (response : Response)
    (hquery : clnt.Query { Command := cmd, Database := db } = .ok response)
    (hok : response.Error = none) :
    queryDB clnt db cmd = ([Call.Query { Command := cmd, Database := db }], response.Results, none) := by
  simp [queryDB, hquery, hok]

/-- When the query fails, by transport or by an error carried in the response, the call
ends in `log.Fatal`: the process exits with status 1. -/
theorem fetchInfluxDbDataByDateAndStationNumber_exits (env : Env) (contractName : String)
    (date : Time) (stationNumber : String) (modulus : Int)
    (hfail : (∃ err, env.influx.Query
          { Command := fetchInfluxDbDataByDateAndStationNumber.query contractName date stationNumber,
            Database := env.dbDatabase } = .error err) ∨
      (∃ response err, env.influx.Query
          { Command := fetchInfluxDbDataByDateAndStationNumber.query contractName date stationNumber,
            Database := env.dbDatabase } = .ok response ∧ response.Error = some err)) :
    (fetchInfluxDbDataByDateAndStationNumber env contractName date stationNumber modulus).outcome
      = .exit 1 := by
  rcases hfail with ⟨err, h⟩ | ⟨response, err, h, herr⟩
  · simp [fetchInfluxDbDataByDateAndStationNumber, queryDB, h]
  · simp [fetchInfluxDbDataByDateAndStationNumber, queryDB, h, herr]

/-- C9: whenever the time-series query succeeds (a response, no error in it),
`fetchInfluxDbDataByDateAndStationNumber` returns the empty sequence, without panic or
exit, after its one query, in each of these cases: the result list is empty; the first
result has no series; the first series has no rows. -/
theorem fetchInfluxDbDataByDateAndStationNumber_empty (env : Env) (contractName : String)
    (date : Time) (stationNumber : String) (modulus : Int) (response : Response)
    (hquery : env.influx.Query
        { Command := fetchInfluxDbDataByDateAndStationNumber.query contractName date stationNumber,
          Database := env.dbDatabase } = .ok response)
    (hok : response.Error = none)
    (hempty : response.Results = [] ∨
      (∃ result rest, response.Results = result :: rest ∧ result.Series = []) ∨
      (∃ result rest series more, response.Results = result :: rest ∧
        result.Series = series :: more ∧ series.Values = [])) :
    fetchInfluxDbDataByDateAndStationNumber env contractName date stationNumber modulus
      = ⟨[Call.Query
          { Command := fetchInfluxDbDataByDateAndStationNumber.query contractName date stationNumber,
            Database := env.dbDatabase }], .ok []⟩ := by
  unfold fetchInfluxDbDataByDateAndStationNumber
  simp only [queryDB_ok env.influx env.dbDatabase _ response hquery hok]
  rcases hempty with h | ⟨result, rest, h, hs⟩ | ⟨result, rest, series, more, h, hs, hv⟩
  · simp [h]
  · simp [h, hs]
  · simp [h, hs, hv]

/-- C9 on a store that answers with one result and one series without rows. -/
theorem fetchInfluxDbDataByDateAndStationNumber_empty_witness :
    noRowsResponse.Error = none ∧
      (∃ result rest series more, noRowsResponse.Results = result :: rest ∧
        result.Series = series :: more ∧ series.Values = []) ∧
      fetchInfluxDbDataByDateAndStationNumber noRowsEnv "Paris" sampleDate "1" 60
        = ⟨[Call.Query
            { Command := fetchInfluxDbDataByDateAndStationNumber.query "Paris" sampleDate "1",
              Database := "commute" }], .ok []⟩ :=
  ⟨by decide, ⟨_, _, _, _, rfl, rfl, rfl⟩,
    fetchInfluxDbDataByDateAndStationNumber_empty noRowsEnv "Paris" sampleDate "1" 60
      noRowsResponse rfl (by decide) (Or.inr (Or.inr ⟨_, _, _, _, rfl, rfl, rfl⟩))⟩

/-- C10, the code at a failing query: with the store unreachable, and with an error
carried in the response, `fetchInfluxDbDataByDateAndStationNumber` sends its query and
then ends the process with exit status 1 instead of handing a failure to its caller. -/
theorem fetchInfluxDbDataByDateAndStationNumber_failure_exits :
    fetchInfluxDbDataByDateAndStationNumber unreachableEnv "Paris" sampleDate "1" 60
        = ⟨[Call.Query
            { Command := "SELECT * FROM Paris_1 WHERE time >= \x272020-01-01 00:00:00\x27 AND time < \x272020-01-01 00:00:00\x27 + 24h",
              Database := "commute" }], .exit 1⟩ ∧
      (fetchInfluxDbDataByDateAndStationNumber rejectingEnv "Paris" sampleDate "1" 60).outcome
        = .exit 1 := by
  constructor <;> decide

end Commute

/-! ## Bulk-get responses, failures and the first series -/

namespace Commute

/-- On a response of nil and string entries, wrapping the strings again gives back the
non-nil entries. -/
theorem map_str_filterMap_eq_filter (response : List Obj)
    (h : ∀ o ∈ response, o = Obj.nil ∨ ∃ s, o = Obj.str s) :
    (response.filterMap fun o => match o with
        | .str s => some s
        | _ => none).map Obj.str
      = response.filter fun o => o != Obj.nil := by
  induction response with
  | nil => rfl
  | cons o rest ih =>
    have ih := ih (fun o ho => h o (List.mem_cons_of_mem _ ho))
    rcases h o (List.mem_cons_self _ _) with rfl | ⟨s, rfl⟩
    · simpa using ih
    · simpa using ih

/-- C20: for every bulk-get response whose entries are each nil or a string,
`MapObjectsToStrings (FilterNil response)` returns (no type assertion fails), and what it
returns is exactly the string entries of the response in their original order; its length
is the number of non-nil entries. -/
theorem MapObjectsToStrings_FilterNil_total (response : List Obj)
    (hshape : ∀ o ∈ response, o = Obj.nil ∨ ∃ s, o = Obj.str s) :
    ∃ strings, MapObjectsToStrings (FilterNil response) = .ok strings ∧
      strings.map Obj.str = response.filter (fun o => o != Obj.nil) ∧
      (∀ s, s ∈ strings ↔ Obj.str s ∈ response) ∧
      strings.length = response.countP (fun o => o != Obj.nil) := by
  refine ⟨_, MapObjectsToStrings_FilterNil response hshape, ?_, ?_, ?_⟩
  · exact map_str_filterMap_eq_filter response hshape
  · intro s
    rw [List.mem_filterMap]
    constructor
    · rintro ⟨o, ho, hs⟩
      cases o <;> simp at hs
      subst hs
      exact ho
    · intro hs
      exact ⟨Obj.str s, hs, rfl⟩
  · rw [List.countP_eq_length_filter, ← map_str_filterMap_eq_filter response hshape,
      List.length_map]

/-- C20 on a response with a missing key between two stored texts. -/
theorem MapObjectsToStrings_FilterNil_total_witness :
    (∀ o ∈ [Obj.str "a", Obj.nil, Obj.str "b"], o = Obj.nil ∨ ∃ s, o = Obj.str s) ∧
      MapObjectsToStrings (FilterNil [Obj.str "a", Obj.nil, Obj.str "b"]) = .ok ["a", "b"] := by
  have hshape : ∀ o ∈ [Obj.str "a", Obj.nil, Obj.str "b"], o = Obj.nil ∨ ∃ s, o = Obj.str s := by
    intro o ho
    simp only [List.mem_cons, List.mem_singleton, List.not_mem_nil, or_false] at ho
    rcases ho with rfl | rfl | rfl
    · exact Or.inr ⟨_, rfl⟩
    · exact Or.inl rfl
    · exact Or.inr ⟨_, rfl⟩
  refine ⟨hshape, ?_⟩
  obtain ⟨strings, hrun, hmap, _, _⟩ := MapObjectsToStrings_FilterNil_total _ hshape
  rw [hrun]
  have hfilter : List.filter (fun o => o != Obj.nil) [Obj.str "a", Obj.nil, Obj.str "b"]
      = [Obj.str "a", Obj.str "b"] := by decide
  rw [hfilter] at hmap
  match strings, hmap with
  | [x, y], hmap =>
    simp only [List.map_cons, List.map_nil, List.cons.injEq, Obj.str.injEq, and_true] at hmap
    rw [hmap.1, hmap.2]
  | [], hmap => simp at hmap
  | [_], hmap => simp at hmap
  | _ :: _ :: _ :: _, hmap => simp at hmap

/-- C11 fails on a cache whose bulk get is rejected: each strategy returns the empty
sequence with a normal outcome, exactly the outcome it has on a working cache that holds
nothing, so the caller cannot tell the failure from an empty station list. -/
theorem bulk_get_failure_counterexample :
    (failingCacheEnv.cli.MGet ["Paris_1"]).err = some "READONLY command rejected" ∧
      (findByNumbers failingCacheEnv "Paris" ["1"]).outcome = .ok [] ∧
      (findNearby failingCacheEnv "Paris" ⟨0⟩ ⟨0⟩ ⟨0⟩).outcome = .ok [] ∧
      (findByContractName failingCacheEnv "Paris").outcome = .ok [] ∧
      (findByNumbers emptyCacheEnv "Paris" ["1"]).outcome = .ok [] ∧
      (findNearby emptyCacheEnv "Paris" ⟨0⟩ ⟨0⟩ ⟨0⟩).outcome = .ok [] ∧
      (findByContractName emptyCacheEnv "Paris").outcome = .ok [] := by
  refine ⟨rfl, ?_, ?_, ?_, ?_, ?_, ?_⟩ <;> decide

/-- C11, amended: when the cache bulk get fails (the command carries an error and no
value), `findByNumbers`, `findNearby` and `findByContractName` return the empty sequence
with a normal outcome: the error is dropped and the result is that of a cache holding no
station. -/
theorem bulk_get_failure_gives_empty (env : Env) (contractName : String)
    (hfail : ∀ keys, ∃ err, env.cli.MGet keys = ⟨[], some err⟩) :
    (∀ numbers, (findByNumbers env contractName numbers).outcome = .ok []) ∧
      (∀ lat lng distance, (findNearby env contractName lat lng distance).outcome = .ok []) ∧
      (findByContractName env contractName).outcome = .ok [] := by
  have hval : ∀ keys, (env.cli.MGet keys).Val = [] := by
    intro keys
    obtain ⟨err, h⟩ := hfail keys
    rw [h]
    rfl
  refine ⟨fun numbers => ?_, fun lat lng distance => ?_, ?_⟩
  · unfold findByNumbers
    split
    · rfl
    · simp only [hval]
      rfl
  · unfold findNearby
    simp only [hval]
    rfl
  · unfold findByContractName
    simp only [hval]
    rfl

/-- The amended C11 on the cache that rejects every bulk get. -/
theorem bulk_get_failure_gives_empty_witness :
    (∀ keys, ∃ err, failingCacheEnv.cli.MGet keys = ⟨[], some err⟩) ∧
      (findByNumbers failingCacheEnv "Paris" ["1", "7"]).outcome = .ok [] ∧
      (findNearby failingCacheEnv "Paris" ⟨0⟩ ⟨0⟩ ⟨0⟩).outcome = .ok [] ∧
      (findByContractName failingCacheEnv "Paris").outcome = .ok [] :=
  have hfail : ∀ keys, ∃ err, failingCacheEnv.cli.MGet keys = ⟨[], some err⟩ :=
    fun _ => ⟨_, rfl⟩
  ⟨hfail, (bulk_get_failure_gives_empty failingCacheEnv "Paris" hfail).1 ["1", "7"],
    (bulk_get_failure_gives_empty failingCacheEnv "Paris" hfail).2.1 ⟨0⟩ ⟨0⟩ ⟨0⟩,
    (bulk_get_failure_gives_empty failingCacheEnv "Paris" hfail).2.2⟩

/-- C18: for every successful response with at least one result, one series and one row,
`fetchInfluxDbDataByDateAndStationNumber c d n m` ends as
`FilterStationBikeStatesByModulus (MapPointsToStationBikeStates rows) m`, where `rows` are
the values of the first series of the first result only: two responses with the same
first-series rows end alike, whatever further results and series they carry. -/
theorem fetchInfluxDbDataByDateAndStationNumber_first_series (env : Env)
    (contractName : String) (date : Time) (stationNumber : String) (modulus : Int)
    (response : Response) (result : Result) (rest : List Result) (series : Row)
    (more : List Row)
    (hquery : env.influx.Query
        { Command := fetchInfluxDbDataByDateAndStationNumber.query contractName date stationNumber,
          Database := env.dbDatabase } = .ok response)
    (hok : response.Error = none)
    (hresults : response.Results = result :: rest)
    (hseries : result.Series = series :: more)
    (hrows : series.Values ≠ []) :
    (fetchInfluxDbDataByDateAndStationNumber env contractName date stationNumber modulus).outcome
        = (MapPointsToStationBikeStates series.Values).bind
            (fun states => FilterStationBikeStatesByModulus states modulus) ∧
      ∀ (env2 : Env) (response2 : Response) (result2 : Result) (rest2 : List Result)
        (series2 : Row) (more2 : List Row),
        env2.influx.Query
          { Command := fetchInfluxDbDataByDateAndStationNumber.query contractName date stationNumber,
            Database := env2.dbDatabase } = .ok response2 →
        response2.Error = none → response2.Results = result2 :: rest2 →
        result2.Series = series2 :: more2 → series2.Values = series.Values →
        (fetchInfluxDbDataByDateAndStationNumber env2 contractName date stationNumber
            modulus).outcome
          = (fetchInfluxDbDataByDateAndStationNumber env contractName date stationNumber
            modulus).outcome := by
  have key : ∀ (e : Env) (resp : Response) (r : Result) (rs : List Result) (s : Row)
      (ms : List Row),
      e.influx.Query
        { Command := fetchInfluxDbDataByDateAndStationNumber.query contractName date stationNumber,
          Database := e.dbDatabase } = .ok resp →
      resp.Error = none → resp.Results = r :: rs → r.Series = s :: ms → s.Values ≠ [] →
      (fetchInfluxDbDataByDateAndStationNumber e contractName date stationNumber modulus).outcome
        = (MapPointsToStationBikeStates s.Values).bind
            (fun states => FilterStationBikeStatesByModulus states modulus) := by
    intro e resp r rs s ms hq ho hr hs hv
    have hlen : ¬ s.Values.length ≤ 0 := by
      cases hvals : s.Values with
      | nil => exact absurd hvals hv
      | cons _ _ => simp
    unfold fetchInfluxDbDataByDateAndStationNumber
    simp only [queryDB_ok e.influx e.dbDatabase _ resp hq ho, hr, hs, if_neg hlen]
  refine ⟨key env response result rest series more hquery hok hresults hseries hrows, ?_⟩
  intro env2 response2 result2 rest2 series2 more2 hq2 ho2 hr2 hs2 hv2
  rw [key env response result rest series more hquery hok hresults hseries hrows,
    key env2 response2 result2 rest2 series2 more2 hq2 ho2 hr2 hs2 (by rw [hv2]; exact hrows),
    hv2]

/-- C18 on a response with a second series and a second result: only `sampleRows` count. -/
theorem fetchInfluxDbDataByDateAndStationNumber_first_series_witness :
    rowsResponse.Error = none ∧ sampleRows ≠ [] ∧
      (fetchInfluxDbDataByDateAndStationNumber rowsEnv "Paris" sampleDate "1" 2).outcome
        = .ok [⟨"2020-01-01T00:00:00Z", 12, 8⟩, ⟨"2020-01-01T00:02:00Z", 10, 10⟩] := by
  refine ⟨by decide, by decide, ?_⟩
  rw [(fetchInfluxDbDataByDateAndStationNumber_first_series rowsEnv "Paris" sampleDate "1" 2
    rowsResponse _ _ _ _ rfl (by decide) rfl rfl (by decide)).1]
  decide

end Commute

/-! ## Decimal digits and `strconv` -/

namespace Commute

/-- The character of a decimal digit has code `48 + digit`. -/
theorem digitChar_toNat (m : Nat) (hm : m < 10) : (Nat.digitChar m).toNat = 48 + m := by
  interval_cases m <;> rfl

/-- The number a list of digit characters reads as, continuing from `acc`. -/
theorem foldl_digits_ge (cs : List Char) (acc : Nat) :
    acc ≤ cs.foldl (fun a c => a * 10 + (c.toNat - 48)) acc := by
  induction cs generalizing acc with
  | nil => exact le_rfl
  | cons c cs ih =>
    rw [List.foldl_cons]
    exact le_trans (by omega) (ih _)

/-- On digit characters whose value fits 64 bits, the loop of `ParseUint` reads the number. -/
theorem ParseUint.loop_digits (cs : List Char) (acc : Nat)
    (hdigits : ∀ c ∈ cs, 48 ≤ c.toNat ∧ c.toNat ≤ 57)
    (hfit : cs.foldl (fun a c => a * 10 + (c.toNat - 48)) acc ≤ maxUint64) :
    ParseUint.loop cs acc = (cs.foldl (fun a c => a * 10 + (c.toNat - 48)) acc, none) := by
  induction cs generalizing acc with
  | nil => rfl
  | cons c cs ih =>
    have hc := hdigits c (List.mem_cons_self _ _)
    rw [List.foldl_cons] at hfit ⊢
    have hstep : acc * 10 + (c.toNat - 48) ≤ maxUint64 :=
      le_trans (foldl_digits_ge cs _) hfit
    have hmax : maxUint64 = 18446744073709551615 := by decide
    rw [ParseUint.loop, if_neg (by omega), if_neg (by rw [hmax] at hstep ⊢; omega)]
    simp only []
    rw [if_neg (by omega)]
    exact ih _ (fun c hc => hdigits c (List.mem_cons_of_mem _ hc)) hfit

/-- The digits `Nat.toDigitsCore` puts in front of `ds` are digit characters that read as `n`. -/
theorem toDigitsCore_digits (fuel : Nat) :
    ∀ (n : Nat) (ds : List Char), n < fuel →
      ∃ cs, Nat.toDigitsCore 10 fuel n ds = cs ++ ds ∧ cs ≠ [] ∧
        (∀ c ∈ cs, 48 ≤ c.toNat ∧ c.toNat ≤ 57) ∧
        cs.foldl (fun a c => a * 10 + (c.toNat - 48)) 0 = n := by
  induction fuel with
  | zero => intro n ds h; omega
  | succ fuel ih =>
    intro n ds hn
    have hd : (Nat.digitChar (n % 10)).toNat = 48 + n % 10 :=
      digitChar_toNat _ (Nat.mod_lt _ (by decide))
    by_cases h0 : n / 10 = 0
    · refine ⟨[Nat.digitChar (n % 10)], ?_, by simp, ?_, ?_⟩
      · simp [Nat.toDigitsCore, h0]
      · intro c hc
        rw [List.mem_singleton] at hc
        subst hc
        omega
      · simp only [List.foldl_cons, List.foldl_nil, hd]
        omega
    · obtain ⟨cs, hcs, _, hdig, hval⟩ :=
        ih (n / 10) (Nat.digitChar (n % 10) :: ds) (by omega)
      refine ⟨cs ++ [Nat.digitChar (n % 10)], ?_, by simp, ?_, ?_⟩
      · simp [Nat.toDigitsCore, h0, hcs]
      · intro c hc
        rw [List.mem_append, List.mem_singleton] at hc
        rcases hc with hc | hc
        · exact hdig c hc
        · subst hc
          omega
      · rw [List.foldl_append, hval]
        simp only [List.foldl_cons, List.foldl_nil, hd]
        omega

/-- The decimal text of a natural number below `2 ^ 64` is read back by `ParseUint`. -/
theorem ParseUint_toDigits (n : Nat) (hn : n ≤ maxUint64) :
    ParseUint (Nat.toDigits 10 n) = (n, none) ∧
      ∃ c cs, Nat.toDigits 10 n = c :: cs ∧ 48 ≤ c.toNat ∧ c.toNat ≤ 57 := by
  obtain ⟨cs, hcs, hne, hdig, hval⟩ := toDigitsCore_digits (n + 1) n [] (by omega)
  rw [List.append_nil] at hcs
  have htd : Nat.toDigits 10 n = cs := hcs
  rw [htd]
  constructor
  · rw [ParseUint, if_neg hne, ParseUint.loop_digits cs 0 hdig (by rw [hval]; exact hn), hval]
  · cases cs with
    | nil => exact absurd rfl hne
    | cons c cs => exact ⟨c, cs, rfl, hdig c (List.mem_cons_self _ _)⟩

/-- The method `Int64` reads the decimal text of every 64-bit integer as that integer. -/
theorem Int64_toString (z : Int) (hlo : -(2 : Int) ^ 63 ≤ z) (hhi : z < (2 : Int) ^ 63) :
    ParseInt (toString z) = (z, none) := by
  have hmax : maxUint64 = 18446744073709551615 := by decide
  cases z with
  | ofNat m =>
    have hm : m < 2 ^ 63 := by
      have : (m : Int) < (2 : Int) ^ 63 := hhi
      exact_mod_cast this
    obtain ⟨hparse, c, cs, hcs, hc48, hc57⟩ := ParseUint_toDigits m (by rw [hmax]; omega)
    have hdata : (toString (Int.ofNat m)).data = Nat.toDigits 10 m := rfl
    have hplus : c ≠ '+' := by
      intro h; subst h; revert hc48; decide
    have hminus : c ≠ '-' := by
      intro h; subst h; revert hc48; decide
    have hhead : (Nat.toDigits 10 m).head? = some c := by rw [hcs]; rfl
    have hne : Nat.toDigits 10 m ≠ [] := by rw [hcs]; exact List.cons_ne_nil _ _
    have hlt : ¬ 9223372036854775808 ≤ m := by omega
    unfold ParseInt
    rw [hdata]
    simp [hne, hhead, hplus, hminus, hparse, hlt]
  | negSucc m =>
    have hm : m + 1 ≤ 2 ^ 63 := by
      have : -(2 : Int) ^ 63 ≤ Int.negSucc m := hlo
      rw [Int.negSucc_eq] at this
      have h2 : ((m : Int) + 1) ≤ (2 : Int) ^ 63 := by omega
      exact_mod_cast h2
    obtain ⟨hparse, c, cs, hcs, hc48, hc57⟩ :=
      ParseUint_toDigits (m + 1) (by rw [hmax]; omega)
    have hdata : (toString (Int.negSucc m)).data = '-' :: Nat.toDigits 10 (m + 1) := rfl
    have hle : ¬ 9223372036854775808 < m + 1 := by omega
    unfold ParseInt
    rw [hdata]
    simp [hparse, hle, Int.negSucc_eq]

end Commute

/-! ## Handlers -/

namespace Commute

/-- C13: for every request, `stationsHandler` answers with `findByNumbers` when the parsed
numbers list is non-empty; otherwise with `findNearby` on the parsed lat, lng and distance
when latitude and longitude are both non-zero; otherwise (latitude or longitude zero) with
`findByContractName`. Its run is the run of that one strategy, answered with status 200. -/
theorem stationsHandler_dispatch (env : Env) (lib : Lib) (c : Context) :
    (FilterString (Split (c.DefaultQuery "numbers" "") ',') (fun number => number != "") ≠ [] →
      stationsHandler env lib c
        = JSON 200 (findByNumbers env (c.DefaultQuery "contract-name" "Paris")
            (FilterString (Split (c.DefaultQuery "numbers" "") ',')
              (fun number => number != "")))) ∧
    (FilterString (Split (c.DefaultQuery "numbers" "") ',') (fun number => number != "") = [] →
      (lib.ParseFloat (c.Query "lat")).1.neZero = true →
      (lib.ParseFloat (c.Query "lng")).1.neZero = true →
      stationsHandler env lib c
        = JSON 200 (findNearby env (c.DefaultQuery "contract-name" "Paris")
            (lib.ParseFloat (c.Query "lat")).1 (lib.ParseFloat (c.Query "lng")).1
            (lib.ParseFloat (c.DefaultQuery "distance" "5000")).1)) ∧
    (FilterString (Split (c.DefaultQuery "numbers" "") ',') (fun number => number != "") = [] →
      ((lib.ParseFloat (c.Query "lat")).1.neZero = false ∨
        (lib.ParseFloat (c.Query "lng")).1.neZero = false) →
      stationsHandler env lib c
        = JSON 200 (findByContractName env (c.DefaultQuery "contract-name" "Paris"))) ∧
    (∀ x : Float64, x.neZero = false ↔ x.bits = 0 ∨ x.bits = 2 ^ 63) := by
  refine ⟨fun hne => ?_, fun hnil hlat hlng => ?_, fun hnil hzero => ?_, fun x => ?_⟩
  · have hpos : (FilterString (Split (c.DefaultQuery "numbers" "") ',')
        (fun number => number != "")).length > 0 := List.length_pos.2 hne
    unfold stationsHandler
    simp only [hpos, if_true, StatusOK]
  · unfold stationsHandler
    simp only [hnil, List.length_nil, gt_iff_lt, Nat.lt_irrefl, if_false, hlat, hlng,
      Bool.and_self, if_true, StatusOK]
  · unfold stationsHandler
    rcases hzero with h | h
    · simp [hnil, h, StatusOK]
    · simp [hnil, h, StatusOK]
  · simp only [Float64.neZero, Bool.and_eq_false_iff, bne_eq_false_iff_eq]

/-- C13 on three requests against the sample cache: numbers given; lat and lng given;
only lat given. Each issues the commands of one strategy. -/
theorem stationsHandler_dispatch_witness :
    (stationsHandler sampleEnv sampleLib ⟨[("numbers", "1,7"), ("lat", "1"), ("lng", "2")], []⟩).calls
        = [Call.MGet ["Paris_1", "Paris_7"]] ∧
      (stationsHandler sampleEnv sampleLib ⟨[("lat", "1"), ("lng", "2")], []⟩).calls
        = (findNearby sampleEnv "Paris" ⟨0x3FF0000000000000⟩ ⟨0x4000000000000000⟩
            ⟨0x40B3880000000000⟩).calls ∧
      (stationsHandler sampleEnv sampleLib ⟨[("lat", "1")], []⟩).calls
        = [Call.Keys "Paris_*", Call.MGet ["Paris_1", "Paris_7"]] := by
  refine ⟨?_, ?_, ?_⟩
  · rw [(stationsHandler_dispatch sampleEnv sampleLib _).1 (by decide)]
    decide
  · rw [(stationsHandler_dispatch sampleEnv sampleLib _).2.1 (by decide) (by decide) (by decide)]
    decide
  · rw [(stationsHandler_dispatch sampleEnv sampleLib _).2.2.1 (by decide)
      (Or.inr (by decide))]
    decide

end Commute

/-! ## The query command -/

namespace Commute

/-- The digits `Nat.toDigitsCore` produces do not depend on the fuel, once there is enough. -/
theorem toDigitsCore_eq_toDigits (n : Nat) :
    ∀ (fuel : Nat) (ds : List Char), n < fuel →
      Nat.toDigitsCore 10 fuel n ds = Nat.toDigits 10 n ++ ds := by
  induction n using Nat.strong_induction_on with
  | _ n ih =>
    intro fuel ds hfuel
    obtain ⟨f, rfl⟩ : ∃ f, fuel = f + 1 := ⟨fuel - 1, by omega⟩
    by_cases h0 : n / 10 = 0
    · simp [Nat.toDigits, Nat.toDigitsCore, h0]
    · have hlt : n / 10 < n := by omega
      have h1 := ih (n / 10) hlt f (Nat.digitChar (n % 10) :: ds) (by omega)
      have h2 := ih (n / 10) hlt n [Nat.digitChar (n % 10)] hlt
      simp only [Nat.toDigits, Nat.toDigitsCore, h0, if_false] at h1 h2 ⊢
      rw [h1, h2]
      simp

/-- A number below ten prints as its digit. -/
theorem toDigits_of_lt_ten (n : Nat) (h : n < 10) : Nat.toDigits 10 n = [Nat.digitChar n] := by
  have h0 : n / 10 = 0 := by omega
  have hm : n % 10 = n := by omega
  simp [Nat.toDigits, Nat.toDigitsCore, h0, hm]

/-- A number from ten on prints as its tenth followed by its last digit. -/
theorem toDigits_of_ten_le (n : Nat) (h : 10 ≤ n) :
    Nat.toDigits 10 n = Nat.toDigits 10 (n / 10) ++ [Nat.digitChar (n % 10)] := by
  have h0 : ¬ n / 10 = 0 := by omega
  have hstep : Nat.toDigits 10 n
      = Nat.toDigitsCore 10 n (n / 10) [Nat.digitChar (n % 10)] := by
    simp [Nat.toDigits, Nat.toDigitsCore, h0]
  rw [hstep, toDigitsCore_eq_toDigits (n / 10) n _ (by omega)]

/-- Two-digit fields: tens and units. -/
theorem padDigits_two (n : Nat) (h : n < 100) :
    padDigits n 2 = String.mk [Nat.digitChar (n / 10), Nat.digitChar (n % 10)] := by
  unfold padDigits
  by_cases h10 : n < 10
  · have e1 : n / 10 = 0 := by omega
    have e2 : n % 10 = n := by omega
    simp [toDigits_of_lt_ten n h10, e1, e2, List.replicate, Nat.digitChar]
  · rw [toDigits_of_ten_le n (by omega), toDigits_of_lt_ten (n / 10) (by omega)]
    simp

/-- Four-digit years: thousands, hundreds, tens and units. -/
theorem padDigits_four (n : Nat) (h : n < 10000) :
    padDigits n 4 = String.mk [Nat.digitChar (n / 1000), Nat.digitChar (n / 100 % 10),
      Nat.digitChar (n / 10 % 10), Nat.digitChar (n % 10)] := by
  unfold padDigits
  by_cases h10 : n < 10
  · have e1 : n / 1000 = 0 := by omega
    have e2 : n / 100 % 10 = 0 := by omega
    have e3 : n / 10 % 10 = 0 := by omega
    have e4 : n % 10 = n := by omega
    simp [toDigits_of_lt_ten n h10, e1, e2, e3, e4, List.replicate, Nat.digitChar]
  · by_cases h100 : n < 100
    · have e1 : n / 1000 = 0 := by omega
      have e2 : n / 100 % 10 = 0 := by omega
      have e3 : n / 10 % 10 = n / 10 := by omega
      rw [toDigits_of_ten_le n (by omega), toDigits_of_lt_ten (n / 10) (by omega)]
      simp [e1, e2, e3, List.replicate, Nat.digitChar]
    · by_cases h1000 : n < 1000
      · have e1 : n / 1000 = 0 := by omega
        have e2 : n / 100 % 10 = n / 100 := by omega
        have e3 : n / 10 / 10 = n / 100 := by omega
        rw [toDigits_of_ten_le n (by omega), toDigits_of_ten_le (n / 10) (by omega),
          toDigits_of_lt_ten (n / 10 / 10) (by omega)]
        simp [e1, e2, e3, List.replicate, Nat.digitChar]
      · have e1 : n / 10 / 10 / 10 = n / 1000 := by omega
        have e2 : n / 10 / 10 % 10 = n / 100 % 10 := by omega
        rw [toDigits_of_ten_le n (by omega), toDigits_of_ten_le (n / 10) (by omega),
          toDigits_of_ten_le (n / 10 / 10) (by omega),
          toDigits_of_lt_ten (n / 10 / 10 / 10) (by omega)]
        simp [e1, e2]

/-- For a year from 0 to 9999 and two-digit fields, `Format` prints the sixteen characters
`YYYY-MM-DD HH:MM`. -/
theorem Time.Format_digits (date : Time) (y : Nat) (hy : date.Year = (y : Int))
    (hy4 : y < 10000) (hmonth : date.Month < 100) (hday : date.Day < 100)
    (hhour : date.Hour < 100) (hminute : date.Minute < 100) :
    date.Format = String.mk
      [Nat.digitChar (y / 1000), Nat.digitChar (y / 100 % 10), Nat.digitChar (y / 10 % 10),
        Nat.digitChar (y % 10), '-',
        Nat.digitChar (date.Month / 10), Nat.digitChar (date.Month % 10), '-',
        Nat.digitChar (date.Day / 10), Nat.digitChar (date.Day % 10), ' ',
        Nat.digitChar (date.Hour / 10), Nat.digitChar (date.Hour % 10), ':',
        Nat.digitChar (date.Minute / 10), Nat.digitChar (date.Minute % 10)] := by
  have hyear : appendInt date.Year 4 = padDigits y 4 := by
    unfold appendInt
    rw [hy, if_neg (by omega)]
    rfl
  unfold Time.Format
  rw [hyear, padDigits_four y hy4, padDigits_two _ hmonth, padDigits_two _ hday,
    padDigits_two _ hhour, padDigits_two _ hminute]
  rfl

end Commute

namespace Commute

/-- The function `queryDB` sends exactly one command: the text and the database it got. -/
theorem queryDB_calls (clnt : InfluxClient) (db cmd : String) :
    (queryDB clnt db cmd).1 = [Call.Query { Command := cmd, Database := db }] := by
  simp only [queryDB]
  split
  · split <;> rfl
  · rfl

/-- Whatever the store answers, the run consists of the one query built from the arguments. -/
theorem fetchInfluxDbDataByDateAndStationNumber_calls (env : Env) (contractName : String)
    (date : Time) (stationNumber : String) (modulus : Int) :
    (fetchInfluxDbDataByDateAndStationNumber env contractName date stationNumber modulus).calls
      = [Call.Query
          { Command := fetchInfluxDbDataByDateAndStationNumber.query contractName date stationNumber,
            Database := env.dbDatabase }] := by
  have h := queryDB_calls env.influx env.dbDatabase
    (fetchInfluxDbDataByDateAndStationNumber.query contractName date stationNumber)
  simp only [fetchInfluxDbDataByDateAndStationNumber]
  generalize queryDB env.influx env.dbDatabase
    (fetchInfluxDbDataByDateAndStationNumber.query contractName date stationNumber) = q at h
  obtain ⟨calls, results, err⟩ := q
  simp only at h
  subst h
  cases err with
  | some e => rfl
  | none =>
    cases results with
    | nil => rfl
    | cons result0 rest =>
      simp only []
      cases result0.Series with
      | nil => rfl
      | cons series0 more =>
        simp only []
        split <;> rfl

/-- C14: for every contract name `c`, station number `n` and anchor date `d`, the one
command `fetchInfluxDbDataByDateAndStationNumber` sends, to the database `dbDatabase`,
is `SELECT * FROM c_n WHERE time >= 'D' AND time < 'D' + 24h` with `D` the date formatted
by the layout `2006-01-02 15:04` (the sixteen characters `YYYY-MM-DD HH:MM` for a
four-digit year) followed by `:00`; the seconds and nanoseconds of `d`
never change the command (at 2020-01-01 00:00:59.5 it is the command of 2020-01-01 00:00). -/
theorem fetchInfluxDbDataByDateAndStationNumber_command (env : Env) (contractName : String)
    (date : Time) (stationNumber : String) (modulus : Int) :
    (fetchInfluxDbDataByDateAndStationNumber env contractName date stationNumber modulus).calls
        = [Call.Query
            { Command := "SELECT * FROM " ++ contractName ++ "_" ++ stationNumber
                ++ " WHERE time >= \x27" ++ (date.Format ++ ":00")
                ++ "\x27 AND time < \x27" ++ (date.Format ++ ":00") ++ "\x27 + 24h",
              Database := env.dbDatabase }] ∧
      (∀ y : Nat, date.Year = (y : Int) → y < 10000 → date.Month < 100 → date.Day < 100 →
        date.Hour < 100 → date.Minute < 100 →
        date.Format = String.mk
          [Nat.digitChar (y / 1000), Nat.digitChar (y / 100 % 10), Nat.digitChar (y / 10 % 10),
            Nat.digitChar (y % 10), '-',
            Nat.digitChar (date.Month / 10), Nat.digitChar (date.Month % 10), '-',
            Nat.digitChar (date.Day / 10), Nat.digitChar (date.Day % 10), ' ',
            Nat.digitChar (date.Hour / 10), Nat.digitChar (date.Hour % 10), ':',
            Nat.digitChar (date.Minute / 10), Nat.digitChar (date.Minute % 10)]) ∧
      (∀ second nanosecond : Nat,
        (fetchInfluxDbDataByDateAndStationNumber env contractName
            { date with Second := second, Nanosecond := nanosecond } stationNumber modulus).calls
          = (fetchInfluxDbDataByDateAndStationNumber env contractName date stationNumber
            modulus).calls) ∧
      (fetchInfluxDbDataByDateAndStationNumber env "Paris" ⟨2020, 1, 1, 0, 0, 59, 500000000⟩
          "1" modulus).calls
        = [Call.Query
            { Command := "SELECT * FROM Paris_1 WHERE time >= \x272020-01-01 00:00:00\x27 AND time < \x272020-01-01 00:00:00\x27 + 24h",
              Database := env.dbDatabase }] := by
  refine ⟨fetchInfluxDbDataByDateAndStationNumber_calls env contractName date stationNumber
    modulus, fun y hy hy4 hmonth hday hhour hminute =>
      Time.Format_digits date y hy hy4 hmonth hday hhour hminute,
    fun second nanosecond => ?_, ?_⟩
  · rw [fetchInfluxDbDataByDateAndStationNumber_calls,
      fetchInfluxDbDataByDateAndStationNumber_calls]
    rfl
  · rw [fetchInfluxDbDataByDateAndStationNumber_calls]
    have hcmd : fetchInfluxDbDataByDateAndStationNumber.query "Paris"
        ⟨2020, 1, 1, 0, 0, 59, 500000000⟩ "1"
        = "SELECT * FROM Paris_1 WHERE time >= \x272020-01-01 00:00:00\x27 AND time < \x272020-01-01 00:00:00\x27 + 24h" := by
      decide
    rw [hcmd]

end Commute

/-! ## The `numbers` parameter -/

namespace Commute

/-- A split always has at least one piece. -/
theorem Split.chars_ne_nil (sep : Char) (cs : List Char) : Split.chars sep cs ≠ [] := by
  cases cs with
  | nil => simp [Split.chars]
  | cons c cs =>
    unfold Split.chars
    split
    · simp
    · split <;> simp

/-- Putting the separator back between the pieces gives the text. -/
theorem Split.chars_intercalate (sep : Char) (cs : List Char) :
    [sep].intercalate (Split.chars sep cs) = cs := by
  induction cs with
  | nil => rfl
  | cons c cs ih =>
    unfold Split.chars
    by_cases hc : c = sep
    · rw [if_pos hc]
      cases hrest : Split.chars sep cs with
      | nil => exact absurd hrest (Split.chars_ne_nil sep cs)
      | cons piece pieces =>
        rw [hrest] at ih
        rw [← ih, hc]
        simp [List.intercalate, List.intersperse]
    · rw [if_neg hc]
      cases hrest : Split.chars sep cs with
      | nil => exact absurd hrest (Split.chars_ne_nil sep cs)
      | cons piece pieces =>
        rw [hrest] at ih
        rw [← ih]
        cases pieces <;> simp [List.intercalate, List.intersperse]

/-- No piece contains the separator. -/
theorem Split.chars_not_mem (sep : Char) (cs : List Char) :
    ∀ piece ∈ Split.chars sep cs, sep ∉ piece := by
  induction cs with
  | nil =>
    intro piece hp
    simp only [Split.chars, List.mem_singleton] at hp
    subst hp
    simp
  | cons c cs ih =>
    intro piece hp
    unfold Split.chars at hp
    by_cases hc : c = sep
    · rw [if_pos hc, List.mem_cons] at hp
      rcases hp with rfl | hp
      · simp
      · exact ih piece hp
    · rw [if_neg hc] at hp
      cases hrest : Split.chars sep cs with
      | nil => exact absurd hrest (Split.chars_ne_nil sep cs)
      | cons first pieces =>
        rw [hrest] at hp ih
        simp only [List.mem_cons] at hp
        rcases hp with rfl | hp
        · intro hmem
          rw [List.mem_cons] at hmem
          rcases hmem with h | h
          · exact hc h.symm
          · exact ih first (List.mem_cons_self _ _) h
        · exact ih piece (List.mem_cons_of_mem _ hp)

/-- Every piece is empty exactly when the text consists of separators only. -/
theorem Split.chars_all_empty_iff (sep : Char) (cs : List Char) :
    (∀ piece ∈ Split.chars sep cs, piece = []) ↔ ∀ ch ∈ cs, ch = sep := by
  induction cs with
  | nil => simp [Split.chars]
  | cons c cs ih =>
    unfold Split.chars
    by_cases hc : c = sep
    · rw [if_pos hc]
      simp only [List.mem_cons, forall_eq_or_imp, true_and, hc]
      exact ih
    · rw [if_neg hc]
      cases hrest : Split.chars sep cs with
      | nil => exact absurd hrest (Split.chars_ne_nil sep cs)
      | cons first pieces =>
        simp only [List.mem_cons, forall_eq_or_imp, reduceCtorEq, false_and, hc]

/-- The empty text is the only one whose characters are none. -/
theorem mk_bne_empty (piece : List Char) : (String.mk piece != "") = !piece.isEmpty := by
  cases piece with
  | nil => rfl
  | cons c cs =>
    have h : String.mk (c :: cs) ≠ "" := by
      intro h
      have := congrArg String.data h
      simp at this
    simp [bne, h]

/-- The numbers list is empty exactly when the value consists of commas only. -/
theorem numbers_eq_nil_iff (value : String) :
    FilterString (Split value ',') (fun number => number != "") = []
      ↔ ∀ ch ∈ value.data, ch = ',' := by
  rw [← Split.chars_all_empty_iff]
  simp only [FilterString, Split, List.filter_eq_nil_iff, List.mem_map, forall_exists_index,
    and_imp, forall_apply_eq_imp_iff₂, mk_bne_empty]
  constructor
  · intro h piece hp
    have := h piece hp
    simpa using this
  · intro h piece hp
    simp [h piece hp]

/-- C17: for every value of the `numbers` query parameter, the numbers list that
`stationsHandler` builds is exactly the non-empty pieces of the value cut at its commas,
in their original order (the pieces joined by commas give back the value, no piece holds
a comma, nothing is trimmed and duplicates stay); it is empty if and only if the value is
empty or consists only of commas, and only then does the handler fall through to the geo
or by-contract strategy. -/
theorem stationsHandler_numbers (value : String) :
    (∃ pieces : List String,
      [','].intercalate (pieces.map String.data) = value.data ∧
      (∀ piece ∈ pieces, ',' ∉ piece.data) ∧
      FilterString (Split value ',') (fun number => number != "")
        = pieces.filter (fun piece => piece != "")) ∧
    (FilterString (Split value ',') (fun number => number != "") = []
      ↔ ∀ ch ∈ value.data, ch = ',') ∧
    FilterString (Split "1,,2 ,1," ',') (fun number => number != "") = ["1", "2 ", "1"] ∧
    (∀ (env : Env) (lib : Lib) (c : Context), c.DefaultQuery "numbers" "" = value →
      (FilterString (Split value ',') (fun number => number != "") ≠ [] →
        stationsHandler env lib c
          = JSON 200 (findByNumbers env (c.DefaultQuery "contract-name" "Paris")
              (FilterString (Split value ',') (fun number => number != "")))) ∧
      (FilterString (Split value ',') (fun number => number != "") = [] →
        stationsHandler env lib c
            = JSON 200 (findNearby env (c.DefaultQuery "contract-name" "Paris")
                (lib.ParseFloat (c.Query "lat")).1 (lib.ParseFloat (c.Query "lng")).1
                (lib.ParseFloat (c.DefaultQuery "distance" "5000")).1) ∨
          stationsHandler env lib c
            = JSON 200 (findByContractName env (c.DefaultQuery "contract-name" "Paris")))) := by
  refine ⟨⟨Split value ',', ?_, ?_, rfl⟩, numbers_eq_nil_iff value, by decide, ?_⟩
  · have h := Split.chars_intercalate ',' value.data
    simpa [Split, Function.comp_def] using h
  · intro piece hp
    simp only [Split, List.mem_map] at hp
    obtain ⟨chars, hchars, rfl⟩ := hp
    exact Split.chars_not_mem ',' value.data chars hchars
  · intro env lib c hvalue
    constructor
    · intro hne
      have hpos : (FilterString (Split value ',') (fun number => number != "")).length > 0 :=
        List.length_pos.2 hne
      unfold stationsHandler
      simp only [hvalue, hpos, if_true, StatusOK]
    · intro hnil
      unfold stationsHandler
      simp only [hvalue, hnil, List.length_nil, gt_iff_lt, Nat.lt_irrefl, if_false, StatusOK]
      split
      · exact Or.inl rfl
      · exact Or.inr rfl

end Commute

/-! ## The availability route -/

namespace Commute

/-- The route of line 110 binds the three segments under `contractName`, `stationNumber`
and `date`. -/
theorem matchRoute_availabilityInfos :
    matchRoute availabilityInfosRoute "/stations/Lyon/1/20200101-0000/availability-infos"
      = some [("contractName", "Lyon"), ("stationNumber", "1"), ("date", "20200101-0000")] := by
  decide

/-- Whatever the router bound under `contractName`, the handler reads the parameter
`contract-name`, finds nothing, and queries the tables of `Paris`. -/
theorem stationsAvailabilityInfosHandler_contract (env : Env) (lib : Lib)
    (query : List (String × String)) (contractName stationNumber date : String) :
    stationsAvailabilityInfosHandler env lib
        { query := query,
          params := [("contractName", contractName), ("stationNumber", stationNumber),
            ("date", date)] }
      = JSON 200 (fetchInfluxDbDataByDateAndStationNumber env "Paris"
          (lib.Parse "20060102-1504" date).1 stationNumber 60) := by
  have h1 : ("contract-name" == "contractName") = false := by decide
  have h2 : ("contract-name" == "stationNumber") = false := by decide
  have h3 : ("contract-name" == "date") = false := by decide
  have h4 : ("date" == "contractName") = false := by decide
  have h5 : ("date" == "stationNumber") = false := by decide
  have h6 : ("stationNumber" == "contractName") = false := by decide
  simp [stationsAvailabilityInfosHandler, Context.Param, List.lookup, h1, h2, h3, h4, h5, h6,
    StatusOK]

/-- C19, the code at two requests that differ only in the contractName segment: for
`/stations/Lyon/1/20200101-0000/availability-infos` and for
`/stations/Paris/1/20200101-0000/availability-infos` the handler sends the same query, on
the table `Paris_1`; the segment `Lyon` never reaches the command. -/
theorem stationsAvailabilityInfosHandler_always_Paris :
    (serveAvailabilityInfos noRowsEnv sampleLib
        "/stations/Lyon/1/20200101-0000/availability-infos").map (fun run => run.calls)
      = some [Call.Query
          { Command := "SELECT * FROM Paris_1 WHERE time >= \x272020-01-01 00:00:00\x27 AND time < \x272020-01-01 00:00:00\x27 + 24h",
            Database := "commute" }] ∧
    (serveAvailabilityInfos noRowsEnv sampleLib
        "/stations/Paris/1/20200101-0000/availability-infos").map (fun run => run.calls)
      = (serveAvailabilityInfos noRowsEnv sampleLib
        "/stations/Lyon/1/20200101-0000/availability-infos").map (fun run => run.calls) := by
  constructor <;> decide

end Commute

/-! ## JSON texts read back -/

namespace Commute

namespace Json

/-- A hexadecimal digit is read back as its value. -/
theorem hexValue_hexDigit : ∀ d, d < 16 → hexValue (hexDigit d) = some d := by
  decide

/-- The escape `\u00XX` of a character below 256 is read back as that character. -/
theorem hex4_low (n : Nat) (hn : n < 256) :
    hex4 '0' '0' (hexDigit (n / 16)) (hexDigit (n % 16)) = some n := by
  have h1 := hexValue_hexDigit (n / 16) (by omega)
  have h2 := hexValue_hexDigit (n % 16) (Nat.mod_lt _ (by decide))
  have h0 : hexValue '0' = some 0 := by decide
  simp only [hex4, h0, h1, h2]
  congr 1
  omega

/-- A character with a given code is that character. -/
theorem eq_ofNat_of_toNat {c : Char} {n : Nat} (h : c.toNat = n) : Char.ofNat n = c := by
  rw [← h]
  exact Char.ofNat_toNat c

/-- What the encoder writes for one character is read back as that character. -/
theorem scanString_escapeChar (c : Char) (rest : List Char) :
    scanString 0 (escapeChar c ++ rest)
      = (scanString 0 rest).map fun (s, r) => (c :: s, r) := by
  unfold escapeChar
  split
  · next h => subst h; rfl
  · split
    · next h => subst h; rfl
    · split
      · next h =>
        have hc := eq_ofNat_of_toNat h
        subst hc
        rfl
      · split
        · next h =>
          have hc := eq_ofNat_of_toNat h
          subst hc
          rfl
        · split
          · next h => subst h; rfl
          · split
            · next h => subst h; rfl
            · split
              · next h => subst h; rfl
              · split
                · next hq hb _ _ _ _ _ hlow =>
                  have hn : c.toNat < 256 := by
                    rcases hlow with h | h | h | h
                    · omega
                    · subst h; decide
                    · subst h; decide
                    · subst h; decide
                  have hhex := hex4_low c.toNat hn
                  have hsur : ¬ (0xD800 ≤ c.toNat ∧ c.toNat < 0xDC00) := by omega
                  have hsur2 : ¬ (0xDC00 ≤ c.toNat ∧ c.toNat < 0xE000) := by omega
                  simp [scanString, escapeAt, hhex, hsur, hsur2, Char.ofNat_toNat]
                · split
                  · next h =>
                    have hc := eq_ofNat_of_toNat h
                    subst hc
                    rfl
                  · split
                    · next h =>
                      have hc := eq_ofNat_of_toNat h
                      subst hc
                      rfl
                    · next hq hb _ _ _ _ _ hlow _ _ =>
                      have h32 : ¬ c.toNat < 32 := fun h => hlow (Or.inl h)
                      simp [scanString, hq, hb, h32]

/-- A string literal is read back as its characters. -/
theorem scanString_escapeChars (cs : List Char) (rest : List Char) :
    scanString 0 (escapeChars cs ++ '"' :: rest) = some (cs, rest) := by
  induction cs with
  | nil => simp [escapeChars, scanString]
  | cons c cs ih =>
    rw [escapeChars, List.append_assoc, scanString_escapeChar, ih]
    rfl

end Json

end Commute

namespace Commute

namespace Json

/-- A value text is followed by nothing, a comma, a closing brace or a closing bracket. -/
theorem endsValue_cases {rest : List Char} (h : endsValue rest = true) :
    rest = [] ∨ ∃ c tail, rest = c :: tail ∧ (c = ',' ∨ c = '}' ∨ c = ']') := by
  cases rest with
  | nil => exact Or.inl rfl
  | cons c tail =>
    refine Or.inr ⟨c, tail, rfl, ?_⟩
    simpa [endsValue, or_assoc] using h

/-- What follows a value does not start with a digit. -/
theorem takeWhile_isDigit_ends {rest : List Char} (h : endsValue rest = true) :
    rest.takeWhile isDigit = [] ∧ rest.dropWhile isDigit = rest := by
  rcases endsValue_cases h with rfl | ⟨c, tail, rfl, hc⟩
  · exact ⟨rfl, rfl⟩
  · rcases hc with rfl | rfl | rfl <;> exact ⟨rfl, rfl⟩

theorem takeWhile_isDigit_append (xs rest : List Char) (h : endsValue rest = true) :
    (xs ++ rest).takeWhile isDigit = xs.takeWhile isDigit := by
  induction xs with
  | nil => exact (takeWhile_isDigit_ends h).1
  | cons x xs ih =>
    by_cases hx : isDigit x = true
    · rw [List.cons_append, List.takeWhile_cons_of_pos hx, List.takeWhile_cons_of_pos hx, ih]
    · rw [List.cons_append, List.takeWhile_cons_of_neg hx, List.takeWhile_cons_of_neg hx]

theorem dropWhile_isDigit_append (xs rest : List Char) (h : endsValue rest = true) :
    (xs ++ rest).dropWhile isDigit = xs.dropWhile isDigit ++ rest := by
  induction xs with
  | nil => exact (takeWhile_isDigit_ends h).2
  | cons x xs ih =>
    by_cases hx : isDigit x = true
    · rw [List.cons_append, List.dropWhile_cons_of_pos hx, List.dropWhile_cons_of_pos hx, ih]
    · rw [List.cons_append, List.dropWhile_cons_of_neg hx, List.dropWhile_cons_of_neg hx]
      rfl

/-- A run of digits is taken whole. -/
theorem takeWhile_isDigit_all (ds : List Char) (h : ∀ c ∈ ds, 48 ≤ c.toNat ∧ c.toNat ≤ 57) :
    ds.takeWhile isDigit = ds ∧ ds.dropWhile isDigit = [] := by
  induction ds with
  | nil => exact ⟨rfl, rfl⟩
  | cons d ds ih =>
    have hd := h d (List.mem_cons_self _ _)
    have hdig : isDigit d = true := by simp [isDigit, hd.1, hd.2]
    have ih := ih (fun c hc => h c (List.mem_cons_of_mem _ hc))
    rw [List.takeWhile_cons_of_pos hdig, List.dropWhile_cons_of_pos hdig, ih.1, ih.2]
    exact ⟨rfl, rfl⟩

theorem scanFraction_append (xs rest t r : List Char) (h : endsValue rest = true)
    (hx : scanFraction xs = some (t, r)) : scanFraction (xs ++ rest) = some (t, r ++ rest) := by
  cases xs with
  | nil =>
    simp only [scanFraction, Option.some.injEq, Prod.mk.injEq] at hx
    obtain ⟨rfl, rfl⟩ := hx
    rcases endsValue_cases h with rfl | ⟨c, tail, rfl, hc⟩
    · rfl
    · rcases hc with rfl | rfl | rfl <;> rfl
  | cons c xs =>
    rw [List.cons_append]
    simp only [scanFraction] at hx ⊢
    rw [takeWhile_isDigit_append xs rest h, dropWhile_isDigit_append xs rest h]
    by_cases hc : c = '.'
    · rw [if_pos hc] at hx ⊢
      by_cases hne : xs.takeWhile isDigit = []
      · rw [if_pos hne] at hx
        exact absurd hx (by simp)
      · rw [if_neg hne] at hx ⊢
        simp only [Option.some.injEq, Prod.mk.injEq] at hx
        obtain ⟨rfl, rfl⟩ := hx
        rfl
    · rw [if_neg hc] at hx ⊢
      simp only [Option.some.injEq, Prod.mk.injEq] at hx
      obtain ⟨rfl, rfl⟩ := hx
      rfl

theorem scanExponentDigits_append (mark xs rest t r : List Char) (h : endsValue rest = true)
    (hx : scanExponentDigits mark xs = some (t, r)) :
    scanExponentDigits mark (xs ++ rest) = some (t, r ++ rest) := by
  unfold scanExponentDigits at hx ⊢
  rw [takeWhile_isDigit_append xs rest h, dropWhile_isDigit_append xs rest h]
  by_cases hne : xs.takeWhile isDigit = []
  · rw [if_pos hne] at hx
    exact absurd hx (by simp)
  · rw [if_neg hne] at hx ⊢
    simp only [Option.some.injEq, Prod.mk.injEq] at hx
    obtain ⟨rfl, rfl⟩ := hx
    rfl

theorem scanExponent_append (xs rest t r : List Char) (h : endsValue rest = true)
    (hx : scanExponent xs = some (t, r)) : scanExponent (xs ++ rest) = some (t, r ++ rest) := by
  cases xs with
  | nil =>
    simp only [scanExponent, Option.some.injEq, Prod.mk.injEq] at hx
    obtain ⟨rfl, rfl⟩ := hx
    rcases endsValue_cases h with rfl | ⟨c, tail, rfl, hc⟩
    · rfl
    · rcases hc with rfl | rfl | rfl <;> rfl
  | cons c xs =>
    rw [List.cons_append]
    simp only [scanExponent] at hx ⊢
    by_cases hc : c = 'e' ∨ c = 'E'
    · rw [if_pos hc] at hx ⊢
      cases xs with
      | nil => exact absurd hx (by simp)
      | cons s xs2 =>
        rw [List.cons_append]
        simp only [] at hx ⊢
        by_cases hs : s = '+' ∨ s = '-'
        · rw [if_pos hs] at hx ⊢
          exact scanExponentDigits_append _ _ _ _ _ h hx
        · rw [if_neg hs] at hx ⊢
          exact scanExponentDigits_append _ (s :: xs2) _ _ _ h hx
    · rw [if_neg hc] at hx ⊢
      simp only [Option.some.injEq, Prod.mk.injEq] at hx
      obtain ⟨rfl, rfl⟩ := hx
      rfl

/-- The fraction and the exponent after the integer part, followed by the end of a value. -/
theorem scanTail_append (intPart afterInt rest t r : List Char) (h : endsValue rest = true)
    (hx : (match scanFraction afterInt with
      | none => none
      | some (fraction, afterFraction) =>
        match scanExponent afterFraction with
        | none => none
        | some (exponent, afterExponent) =>
          some (intPart ++ fraction ++ exponent, afterExponent)) = some (t, r)) :
    (match scanFraction (afterInt ++ rest) with
      | none => none
      | some (fraction, afterFraction) =>
        match scanExponent afterFraction with
        | none => none
        | some (exponent, afterExponent) =>
          some (intPart ++ fraction ++ exponent, afterExponent)) = some (t, r ++ rest) := by
  cases hf : scanFraction afterInt with
  | none => rw [hf] at hx; exact absurd hx (by simp)
  | some p =>
    obtain ⟨fraction, afterFraction⟩ := p
    rw [hf] at hx
    rw [scanFraction_append afterInt rest fraction afterFraction h hf]
    simp only [] at hx ⊢
    cases he : scanExponent afterFraction with
    | none => rw [he] at hx; exact absurd hx (by simp)
    | some q =>
      obtain ⟨exponent, afterExponent⟩ := q
      rw [he] at hx
      rw [scanExponent_append afterFraction rest exponent afterExponent h he]
      simp only [Option.some.injEq, Prod.mk.injEq] at hx ⊢
      obtain ⟨rfl, rfl⟩ := hx
      exact ⟨rfl, rfl⟩

theorem scanUnsigned_append (xs rest t r : List Char) (h : endsValue rest = true)
    (hx : scanUnsigned xs = some (t, r)) : scanUnsigned (xs ++ rest) = some (t, r ++ rest) := by
  cases xs with
  | nil => exact absurd hx (by simp [scanUnsigned])
  | cons d xs =>
    rw [List.cons_append]
    simp only [scanUnsigned] at hx ⊢
    rw [takeWhile_isDigit_append xs rest h, dropWhile_isDigit_append xs rest h]
    by_cases hd : isDigit d = true
    · rw [if_pos hd] at hx ⊢
      by_cases h0 : d = '0'
      · rw [if_pos h0, if_pos h0] at hx ⊢
        exact scanTail_append _ _ _ _ _ h hx
      · rw [if_neg h0, if_neg h0] at hx ⊢
        exact scanTail_append _ _ _ _ _ h hx
    · rw [if_neg hd] at hx
      exact absurd hx (by simp)

/-- A number token followed by the end of a value is scanned as that token. -/
theorem scanNumber_append (token rest : List Char) (h : endsValue rest = true)
    (htoken : scanNumber token = some (token, [])) :
    scanNumber (token ++ rest) = some (token, rest) := by
  cases token with
  | nil => exact absurd htoken (by simp [scanNumber])
  | cons c xs =>
    rw [List.cons_append]
    simp only [scanNumber] at htoken ⊢
    by_cases hc : c = '-'
    · rw [if_pos hc] at htoken ⊢
      cases hu : scanUnsigned xs with
      | none => rw [hu] at htoken; exact absurd htoken (by simp)
      | some p =>
        obtain ⟨t, r⟩ := p
        rw [hu] at htoken
        simp only [Option.map_some', Option.some.injEq, Prod.mk.injEq, List.cons.injEq,
          true_and] at htoken
        obtain ⟨rfl, rfl⟩ := htoken
        rw [scanUnsigned_append _ rest _ _ h hu]
        rfl
    · rw [if_neg hc] at htoken ⊢
      exact scanUnsigned_append (c :: xs) rest _ _ h htoken

end Json

end Commute

namespace Commute

namespace Json

/-- The decimal text of a number: digits only, and no leading zero except for zero itself. -/
theorem toDigits_shape (n : Nat) :
    ∃ d ds, Nat.toDigits 10 n = d :: ds ∧ (∀ c ∈ d :: ds, 48 ≤ c.toNat ∧ c.toNat ≤ 57) ∧
      (1 ≤ n → d ≠ '0') := by
  induction n using Nat.strong_induction_on with
  | _ n ih =>
    by_cases h10 : n < 10
    · have hd := digitChar_toNat n h10
      refine ⟨Nat.digitChar n, [], toDigits_of_lt_ten n h10, ?_, ?_⟩
      · intro c hc
        rw [List.mem_singleton] at hc
        subst hc
        omega
      · intro h1 h0
        rw [h0] at hd
        have : ('0' : Char).toNat = 48 := by decide
        omega
    · obtain ⟨d, ds, hds, hdig, hne⟩ := ih (n / 10) (by omega)
      have hd := digitChar_toNat (n % 10) (Nat.mod_lt _ (by decide))
      refine ⟨d, ds ++ [Nat.digitChar (n % 10)], ?_, ?_, fun _ => hne (by omega)⟩
      · rw [toDigits_of_ten_le n (by omega), hds]
        rfl
      · intro c hc
        rw [← List.cons_append, List.mem_append, List.mem_singleton] at hc
        rcases hc with hc | hc
        · exact hdig c hc
        · subst hc
          omega

theorem scanUnsigned_toDigits (n : Nat) :
    scanUnsigned (Nat.toDigits 10 n) = some (Nat.toDigits 10 n, []) := by
  by_cases h0 : n = 0
  · subst h0
    decide
  · obtain ⟨d, ds, hds, hdig, hne⟩ := toDigits_shape n
    have hd := hdig d (List.mem_cons_self _ _)
    have hdigit : isDigit d = true := by simp [isDigit, hd.1, hd.2]
    have hall := takeWhile_isDigit_all ds (fun c hc => hdig c (List.mem_cons_of_mem _ hc))
    rw [hds]
    simp only [scanUnsigned]
    rw [if_pos hdigit, if_neg (hne (by omega)), if_neg (hne (by omega)), hall.1, hall.2]
    simp [scanFraction, scanExponent]

/-- The decimal text of an integer is a number token. -/
theorem scanNumber_toString (z : Int) :
    scanNumber (toString z).data = some ((toString z).data, []) := by
  cases z with
  | ofNat m =>
    have hdata : (toString (Int.ofNat m)).data = Nat.toDigits 10 m := rfl
    obtain ⟨d, ds, hds, hdig, _⟩ := toDigits_shape m
    have hd := hdig d (List.mem_cons_self _ _)
    have hminus : d ≠ '-' := by
      intro h
      rw [h] at hd
      revert hd
      decide
    rw [hdata]
    have hu := scanUnsigned_toDigits m
    rw [hds] at hu ⊢
    simp only [scanNumber]
    rw [if_neg hminus]
    exact hu
  | negSucc m =>
    have hdata : (toString (Int.negSucc m)).data = '-' :: Nat.toDigits 10 (m + 1) := rfl
    rw [hdata]
    simp only [scanNumber, if_true]
    rw [scanUnsigned_toDigits (m + 1)]
    rfl

/-- The first character of a number token is a minus sign or a digit. -/
theorem scanNumber_head {token t r : List Char} (h : scanNumber token = some (t, r)) :
    ∃ c xs, token = c :: xs ∧ (c = '-' ∨ (48 ≤ c.toNat ∧ c.toNat ≤ 57)) := by
  cases token with
  | nil => exact absurd h (by simp [scanNumber])
  | cons c xs =>
    refine ⟨c, xs, rfl, ?_⟩
    by_cases hc : c = '-'
    · exact Or.inl hc
    · simp only [scanNumber] at h
      rw [if_neg hc] at h
      simp only [scanUnsigned] at h
      by_cases hd : isDigit c = true
      · right
        simpa [isDigit] using hd
      · rw [if_neg hd] at h
        exact absurd h (by simp)

/-- A number token is read as a number. -/
theorem parseValue_number (fuel : Nat) (token rest : List Char)
    (htoken : scanNumber token = some (token, [])) (h : endsValue rest = true) :
    parseValue (fuel + 1) (token ++ rest) = some (.num (String.mk token), rest) := by
  obtain ⟨c, xs, hcx, hc⟩ := scanNumber_head htoken
  have hscan := scanNumber_append token rest h htoken
  rw [hcx] at hscan ⊢
  rw [List.cons_append] at hscan ⊢
  have hfacts : isSpace c = false ∧ c ≠ '{' ∧ c ≠ '[' ∧ c ≠ '"' ∧ c ≠ 't' ∧ c ≠ 'f' ∧ c ≠ 'n' := by
    rcases hc with rfl | hd
    · decide
    · refine ⟨?_, ?_, ?_, ?_, ?_, ?_, ?_⟩
      · cases hs : isSpace c with
        | false => rfl
        | true =>
          simp only [isSpace, Bool.or_eq_true, decide_eq_true_eq] at hs
          rcases hs with ((h | h) | h) | h <;> (rw [h] at hd; revert hd; decide)
      all_goals (intro h; rw [h] at hd; revert hd; decide)
  obtain ⟨hs, h1, h2, h3, h4, h5, h6⟩ := hfacts
  simp only [parseValue, skipSpace, hs, Bool.false_eq_true, if_false, h1, h2, h3, h4, h5, h6,
    hscan, Option.map_some']

/-- A string literal is read as its string. -/
theorem parseValue_quote (fuel : Nat) (s : String) (rest : List Char) :
    parseValue (fuel + 1) (quote s ++ rest) = some (.str s, rest) := by
  have hs : isSpace '"' = false := by decide
  have h1 : ('"' : Char) ≠ '{' := by decide
  have h2 : ('"' : Char) ≠ '[' := by decide
  have htext : quote s ++ rest = '"' :: (escapeChars s.data ++ '"' :: rest) := by
    simp [quote]
  rw [htext]
  simp only [parseValue, skipSpace, hs, Bool.false_eq_true, if_false, h1, h2, if_true,
    scanString_escapeChars, Option.map_some']

/-- The texts `true` and `false` are read as the booleans. -/
theorem parseValue_bool (fuel : Nat) (b : Bool) (rest : List Char) :
    parseValue (fuel + 1) ((toString b).data ++ rest) = some (.bool b, rest) := by
  cases b <;> rfl

/-- The text `null` is read as null. -/
theorem parseValue_null (fuel : Nat) (rest : List Char) :
    parseValue (fuel + 1) (['n', 'u', 'l', 'l'] ++ rest) = some (.null, rest) := by
  rfl

end Json

end Commute

namespace Commute

namespace Json

/-- One member whose value is read back and that is followed by the closing brace. -/
theorem parseMembers_last (fuel : Nat) (key : String) (value : Json) (text rest : List Char)
    (hvalue : parseValue fuel (text ++ '}' :: rest) = some (value, '}' :: rest)) :
    parseMembers (fuel + 1) (quote key ++ ':' :: (text ++ '}' :: rest))
      = some ([(key, value)], rest) := by
  have htext : quote key ++ ':' :: (text ++ '}' :: rest)
      = '"' :: (escapeChars key.data ++ '"' :: ':' :: (text ++ '}' :: rest)) := by
    simp [quote]
  have hs1 : isSpace '"' = false := by decide
  have hs2 : isSpace ':' = false := by decide
  have hs3 : isSpace '}' = false := by decide
  have hne : ('}' : Char) ≠ ',' := by decide
  rw [htext]
  simp only [parseMembers, skipSpace, hs1, hs2, hs3, Bool.false_eq_true, if_false, if_true,
    scanString_escapeChars, hvalue, hne]

/-- One member whose value is read back and that is followed by a comma. -/
theorem parseMembers_more (fuel : Nat) (key : String) (value : Json) (text after : List Char)
    (hvalue : parseValue fuel (text ++ ',' :: after) = some (value, ',' :: after)) :
    parseMembers (fuel + 1) (quote key ++ ':' :: (text ++ ',' :: after))
      = (parseMembers fuel after).map fun (ms, r) => ((key, value) :: ms, r) := by
  have htext : quote key ++ ':' :: (text ++ ',' :: after)
      = '"' :: (escapeChars key.data ++ '"' :: ':' :: (text ++ ',' :: after)) := by
    simp [quote]
  have hs1 : isSpace '"' = false := by decide
  have hs2 : isSpace ':' = false := by decide
  have hs3 : isSpace ',' = false := by decide
  rw [htext]
  simp only [parseMembers, skipSpace, hs1, hs2, hs3, Bool.false_eq_true, if_false, if_true,
    scanString_escapeChars, hvalue]

/-- The members of an object are read back, given that each value is. -/
theorem parseMembers_printMembers (n : Nat) (members : List (String × Json × List Char))
    (hne : members ≠ [])
    (hvalues : ∀ m ∈ members, ∀ fuel, n ≤ fuel → ∀ rest, endsValue rest = true →
      parseValue fuel (m.2.2 ++ rest) = some (m.2.1, rest)) :
    ∀ fuel, n + members.length ≤ fuel → ∀ rest,
      parseMembers fuel (printMembers (members.map fun m => (m.1, m.2.2)) ++ '}' :: rest)
        = some (members.map fun m => (m.1, m.2.1), rest) := by
  induction members with
  | nil => exact absurd rfl hne
  | cons m ms ih =>
    intro fuel hfuel rest
    obtain ⟨f, rfl⟩ : ∃ f, fuel = f + 1 := ⟨fuel - 1, by simp at hfuel; omega⟩
    have hf : n + ms.length ≤ f := by simp at hfuel; omega
    have hm := hvalues m (List.mem_cons_self _ _) f (by omega)
    cases ms with
    | nil =>
      have h := parseMembers_last f m.1 m.2.1 m.2.2 rest (hm _ rfl)
      simpa [printMembers] using h
    | cons m2 ms2 =>
      have hrest := ih (by simp) (fun x hx => hvalues x (List.mem_cons_of_mem _ hx)) f hf rest
      have h := parseMembers_more f m.1 m.2.1 m.2.2
        (printMembers (List.map (fun m => (m.1, m.2.2)) (m2 :: ms2)) ++ '}' :: rest) (hm _ rfl)
      rw [hrest] at h
      simpa [printMembers] using h

/-- An object with at least one member is read back, given that each value is. -/
theorem parseValue_printObject (n : Nat) (members : List (String × Json × List Char))
    (hne : members ≠ [])
    (hvalues : ∀ m ∈ members, ∀ fuel, n ≤ fuel → ∀ rest, endsValue rest = true →
      parseValue fuel (m.2.2 ++ rest) = some (m.2.1, rest)) :
    ∀ fuel, n + members.length + 1 ≤ fuel → ∀ rest,
      parseValue fuel (printObject (members.map fun m => (m.1, m.2.2)) ++ rest)
        = some (.obj (members.map fun m => (m.1, m.2.1)), rest) := by
  intro fuel hfuel rest
  obtain ⟨f, rfl⟩ : ∃ f, fuel = f + 1 := ⟨fuel - 1, by omega⟩
  have hms := parseMembers_printMembers n members hne hvalues f (by omega) rest
  obtain ⟨tail, htail⟩ : ∃ tail, printMembers (members.map fun m => (m.1, m.2.2)) = '"' :: tail := by
    cases members with
    | nil => exact absurd rfl hne
    | cons m ms =>
      cases ms with
      | nil => exact ⟨_, by simp [printMembers, quote]; rfl⟩
      | cons m2 ms2 => exact ⟨_, by simp [printMembers, quote]; rfl⟩
  have hs1 : isSpace '{' = false := by decide
  have hs2 : isSpace '"' = false := by decide
  have hq : ('"' : Char) ≠ '}' := by decide
  have htext : printObject (members.map fun m => (m.1, m.2.2)) ++ rest
      = '{' :: (printMembers (members.map fun m => (m.1, m.2.2)) ++ '}' :: rest) := by
    simp [printObject]
  rw [htext]
  rw [htail] at hms ⊢
  rw [List.cons_append] at hms ⊢
  simp only [parseValue, skipSpace, hs1, hs2, Bool.false_eq_true, if_false, if_true, hq, hms,
    Option.map_some']

end Json

end Commute

namespace Commute

namespace Json

/-- One element that is read back and that is followed by the closing bracket. -/
theorem parseElements_last (fuel : Nat) (value : Json) (text rest : List Char)
    (hvalue : parseValue fuel (text ++ ']' :: rest) = some (value, ']' :: rest)) :
    parseElements (fuel + 1) (text ++ ']' :: rest) = some ([value], rest) := by
  have hs : isSpace ']' = false := by decide
  have hne : (']' : Char) ≠ ',' := by decide
  simp only [parseElements, hvalue, skipSpace, hs, Bool.false_eq_true, if_false, hne, if_true]

/-- One element that is read back and that is followed by a comma. -/
theorem parseElements_more (fuel : Nat) (value : Json) (text after : List Char)
    (hvalue : parseValue fuel (text ++ ',' :: after) = some (value, ',' :: after)) :
    parseElements (fuel + 1) (text ++ ',' :: after)
      = (parseElements fuel after).map fun (es, r) => (value :: es, r) := by
  have hs : isSpace ',' = false := by decide
  simp only [parseElements, hvalue, skipSpace, hs, Bool.false_eq_true, if_false, if_true]

/-- The elements of an array are read back, given that each one is. -/
theorem parseElements_printElements (n : Nat) (elements : List (Json × List Char))
    (hne : elements ≠ [])
    (hvalues : ∀ e ∈ elements, ∀ fuel, n ≤ fuel → ∀ rest, endsValue rest = true →
      parseValue fuel (e.2 ++ rest) = some (e.1, rest)) :
    ∀ fuel, n + elements.length ≤ fuel → ∀ rest,
      parseElements fuel (printElements (elements.map fun e => e.2) ++ ']' :: rest)
        = some (elements.map fun e => e.1, rest) := by
  induction elements with
  | nil => exact absurd rfl hne
  | cons e es ih =>
    intro fuel hfuel rest
    obtain ⟨f, rfl⟩ : ∃ f, fuel = f + 1 := ⟨fuel - 1, by simp at hfuel; omega⟩
    have hf : n + es.length ≤ f := by simp at hfuel; omega
    have he := hvalues e (List.mem_cons_self _ _) f (by omega)
    cases es with
    | nil =>
      have h := parseElements_last f e.1 e.2 rest (he _ rfl)
      simpa [printElements] using h
    | cons e2 es2 =>
      have hrest := ih (by simp) (fun x hx => hvalues x (List.mem_cons_of_mem _ hx)) f hf rest
      have h := parseElements_more f e.1 e.2
        (printElements (List.map (fun e => e.2) (e2 :: es2)) ++ ']' :: rest) (he _ rfl)
      rw [hrest] at h
      simpa [printElements] using h

/-- An array of objects is read back, given that each element is. -/
theorem parseValue_printArray (n : Nat) (elements : List (Json × List Char))
    (hbrace : ∀ e ∈ elements, ∃ tail, e.2 = '{' :: tail)
    (hvalues : ∀ e ∈ elements, ∀ fuel, n ≤ fuel → ∀ rest, endsValue rest = true →
      parseValue fuel (e.2 ++ rest) = some (e.1, rest)) :
    ∀ fuel, n + elements.length + 1 ≤ fuel → ∀ rest,
      parseValue fuel (printArray (elements.map fun e => e.2) ++ rest)
        = some (.arr (elements.map fun e => e.1), rest) := by
  intro fuel hfuel rest
  obtain ⟨f, rfl⟩ : ∃ f, fuel = f + 1 := ⟨fuel - 1, by omega⟩
  have hs1 : isSpace '[' = false := by decide
  have hs2 : isSpace ']' = false := by decide
  have hs3 : isSpace '{' = false := by decide
  have hb : ('[' : Char) ≠ '{' := by decide
  have hc : ('{' : Char) ≠ ']' := by decide
  have htext : printArray (elements.map fun e => e.2) ++ rest
      = '[' :: (printElements (elements.map fun e => e.2) ++ ']' :: rest) := by
    simp [printArray]
  rw [htext]
  cases helems : elements with
  | nil =>
    simp only [List.map_nil, printElements, List.nil_append, parseValue, skipSpace, hs1, hs2,
      Bool.false_eq_true, if_false, hb, if_true]
  | cons e es =>
    have hne : elements ≠ [] := by rw [helems]; simp
    have hes := parseElements_printElements n elements hne hvalues f (by omega) rest
    rw [helems] at hes
    obtain ⟨tail, htail⟩ : ∃ tail,
        printElements ((e :: es).map fun e => e.2) = '{' :: tail := by
      obtain ⟨t, ht⟩ := hbrace e (by rw [helems]; exact List.mem_cons_self _ _)
      cases es with
      | nil => exact ⟨t, by simp [printElements, ht]⟩
      | cons e2 es2 => exact ⟨_, by simp [printElements, ht]; rfl⟩
    rw [htail] at hes ⊢
    rw [List.cons_append] at hes ⊢
    simp only [parseValue, skipSpace, hs1, hs3, Bool.false_eq_true, if_false, hb, if_true, hc,
      hes, Option.map_some']

/-- The decimal text of an integer is read back as a number, at any depth left. -/
theorem parseValue_toString (z : Int) (fuel : Nat) (hfuel : 1 ≤ fuel) (rest : List Char)
    (h : endsValue rest = true) :
    parseValue fuel ((toString z).data ++ rest) = some (.num (toString z), rest) := by
  obtain ⟨f, rfl⟩ : ∃ f, fuel = f + 1 := ⟨fuel - 1, by omega⟩
  exact parseValue_number f _ rest (scanNumber_toString z) h

/-- The text of an image is read back as its value. -/
theorem parseValue_encodeImage (image : Image) :
    ∀ fuel, 5 ≤ fuel → ∀ rest,
      parseValue fuel (encodeImage image ++ rest) = some (imageJson image, rest) := by
  intro fuel hfuel rest
  have h := parseValue_printObject 1
    [("uid", .num (toString image.Uid), (toString image.Uid).data),
      ("width", .num (toString image.Width), (toString image.Width).data),
      ("quality", .num (toString image.Quality), (toString image.Quality).data)]
    (by simp)
    (by
      intro m hm fuel hfuel rest hrest
      simp only [List.mem_cons, List.mem_singleton, List.not_mem_nil, or_false] at hm
      rcases hm with rfl | rfl | rfl <;> exact parseValue_toString _ fuel hfuel rest hrest)
    fuel (by simpa using hfuel) rest
  exact h

/-- The text of the images is read back as its value. -/
theorem parseValue_encodeImages (nilImages : Bool) (images : List Image) :
    ∀ fuel, 6 + images.length ≤ fuel → ∀ rest,
      parseValue fuel (encodeImages nilImages images ++ rest)
        = some (imagesJson nilImages images, rest) := by
  intro fuel hfuel rest
  unfold encodeImages imagesJson
  by_cases hnil : images = [] ∧ nilImages = true
  · rw [if_pos hnil, if_pos hnil]
    obtain ⟨f, rfl⟩ : ∃ f, fuel = f + 1 := ⟨fuel - 1, by omega⟩
    exact parseValue_null f rest
  · rw [if_neg hnil, if_neg hnil]
    have h := parseValue_printArray 5 (images.map fun image => (imageJson image, encodeImage image))
      (by
        intro e he
        simp only [List.mem_map] at he
        obtain ⟨image, _, rfl⟩ := he
        exact ⟨_, rfl⟩)
      (by
        intro e he fuel hfuel rest _
        simp only [List.mem_map] at he
        obtain ⟨image, _, rfl⟩ := he
        exact parseValue_encodeImage image fuel hfuel rest)
      fuel (by simpa using (by omega : 5 + images.length + 1 ≤ fuel)) rest
    simpa [List.map_map, Function.comp_def] using h

/-- The text of a position is read back as its value, for coordinates whose text is a
JSON number. -/
theorem parseValue_encodePosition (formatFloat : Float64 → String) (position : Position)
    (hlat : isNumber (formatFloat position.Latitude) = true)
    (hlng : isNumber (formatFloat position.Longitude) = true) :
    ∀ fuel, 4 ≤ fuel → ∀ rest,
      parseValue fuel (encodePosition formatFloat position ++ rest)
        = some (positionJson formatFloat position, rest) := by
  intro fuel hfuel rest
  have hnum : ∀ x : Float64, isNumber (formatFloat x) = true → ∀ fuel, 1 ≤ fuel → ∀ rest,
      endsValue rest = true →
      parseValue fuel ((formatFloat x).data ++ rest) = some (.num (formatFloat x), rest) := by
    intro x hx fuel hfuel rest hrest
    obtain ⟨f, rfl⟩ : ∃ f, fuel = f + 1 := ⟨fuel - 1, by omega⟩
    have htoken : scanNumber (formatFloat x).data = some ((formatFloat x).data, []) := by
      simpa [isNumber] using hx
    exact parseValue_number f _ rest htoken hrest
  have h := parseValue_printObject 1
    [("lat", .num (formatFloat position.Latitude), (formatFloat position.Latitude).data),
      ("lng", .num (formatFloat position.Longitude), (formatFloat position.Longitude).data)]
    (by simp)
    (by
      intro m hm fuel hfuel rest hrest
      simp only [List.mem_cons, List.mem_singleton, List.not_mem_nil, or_false] at hm
      rcases hm with rfl | rfl
      · exact hnum _ hlat fuel hfuel rest hrest
      · exact hnum _ hlng fuel hfuel rest hrest)
    fuel (by simpa using hfuel) rest
  exact h

end Json

end Commute

namespace Commute

namespace Json

/-- The text of a station with finite coordinates (`Marshal`, before the error check). -/
theorem parseValue_station (formatFloat : Float64 → String) (nilImages : Bool)
    (station : Station)
    (hlat : isNumber (formatFloat station.Position.Latitude) = true)
    (hlng : isNumber (formatFloat station.Position.Longitude) = true) :
    ∀ fuel, 20 + station.Images.length ≤ fuel → ∀ rest,
      parseValue fuel (printObject
        [("number", (toString station.Number).data),
          ("name", quote station.Name),
          ("address", quote station.Address),
          ("position", encodePosition formatFloat station.Position),
          ("banking", (toString station.Banking).data),
          ("bonus", (toString station.Bonus).data),
          ("status", quote station.Status),
          ("contract_name", quote station.ContractName),
          ("bike_stands", (toString station.BikeStands).data),
          ("available_bike_stands", (toString station.AvailableBikeStands).data),
          ("available_bikes", (toString station.AvailableBikes).data),
          ("last_update", quote station.LastUpdate),
          ("images", encodeImages nilImages station.Images)] ++ rest)
        = some (stationJson formatFloat nilImages station, rest) := by
  intro fuel hfuel rest
  have hquote : ∀ s : String, ∀ fuel, 6 + station.Images.length ≤ fuel → ∀ rest,
      endsValue rest = true → parseValue fuel (quote s ++ rest) = some (.str s, rest) := by
    intro s fuel hfuel rest _
    obtain ⟨f, rfl⟩ : ∃ f, fuel = f + 1 := ⟨fuel - 1, by omega⟩
    exact parseValue_quote f s rest
  have hint : ∀ z : Int, ∀ fuel, 6 + station.Images.length ≤ fuel → ∀ rest,
      endsValue rest = true →
      parseValue fuel ((toString z).data ++ rest) = some (.num (toString z), rest) := by
    intro z fuel hfuel rest hrest
    exact parseValue_toString z fuel (by omega) rest hrest
  have hbool : ∀ b : Bool, ∀ fuel, 6 + station.Images.length ≤ fuel → ∀ rest,
      endsValue rest = true →
      parseValue fuel ((toString b).data ++ rest) = some (.bool b, rest) := by
    intro b fuel hfuel rest _
    obtain ⟨f, rfl⟩ : ∃ f, fuel = f + 1 := ⟨fuel - 1, by omega⟩
    exact parseValue_bool f b rest
  have h := parseValue_printObject (6 + station.Images.length)
    [("number", .num (toString station.Number), (toString station.Number).data),
      ("name", .str station.Name, quote station.Name),
      ("address", .str station.Address, quote station.Address),
      ("position", positionJson formatFloat station.Position,
        encodePosition formatFloat station.Position),
      ("banking", .bool station.Banking, (toString station.Banking).data),
      ("bonus", .bool station.Bonus, (toString station.Bonus).data),
      ("status", .str station.Status, quote station.Status),
      ("contract_name", .str station.ContractName, quote station.ContractName),
      ("bike_stands", .num (toString station.BikeStands), (toString station.BikeStands).data),
      ("available_bike_stands", .num (toString station.AvailableBikeStands),
        (toString station.AvailableBikeStands).data),
      ("available_bikes", .num (toString station.AvailableBikes),
        (toString station.AvailableBikes).data),
      ("last_update", .str station.LastUpdate, quote station.LastUpdate),
      ("images", imagesJson nilImages station.Images, encodeImages nilImages station.Images)]
    (by simp)
    (by
      intro m hm fuel hfuel rest hrest
      simp only [List.mem_cons, List.mem_singleton, List.not_mem_nil, or_false] at hm
      rcases hm with rfl | rfl | rfl | rfl | rfl | rfl | rfl | rfl | rfl | rfl | rfl | rfl | rfl
      · exact hint _ fuel hfuel rest hrest
      · exact hquote _ fuel hfuel rest hrest
      · exact hquote _ fuel hfuel rest hrest
      · exact parseValue_encodePosition formatFloat station.Position hlat hlng fuel
          (by omega) rest
      · exact hbool _ fuel hfuel rest hrest
      · exact hbool _ fuel hfuel rest hrest
      · exact hquote _ fuel hfuel rest hrest
      · exact hquote _ fuel hfuel rest hrest
      · exact hint _ fuel hfuel rest hrest
      · exact hint _ fuel hfuel rest hrest
      · exact hint _ fuel hfuel rest hrest
      · exact hquote _ fuel hfuel rest hrest
      · exact parseValue_encodeImages nilImages station.Images fuel hfuel rest)
    fuel (by simpa using (by omega : 6 + station.Images.length + 13 + 1 ≤ fuel)) rest
  exact h

/-- The text of the images has at least one character per image. -/
theorem length_encodeImages (nilImages : Bool) (images : List Image) :
    images.length ≤ (encodeImages nilImages images).length := by
  have helems : ∀ imgs : List Image,
      imgs.length ≤ (printElements (imgs.map encodeImage)).length := by
    intro imgs
    induction imgs with
    | nil => simp
    | cons image rest ih =>
      cases rest with
      | nil => simp [printElements, encodeImage, printObject]
      | cons image2 rest2 =>
        simp only [List.map_cons, printElements, List.length_append, List.length_cons] at ih ⊢
        omega
  unfold encodeImages
  split
  · next h => rw [h.1]; simp
  · have := helems images
    simp only [printArray, List.length_cons, List.length_append, List.length_nil]
    omega

/-- The integer of a number token written from a Go integer. -/
theorem decodeInt_toString (field goType : String) (z : Int) (old : Int) (hz : isInt64 z) :
    decodeInt field goType (.num (toString z)) old = (z, none) := by
  simp only [decodeInt, Int64_toString z hz.1 hz.2]

/-- An image is decoded from its value, whatever the target held. -/
theorem decodeImage_imageJson (image old : Image) (h : wellFormedImage image) :
    decodeImage (imageJson image) old = (image, none) := by
  obtain ⟨h1, h2, h3⟩ := h
  have e1 : ∀ acc : Image × Option String, ∀ v : Json, decodeImageMember acc ("uid", v)
      = ({ acc.1 with Uid := (decodeInt "Image.images.uid" "int" v acc.1.Uid).1 },
          saveError acc.2 (decodeInt "Image.images.uid" "int" v acc.1.Uid).2) := fun _ _ => rfl
  have e2 : ∀ acc : Image × Option String, ∀ v : Json, decodeImageMember acc ("width", v)
      = ({ acc.1 with Width := (decodeInt "Image.images.width" "int" v acc.1.Width).1 },
          saveError acc.2 (decodeInt "Image.images.width" "int" v acc.1.Width).2) := fun _ _ => rfl
  have e3 : ∀ acc : Image × Option String, ∀ v : Json, decodeImageMember acc ("quality", v)
      = ({ acc.1 with Quality := (decodeInt "Image.images.quality" "int" v acc.1.Quality).1 },
          saveError acc.2 (decodeInt "Image.images.quality" "int" v acc.1.Quality).2) := fun _ _ => rfl
  simp only [imageJson, decodeImage, List.foldl, e1, e2, e3, decodeInt_toString _ _ _ _ h1,
    decodeInt_toString _ _ _ _ h2, decodeInt_toString _ _ _ _ h3, saveError]

/-- The images are decoded from their value, whatever the target held. -/
theorem decodeImages_imagesJson (nilImages : Bool) (images old : List Image)
    (h : ∀ image ∈ images, wellFormedImage image) :
    decodeImages (imagesJson nilImages images) old = (images, none) := by
  have helems : ∀ (imgs old : List Image), (∀ image ∈ imgs, wellFormedImage image) →
      decodeElements (imgs.map imageJson) old = (imgs, none) := by
    intro imgs
    induction imgs with
    | nil => intro old _; rfl
    | cons image rest ih =>
      intro old hw
      simp only [List.map_cons, decodeElements,
        decodeImage_imageJson image _ (hw image (List.mem_cons_self _ _)),
        ih old.tail (fun i hi => hw i (List.mem_cons_of_mem _ hi)), saveError]
  unfold imagesJson
  split
  · next hnil => rw [hnil.1]; rfl
  · exact helems images old h

/-- A position is decoded from its value when `ParseFloat` reads the two texts back. -/
theorem decodePosition_positionJson (formatFloat : Float64 → String)
    (parseFloat : String → Float64 × Option NumError) (position old : Position)
    (hlat : parseFloat (formatFloat position.Latitude) = (position.Latitude, none))
    (hlng : parseFloat (formatFloat position.Longitude) = (position.Longitude, none)) :
    decodePosition parseFloat (positionJson formatFloat position) old = (position, none) := by
  have e1 : ∀ acc : Position × Option String, ∀ v : Json,
      decodePositionMember parseFloat acc ("lat", v)
        = ({ acc.1 with Latitude := (decodeFloat parseFloat "Position.position.lat" v acc.1.Latitude).1 },
            saveError acc.2 (decodeFloat parseFloat "Position.position.lat" v acc.1.Latitude).2) := fun _ _ => rfl
  have e2 : ∀ acc : Position × Option String, ∀ v : Json,
      decodePositionMember parseFloat acc ("lng", v)
        = ({ acc.1 with Longitude := (decodeFloat parseFloat "Position.position.lng" v acc.1.Longitude).1 },
            saveError acc.2 (decodeFloat parseFloat "Position.position.lng" v acc.1.Longitude).2) := fun _ _ => rfl
  simp only [positionJson, decodePosition, List.foldl, e1, e2, decodeFloat, hlat, hlng,
    saveError]

end Json

end Commute

namespace Commute

namespace Json

/-- A station is decoded from the value `Marshal` writes for it. -/
theorem decodeStation_stationJson (formatFloat : Float64 → String)
    (parseFloat : String → Float64 × Option NumError) (nilImages : Bool) (station : Station)
    (hwf : wellFormed station)
    (hlat : parseFloat (formatFloat station.Position.Latitude)
      = (station.Position.Latitude, none))
    (hlng : parseFloat (formatFloat station.Position.Longitude)
      = (station.Position.Longitude, none)) :
    decodeStation parseFloat (stationJson formatFloat nilImages station) Station.zero
      = (station, none) := by
  obtain ⟨h1, h2, h3, h4, h5⟩ := hwf
  have e1 : ∀ acc : Station × Option String, ∀ v : Json,
      decodeStationMember parseFloat acc ("number", v)
        = ({ acc.1 with Number := (decodeInt "Station.number" "int" v acc.1.Number).1 },
            saveError acc.2 (decodeInt "Station.number" "int" v acc.1.Number).2) := fun _ _ => rfl
  have e2 : ∀ acc : Station × Option String, ∀ v : Json,
      decodeStationMember parseFloat acc ("name", v)
        = ({ acc.1 with Name := (decodeString "Station.name" v acc.1.Name).1 },
            saveError acc.2 (decodeString "Station.name" v acc.1.Name).2) := fun _ _ => rfl
  have e3 : ∀ acc : Station × Option String, ∀ v : Json,
      decodeStationMember parseFloat acc ("address", v)
        = ({ acc.1 with Address := (decodeString "Station.address" v acc.1.Address).1 },
            saveError acc.2 (decodeString "Station.address" v acc.1.Address).2) := fun _ _ => rfl
  have e4 : ∀ acc : Station × Option String, ∀ v : Json,
      decodeStationMember parseFloat acc ("position", v)
        = ({ acc.1 with Position := (decodePosition parseFloat v acc.1.Position).1 },
            saveError acc.2 (decodePosition parseFloat v acc.1.Position).2) := fun _ _ => rfl
  have e5 : ∀ acc : Station × Option String, ∀ v : Json,
      decodeStationMember parseFloat acc ("banking", v)
        = ({ acc.1 with Banking := (decodeBool "Station.banking" v acc.1.Banking).1 },
            saveError acc.2 (decodeBool "Station.banking" v acc.1.Banking).2) := fun _ _ => rfl
  have e6 : ∀ acc : Station × Option String, ∀ v : Json,
      decodeStationMember parseFloat acc ("bonus", v)
        = ({ acc.1 with Bonus := (decodeBool "Station.bonus" v acc.1.Bonus).1 },
            saveError acc.2 (decodeBool "Station.bonus" v acc.1.Bonus).2) := fun _ _ => rfl
  have e7 : ∀ acc : Station × Option String, ∀ v : Json,
      decodeStationMember parseFloat acc ("status", v)
        = ({ acc.1 with Status := (decodeString "Station.status" v acc.1.Status).1 },
            saveError acc.2 (decodeString "Station.status" v acc.1.Status).2) := fun _ _ => rfl
  have e8 : ∀ acc : Station × Option String, ∀ v : Json,
      decodeStationMember parseFloat acc ("contract_name", v)
        = ({ acc.1 with ContractName := (decodeString "Station.contract_name" v acc.1.ContractName).1 },
            saveError acc.2 (decodeString "Station.contract_name" v acc.1.ContractName).2) := fun _ _ => rfl
  have e9 : ∀ acc : Station × Option String, ∀ v : Json,
      decodeStationMember parseFloat acc ("bike_stands", v)
        = ({ acc.1 with BikeStands := (decodeInt "Station.bike_stands" "int64" v acc.1.BikeStands).1 },
            saveError acc.2 (decodeInt "Station.bike_stands" "int64" v acc.1.BikeStands).2) := fun _ _ => rfl
  have e10 : ∀ acc : Station × Option String, ∀ v : Json,
      decodeStationMember parseFloat acc ("available_bike_stands", v)
        = ({ acc.1 with AvailableBikeStands :=
              (decodeInt "Station.available_bike_stands" "int64" v acc.1.AvailableBikeStands).1 },
            saveError acc.2 (decodeInt "Station.available_bike_stands" "int64" v acc.1.AvailableBikeStands).2) := fun _ _ => rfl
  have e11 : ∀ acc : Station × Option String, ∀ v : Json,
      decodeStationMember parseFloat acc ("available_bikes", v)
        = ({ acc.1 with AvailableBikes := (decodeInt "Station.available_bikes" "int64" v acc.1.AvailableBikes).1 },
            saveError acc.2 (decodeInt "Station.available_bikes" "int64" v acc.1.AvailableBikes).2) := fun _ _ => rfl
  have e12 : ∀ acc : Station × Option String, ∀ v : Json,
      decodeStationMember parseFloat acc ("last_update", v)
        = ({ acc.1 with LastUpdate := (decodeString "Station.last_update" v acc.1.LastUpdate).1 },
            saveError acc.2 (decodeString "Station.last_update" v acc.1.LastUpdate).2) := fun _ _ => rfl
  have e13 : ∀ acc : Station × Option String, ∀ v : Json,
      decodeStationMember parseFloat acc ("images", v)
        = ({ acc.1 with Images := (decodeImages v acc.1.Images).1 },
            saveError acc.2 (decodeImages v acc.1.Images).2) := fun _ _ => rfl
  simp only [stationJson, decodeStation, List.foldl, e1, e2, e3, e4, e5, e6, e7, e8, e9, e10,
    e11, e12, e13, decodeInt_toString _ _ _ _ h1, decodeInt_toString _ _ _ _ h2,
    decodeInt_toString _ _ _ _ h3, decodeInt_toString _ _ _ _ h4,
    decodePosition_positionJson formatFloat parseFloat station.Position _ hlat hlng,
    decodeImages_imagesJson nilImages station.Images _ h5, decodeString, decodeBool, saveError]

/-- With finite coordinates `Marshal` returns the text of the thirteen fields. -/
theorem Marshal_finite (formatFloat : Float64 → String) (nilImages : Bool) (station : Station)
    (hlat : isFinite station.Position.Latitude = true)
    (hlng : isFinite station.Position.Longitude = true) :
    Marshal formatFloat nilImages station
      = .ok (String.mk (printObject
        [("number", (toString station.Number).data),
          ("name", quote station.Name),
          ("address", quote station.Address),
          ("position", encodePosition formatFloat station.Position),
          ("banking", (toString station.Banking).data),
          ("bonus", (toString station.Bonus).data),
          ("status", quote station.Status),
          ("contract_name", quote station.ContractName),
          ("bike_stands", (toString station.BikeStands).data),
          ("available_bike_stands", (toString station.AvailableBikeStands).data),
          ("available_bikes", (toString station.AvailableBikes).data),
          ("last_update", quote station.LastUpdate),
          ("images", encodeImages nilImages station.Images)])) := by
  unfold Marshal
  rw [if_neg (by simp [hlat]), if_neg (by simp [hlng])]

/-- The value of a station is nested three deep: the station, its images, an image. -/
theorem withinDepth_stationJson (formatFloat : Float64 → String) (nilImages : Bool)
    (station : Station) :
    withinDepth maxNestingDepth (stationJson formatFloat nilImages station) = true := by
  have himages : ∀ (depth : Nat) (images : List Image),
      withinDepthElements (depth + 1) (images.map imageJson) = true := by
    intro depth images
    induction images with
    | nil => rfl
    | cons image rest ih =>
      simp only [List.map_cons, withinDepthElements, ih, Bool.and_true]
      simp [imageJson, withinDepth, withinDepthMembers]
  have hslice : withinDepth (maxNestingDepth - 1) (imagesJson nilImages station.Images)
      = true := by
    unfold imagesJson
    split
    · rfl
    · simp only [withinDepth]
      have h := himages (maxNestingDepth - 1 - 1 - 1) station.Images
      have hdepth : maxNestingDepth - 1 - 1 - 1 + 1 = maxNestingDepth - 1 - 1 := by decide
      rw [hdepth] at h
      rw [h]
      decide
  simp only [stationJson, withinDepth, withinDepthMembers, hslice, positionJson, Bool.and_true]
  decide

/-- The text `Marshal` writes is valid JSON and stands for the value of the station. -/
theorem parse_Marshal (formatFloat : Float64 → String) (nilImages : Bool) (station : Station)
    (text : String)
    (hlat : isNumber (formatFloat station.Position.Latitude) = true)
    (hlng : isNumber (formatFloat station.Position.Longitude) = true)
    (htext : Marshal formatFloat nilImages station = .ok text) :
    parse text = some (stationJson formatFloat nilImages station) := by
  have hfin : isFinite station.Position.Latitude = true
      ∧ isFinite station.Position.Longitude = true := by
    unfold Marshal at htext
    by_cases h1 : isFinite station.Position.Latitude = false
    · rw [if_pos h1] at htext
      exact absurd htext (by simp)
    · rw [if_neg h1] at htext
      by_cases h2 : isFinite station.Position.Longitude = false
      · rw [if_pos h2] at htext
        exact absurd htext (by simp)
      · simp only [Bool.not_eq_false] at h1 h2
        exact ⟨h1, h2⟩
  rw [Marshal_finite formatFloat nilImages station hfin.1 hfin.2] at htext
  simp only [Except.ok.injEq] at htext
  subst htext
  have himages := length_encodeImages nilImages station.Images
  have hlen : 20 + station.Images.length ≤ 2 * (String.mk (printObject
        [("number", (toString station.Number).data),
          ("name", quote station.Name),
          ("address", quote station.Address),
          ("position", encodePosition formatFloat station.Position),
          ("banking", (toString station.Banking).data),
          ("bonus", (toString station.Bonus).data),
          ("status", quote station.Status),
          ("contract_name", quote station.ContractName),
          ("bike_stands", (toString station.BikeStands).data),
          ("available_bike_stands", (toString station.AvailableBikeStands).data),
          ("available_bikes", (toString station.AvailableBikes).data),
          ("last_update", quote station.LastUpdate),
          ("images", encodeImages nilImages station.Images)])).length + 2 := by
    simp only [String.length, printObject, printMembers, quote, List.length_cons,
      List.length_append, List.length_nil]
    omega
  have h := parseValue_station formatFloat nilImages station hlat hlng _ hlen []
  rw [List.append_nil] at h
  unfold parse
  simp only [h, skipSpace, withinDepth_stationJson, and_self, if_true]

end Json

end Commute

/-! ## Decoding time-series rows -/

namespace Commute

/-- The loop of `ParseUint` stops with a syntax error at the first character that is not
a digit, when the digits before it fit 64 bits. -/
theorem ParseUint.loop_stops (ds : List Char) (c : Char) (tail : List Char) (acc : Nat)
    (hdigits : ∀ d ∈ ds, 48 ≤ d.toNat ∧ d.toNat ≤ 57)
    (hfit : ds.foldl (fun a d => a * 10 + (d.toNat - 48)) acc ≤ maxUint64)
    (hc : c.toNat < 48 ∨ 57 < c.toNat) :
    ParseUint.loop (ds ++ c :: tail) acc = (0, some .malformed) := by
  induction ds generalizing acc with
  | nil => rw [List.nil_append, ParseUint.loop, if_pos hc]
  | cons d ds ih =>
    have hd := hdigits d (List.mem_cons_self _ _)
    rw [List.foldl_cons] at hfit
    have hstep : acc * 10 + (d.toNat - 48) ≤ maxUint64 :=
      le_trans (foldl_digits_ge ds _) hfit
    have hmax : maxUint64 = 18446744073709551615 := by decide
    rw [List.cons_append, ParseUint.loop, if_neg (by omega),
      if_neg (by rw [hmax] at hstep ⊢; omega)]
    simp only []
    rw [if_neg (by omega)]
    exact ih _ (fun c hc => hdigits c (List.mem_cons_of_mem _ hc)) hfit

/-- A digit is neither a sign nor a dot nor an exponent mark. -/
theorem digit_ne_marks {d : Char} (hd : 48 ≤ d.toNat ∧ d.toNat ≤ 57) :
    d ≠ '+' ∧ d ≠ '-' := by
  constructor <;> (intro h; subst h; revert hd; decide)

/-- `ParseInt` reads an optional minus sign and digits whose value fits 64 bits as that
value. -/
theorem ParseInt_digits (negative : Bool) (ds : List Char) (hne : ds ≠ [])
    (hdigits : ∀ d ∈ ds, 48 ≤ d.toNat ∧ d.toNat ≤ 57)
    (hfit : if negative = true then digitsValue ds ≤ 2 ^ 63 else digitsValue ds < 2 ^ 63) :
    ParseInt (String.mk ((if negative = true then ['-'] else []) ++ ds))
      = (if negative = true then -(digitsValue ds : Int) else (digitsValue ds : Int), none) := by
  have hmax : maxUint64 = 18446744073709551615 := by decide
  have hle : digitsValue ds ≤ maxUint64 := by
    rw [hmax]
    cases negative
    · simp only [Bool.false_eq_true, if_false] at hfit
      omega
    · simp only [if_true] at hfit
      omega
  have hparse : ParseUint ds = (digitsValue ds, none) := by
    rw [ParseUint, if_neg hne]
    exact ParseUint.loop_digits ds 0 hdigits hle
  cases negative with
  | false =>
    simp only [Bool.false_eq_true, if_false, List.nil_append] at hfit ⊢
    cases ds with
    | nil => exact absurd rfl hne
    | cons d ds =>
      obtain ⟨hplus, hminus⟩ := digit_ne_marks (hdigits d (List.mem_cons_self _ _))
      have hlt : ¬ 9223372036854775808 ≤ digitsValue (d :: ds) := by omega
      unfold ParseInt
      simp [hplus, hminus, hparse, hlt]
  | true =>
    simp only [if_true, List.singleton_append] at hfit ⊢
    have hlt : ¬ 9223372036854775808 < digitsValue ds := by omega
    unfold ParseInt
    simp [hparse, hlt]

/-- `ParseInt` rejects a number written with a fraction or an exponent: the digits before
the dot or the exponent mark fit 64 bits, so the loop reaches the mark. -/
theorem ParseInt_stops (negative : Bool) (ds : List Char) (c : Char) (tail : List Char)
    (hdigits : ∀ d ∈ ds, 48 ≤ d.toNat ∧ d.toNat ≤ 57)
    (hfit : digitsValue ds ≤ maxUint64)
    (hc : c = '.' ∨ c = 'e' ∨ c = 'E') :
    ParseInt (String.mk ((if negative = true then ['-'] else []) ++ (ds ++ c :: tail)))
      = (0, some .malformed) := by
  have hmark : (c.toNat < 48 ∨ 57 < c.toNat) ∧ c ≠ '+' ∧ c ≠ '-' := by
    rcases hc with rfl | rfl | rfl <;> decide
  have hparse : ParseUint (ds ++ c :: tail) = (0, some .malformed) := by
    rw [ParseUint, if_neg (by simp)]
    exact ParseUint.loop_stops ds c tail 0 hdigits hfit hmark.1
  cases negative with
  | false =>
    simp only [Bool.false_eq_true, if_false, List.nil_append]
    have hhead : (ds ++ c :: tail).head? ≠ some '+' ∧ (ds ++ c :: tail).head? ≠ some '-' := by
      cases ds with
      | nil => simp [hmark.2.1, hmark.2.2]
      | cons d ds =>
        obtain ⟨hplus, hminus⟩ := digit_ne_marks (hdigits d (List.mem_cons_self _ _))
        simp [hplus, hminus]
    have hnil : ds ++ c :: tail ≠ [] := by simp
    generalize ds ++ c :: tail = body at hparse hhead hnil
    unfold ParseInt
    simp [hhead.1, hhead.2, hparse, hnil]
  | true =>
    simp only [if_true, List.singleton_append]
    unfold ParseInt
    simp [hparse]

/-- The value of the digits of `Nat.toDigits`. -/
theorem digitsValue_toDigits (n : Nat) :
    digitsValue (Nat.toDigits 10 n) = n ∧ Nat.toDigits 10 n ≠ [] ∧
      ∀ c ∈ Nat.toDigits 10 n, 48 ≤ c.toNat ∧ c.toNat ≤ 57 := by
  obtain ⟨cs, hcs, hne, hdig, hval⟩ := toDigitsCore_digits (n + 1) n [] (by omega)
  rw [List.append_nil] at hcs
  have htd : Nat.toDigits 10 n = cs := hcs
  rw [htd]
  exact ⟨hval, hne, hdig⟩

/-- The decimal text of an integer denotes that integer. -/
theorem specIntegerValue_toString (z : Int) : specIntegerValue (toString z) = some z := by
  have hnumber : Json.isNumber (toString z) = true := by
    simp [Json.isNumber, Json.scanNumber_toString]
  cases z with
  | ofNat m =>
    have hdata : (toString (Int.ofNat m)).data = Nat.toDigits 10 m := rfl
    obtain ⟨hval, hne, hdig⟩ := digitsValue_toDigits m
    obtain ⟨hwhole, hafter⟩ := Json.takeWhile_isDigit_all _ hdig
    have hhead : ((Nat.toDigits 10 m).head? == some '-') = false := by
      cases h : Nat.toDigits 10 m with
      | nil => exact absurd h hne
      | cons d ds =>
        have hd := hdig d (by rw [h]; exact List.mem_cons_self _ _)
        simpa using (digit_ne_marks hd).2
    unfold specIntegerValue
    rw [hnumber, hdata]
    simp [hhead, hwhole, hafter, specExponent, hval]
  | negSucc m =>
    have hdata : (toString (Int.negSucc m)).data = '-' :: Nat.toDigits 10 (m + 1) := rfl
    obtain ⟨hval, hne, hdig⟩ := digitsValue_toDigits (m + 1)
    obtain ⟨hwhole, hafter⟩ := Json.takeWhile_isDigit_all _ hdig
    unfold specIntegerValue
    rw [hnumber, hdata]
    simp [hwhole, hafter, specExponent, hval, Int.negSucc_eq]

end Commute

namespace Commute

/-- The loop of `ParseUint` reports a range error as soon as the digits read so far
exceed 64 bits, whatever follows them. -/
theorem ParseUint.loop_overflow (ds rest : List Char) (acc : Nat)
    (hdigits : ∀ d ∈ ds, 48 ≤ d.toNat ∧ d.toNat ≤ 57) (hacc : acc ≤ maxUint64)
    (hover : maxUint64 < ds.foldl (fun a d => a * 10 + (d.toNat - 48)) acc) :
    ParseUint.loop (ds ++ rest) acc = (maxUint64, some .range) := by
  induction ds generalizing acc with
  | nil => exact absurd hover (by simpa using hacc)
  | cons d ds ih =>
    have hd := hdigits d (List.mem_cons_self _ _)
    have hmax : maxUint64 = 18446744073709551615 := by decide
    rw [List.foldl_cons] at hover
    rw [List.cons_append, ParseUint.loop, if_neg (by omega)]
    by_cases hcut : acc ≥ maxUint64 / 10 + 1
    · rw [if_pos hcut]
    · rw [if_neg hcut]
      simp only []
      by_cases hstep : acc * 10 + (d.toNat - 48) > maxUint64
      · rw [if_pos hstep]
      · rw [if_neg hstep]
        exact ih _ (fun c hc => hdigits c (List.mem_cons_of_mem _ hc)) (by omega) hover

/-- `ParseInt` answers digits whose value does not fit a signed 64-bit integer with the
nearest bound, whatever follows digits that exceed 64 bits. -/
theorem ParseInt_range (negative : Bool) (ds rest : List Char) (hne : ds ≠ [])
    (hdigits : ∀ d ∈ ds, 48 ≤ d.toNat ∧ d.toNat ≤ 57)
    (hrest : rest = [] ∨ maxUint64 < digitsValue ds)
    (hover : if negative = true then 2 ^ 63 < digitsValue ds else 2 ^ 63 ≤ digitsValue ds) :
    ParseInt (String.mk ((if negative = true then ['-'] else []) ++ (ds ++ rest)))
      = (if negative = true then -(2 : Int) ^ 63 else (2 : Int) ^ 63 - 1, some .range) := by
  have hmax : maxUint64 = 18446744073709551615 := by decide
  have hbody : ds ++ rest ≠ [] := by simp [hne]
  have hparse : ∃ un, (ParseUint (ds ++ rest) = (un, none)
      ∨ ParseUint (ds ++ rest) = (un, some .range)) ∧
      (if negative = true then 2 ^ 63 < un else 2 ^ 63 ≤ un) := by
    by_cases hfit : digitsValue ds ≤ maxUint64
    · have hnil : rest = [] := by
        rcases hrest with h | h
        · exact h
        · omega
      subst hnil
      refine ⟨digitsValue ds, Or.inl ?_, hover⟩
      rw [List.append_nil, ParseUint, if_neg hne]
      exact ParseUint.loop_digits ds 0 hdigits hfit
    · refine ⟨maxUint64, Or.inr ?_, ?_⟩
      · rw [ParseUint, if_neg hbody]
        exact ParseUint.loop_overflow ds rest 0 hdigits (by omega) (by
          have : maxUint64 < digitsValue ds := by omega
          exact this)
      · rw [hmax]
        cases negative <;> simp
  obtain ⟨un, hun, hbig⟩ := hparse
  have hhead : (ds ++ rest).head? ≠ some '+' ∧ (ds ++ rest).head? ≠ some '-' := by
    cases ds with
    | nil => exact absurd rfl hne
    | cons d ds =>
      obtain ⟨hplus, hminus⟩ := digit_ne_marks (hdigits d (List.mem_cons_self _ _))
      simp [hplus, hminus]
  generalize ds ++ rest = body at hun hhead hbody
  cases negative with
  | false =>
    simp only [Bool.false_eq_true, if_false, List.nil_append] at hbig ⊢
    have hge : 9223372036854775808 ≤ un := by omega
    unfold ParseInt
    rcases hun with h | h <;> simp [hhead.1, hhead.2, hbody, h, hge]
  | true =>
    simp only [if_true, List.singleton_append] at hbig ⊢
    have hgt : 9223372036854775808 < un := by omega
    unfold ParseInt
    rcases hun with h | h <;> simp [h, hgt]

end Commute

namespace Commute

/-- On rows of the shape `[string, number, number]` no assertion of
`MapPointsToStationBikeStates` fails: one state per row, in order, with the timestamp
unchanged and the counters read by `Int64`. -/
theorem MapPointsToStationBikeStates_shape (vs : List (List Obj))
    (hshape : ∀ v ∈ vs, ∃ t a b, v = [Obj.str t, Obj.number a, Obj.number b]) :
    ∃ states, MapPointsToStationBikeStates vs = .ok states ∧
      states.length = vs.length ∧
      ∀ (i : Nat) (t a b : String), vs[i]? = some [Obj.str t, Obj.number a, Obj.number b] →
        states[i]? = some (⟨t, Int64 a, Int64 b⟩ : StationBikeState) := by
  induction vs with
  | nil => exact ⟨[], rfl, rfl, by simp⟩
  | cons v vs ih =>
    obtain ⟨states, hrun, hlen, hget⟩ := ih (fun v hv => hshape v (List.mem_cons_of_mem _ hv))
    obtain ⟨t, a, b, rfl⟩ := hshape v (List.mem_cons_self _ _)
    refine ⟨⟨t, Int64 a, Int64 b⟩ :: states, ?_, by simp [hlen], ?_⟩
    · simp [MapPointsToStationBikeStates, MapPointsToStationBikeStates.row, hrun, Outcome.bind]
    · intro i t2 a2 b2 hi
      cases i with
      | zero =>
        simp only [List.getElem?_cons_zero, Option.some.injEq, List.cons.injEq, Obj.str.injEq,
          Obj.number.injEq, and_true] at hi
        obtain ⟨rfl, rfl, rfl⟩ := hi
        exact List.getElem?_cons_zero
      | succ i =>
        rw [List.getElem?_cons_succ] at hi ⊢
        exact hget i t2 a2 b2 hi

/-- C12 fails on numbers written with an exponent or a fraction: `exponentRow` is a tuple
`[timestamp string, number, number]` whose numbers `1e3` and `12.0` have the integer values
1000 and 12, and the state decoded from it has both counters at 0. -/
theorem MapPointsToStationBikeStates_exponent_counterexample :
    exponentRow = [Obj.str "2020-01-01T00:00:00Z", Obj.number "1e3", Obj.number "12.0"] ∧
      specIntegerValue "1e3" = some 1000 ∧ specIntegerValue "12.0" = some 12 ∧
      MapPointsToStationBikeStates [exponentRow] = .ok [⟨"2020-01-01T00:00:00Z", 0, 0⟩] := by
  decide

/-- C12, amended: for every sequence of rows in which each row is a tuple
`[timestamp string, number, number]`, `MapPointsToStationBikeStates` returns a sequence of
the same length whose `i`-th element has `Time` equal to the timestamp string of the
`i`-th row unchanged and its two counters equal to what `Int64()`, with its error dropped,
gives for the second and the third field. That is the integer value of the field when the
number is written as decimal digits with an optional minus sign and fits 64 bits (so for the
decimal text of every 64-bit integer); it is the nearest bound of the signed 64-bit range
when such digits do not fit; and it is 0 when the number is written with a fraction or an
exponent after digits that fit unsigned 64 bits, whatever its value. -/
theorem MapPointsToStationBikeStates_rows (vs : List (List Obj))
    (hshape : ∀ v ∈ vs, ∃ t a b, v = [Obj.str t, Obj.number a, Obj.number b]) :
    (∃ states, MapPointsToStationBikeStates vs = .ok states ∧
      states.length = vs.length ∧
      ∀ (i : Nat) (t a b : String), vs[i]? = some [Obj.str t, Obj.number a, Obj.number b] →
        states[i]? = some (⟨t, Int64 a, Int64 b⟩ : StationBikeState)) ∧
    (∀ z : Int, -(2 : Int) ^ 63 ≤ z → z < (2 : Int) ^ 63 →
      specIntegerValue (toString z) = some z ∧ Int64 (toString z) = z) ∧
    (∀ (negative : Bool) (ds : List Char), ds ≠ [] →
      (∀ d ∈ ds, 48 ≤ d.toNat ∧ d.toNat ≤ 57) →
      (if negative = true then digitsValue ds ≤ 2 ^ 63 else digitsValue ds < 2 ^ 63) →
      Int64 (String.mk ((if negative = true then ['-'] else []) ++ ds))
        = if negative = true then -(digitsValue ds : Int) else (digitsValue ds : Int)) ∧
    (∀ (negative : Bool) (ds : List Char) (c : Char) (tail : List Char),
      (∀ d ∈ ds, 48 ≤ d.toNat ∧ d.toNat ≤ 57) → digitsValue ds ≤ maxUint64 →
      c = '.' ∨ c = 'e' ∨ c = 'E' →
      Int64 (String.mk ((if negative = true then ['-'] else []) ++ (ds ++ c :: tail))) = 0) ∧
    (∀ (negative : Bool) (ds rest : List Char), ds ≠ [] →
      (∀ d ∈ ds, 48 ≤ d.toNat ∧ d.toNat ≤ 57) →
      rest = [] ∨ maxUint64 < digitsValue ds →
      (if negative = true then 2 ^ 63 < digitsValue ds else 2 ^ 63 ≤ digitsValue ds) →
      Int64 (String.mk ((if negative = true then ['-'] else []) ++ (ds ++ rest)))
        = if negative = true then -(2 : Int) ^ 63 else (2 : Int) ^ 63 - 1) := by
  refine ⟨MapPointsToStationBikeStates_shape vs hshape, fun z hlo hhi => ?_,
    fun negative ds hne hdigits hfit => ?_, fun negative ds c tail hdigits hfit hc => ?_,
    fun negative ds rest hne hdigits hrest hover => ?_⟩
  · exact ⟨specIntegerValue_toString z, by rw [Int64, Int64_toString z hlo hhi]⟩
  · rw [Int64, ParseInt_digits negative ds hne hdigits hfit]
  · rw [Int64, ParseInt_stops negative ds c tail hdigits hfit hc]
  · rw [Int64, ParseInt_range negative ds rest hne hdigits hrest hover]

/-- The amended C12 on three one-minute rows, and on the texts `-7`, `12.0` and `1e3`. -/
theorem MapPointsToStationBikeStates_rows_witness :
    (∀ v ∈ sampleRows, ∃ t a b, v = [Obj.str t, Obj.number a, Obj.number b]) ∧
      MapPointsToStationBikeStates sampleRows
        = .ok [⟨"2020-01-01T00:00:00Z", 12, 8⟩, ⟨"2020-01-01T00:01:00Z", 11, 9⟩,
            ⟨"2020-01-01T00:02:00Z", 10, 10⟩] ∧
      (∃ states, MapPointsToStationBikeStates sampleRows = .ok states ∧
        states.length = sampleRows.length ∧
        ∀ (i : Nat) (t a b : String),
          sampleRows[i]? = some [Obj.str t, Obj.number a, Obj.number b] →
            states[i]? = some (⟨t, Int64 a, Int64 b⟩ : StationBikeState)) ∧
      Int64 "-7" = -7 ∧ Int64 "12.0" = 0 ∧ Int64 "1e3" = 0 :=
  have hshape : ∀ v ∈ sampleRows, ∃ t a b, v = [Obj.str t, Obj.number a, Obj.number b] := by
    intro v hv
    simp only [sampleRows, List.mem_cons, List.mem_singleton, List.not_mem_nil, or_false] at hv
    rcases hv with rfl | rfl | rfl <;> exact ⟨_, _, _, rfl⟩
  have hdigit : ∀ ds : List Char, ds = ['7'] ∨ ds = ['1', '2'] ∨ ds = ['1'] →
      ∀ d ∈ ds, 48 ≤ d.toNat ∧ d.toNat ≤ 57 := by
    intro ds hds d hd
    rcases hds with rfl | rfl | rfl <;>
      simp only [List.mem_cons, List.mem_singleton, List.not_mem_nil, or_false] at hd
    · subst hd; decide
    · rcases hd with rfl | rfl <;> decide
    · subst hd; decide
  ⟨hshape, by decide, (MapPointsToStationBikeStates_rows sampleRows hshape).1,
    (MapPointsToStationBikeStates_rows sampleRows hshape).2.2.1 true ['7'] (by decide)
      (hdigit _ (Or.inl rfl)) (by decide),
    (MapPointsToStationBikeStates_rows sampleRows hshape).2.2.2.1 false ['1', '2'] '.' ['0']
      (hdigit _ (Or.inr (Or.inl rfl))) (by decide) (Or.inl rfl),
    (MapPointsToStationBikeStates_rows sampleRows hshape).2.2.2.1 false ['1'] 'e' ['3']
      (hdigit _ (Or.inr (Or.inr rfl))) (by decide) (Or.inr (Or.inl rfl))⟩

end Commute

/-! ## Undecodable payloads -/

namespace Commute

/-- On a text that is not valid JSON `json.Unmarshal` reports an error and leaves its
target as it was. -/
theorem Json.Unmarshal_malformed (parseFloat : String → Float64 × Option NumError)
    (data : String) (station : Station) (h : Json.parse data = none) :
    Json.Unmarshal parseFloat data station
      = (station, some "json: invalid character in the text or unexpected end of JSON input") := by
  rw [Json.Unmarshal, h]

/-- On valid JSON that is neither an object nor `null`, `json.Unmarshal` reports a type
error and leaves its target as it was. -/
theorem Json.Unmarshal_not_object (parseFloat : String → Float64 × Option NumError)
    (data : String) (station : Station) (value : Json) (h : Json.parse data = some value)
    (hobject : ∀ members, value ≠ .obj members) (hnull : value ≠ .null) :
    Json.Unmarshal parseFloat data station
      = (station, some (Json.typeError value "" "main.Station")) := by
  rw [Json.Unmarshal, h]
  cases value with
  | null => exact absurd rfl hnull
  | obj members => exact absurd rfl (hobject members)
  | bool b => rfl
  | num token => rfl
  | str s => rfl
  | arr elements => rfl

/-- The table `sampleUnmarshal` answers the two sample records as `json.Unmarshal` does,
and leaves the target as it was on the text `[]` of the images entry. -/
theorem sampleUnmarshal_agrees :
    Json.Unmarshal sampleLib.ParseFloat textNumber1 Station.zero
        = sampleUnmarshal textNumber1 Station.zero ∧
      Json.Unmarshal sampleLib.ParseFloat textNumber7 Station.zero
        = sampleUnmarshal textNumber7 Station.zero ∧
      (Json.Unmarshal sampleLib.ParseFloat "[]" Station.zero).1
        = (sampleUnmarshal "[]" Station.zero).1 := by
  decide

/-- C15 fails on JSON whose `number` has the wrong type: `textWrongType` is valid JSON,
`json.Unmarshal` reports the type error of `number`, which `UnmarshalStringsToStations`
drops, and the station returned carries the `name` that was decoded, so it is not the
zero-valued Station. -/
theorem UnmarshalStringsToStations_wrong_type_counterexample :
    Json.parse textWrongType = some (.obj [("number", .str "x"), ("name", .str "A")]) ∧
      (undecodableEnv.jsonUnmarshal textWrongType Station.zero).2
        = some "json: cannot unmarshal string into Go struct field Station.number of type int" ∧
      UnmarshalStringsToStations undecodableEnv textWrongType
        = { Station.zero with Name := "A" } ∧
      UnmarshalStringsToStations undecodableEnv textWrongType ≠ Station.zero :=
  ⟨rfl, by decide, by decide, by decide⟩

/-- C15, amended: with `json.Unmarshal` as the decoder, for every payload that is
malformed JSON, and for every payload that is JSON but not an object, the decoder reports
an error (none for `null`), `UnmarshalStringsToStations` reports none and returns the
zero-valued Station (every field at its zero value). For a JSON object the members are
decoded one by one into the zero-valued Station: a value of the wrong type leaves its field
as it was and the other members are still decoded, so the result need not be zero-valued.
For every payload the entry is not dropped: `MapStringsToStations` returns one station per
payload, in order, and `findByNumbers` on a positional cache returns one station per
present key. -/
theorem UnmarshalStringsToStations_keeps_entry (env : Env)
    (parseFloat : String → Float64 × Option NumError)
    (hdecoder : env.jsonUnmarshal = Json.Unmarshal parseFloat) :
    (∀ payload, Json.parse payload = none →
      (env.jsonUnmarshal payload Station.zero).2 ≠ none ∧
        UnmarshalStringsToStations env payload = Station.zero) ∧
    (∀ payload value, Json.parse payload = some value → (∀ members, value ≠ .obj members) →
      ((env.jsonUnmarshal payload Station.zero).2 = none ↔ value = .null) ∧
        UnmarshalStringsToStations env payload = Station.zero) ∧
    (∀ payload members, Json.parse payload = some (.obj members) →
      UnmarshalStringsToStations env payload
        = (members.foldl (Json.decodeStationMember parseFloat) (Station.zero, none)).1) ∧
    ((∀ (field goType : String) (value : Json) (old : Int), (∀ token, value ≠ .num token) →
        (Json.decodeInt field goType value old).1 = old) ∧
      (∀ (field : String) (value : Json) (old : Float64), (∀ token, value ≠ .num token) →
        (Json.decodeFloat parseFloat field value old).1 = old) ∧
      (∀ (field : String) (value : Json) (old : String), (∀ s, value ≠ .str s) →
        (Json.decodeString field value old).1 = old) ∧
      (∀ (field : String) (value : Json) (old : Bool), (∀ b, value ≠ .bool b) →
        (Json.decodeBool field value old).1 = old) ∧
      (∀ (value : Json) (old : Position), (∀ members, value ≠ .obj members) →
        (Json.decodePosition parseFloat value old).1 = old) ∧
      (∀ (value : Json) (old : List Image), (∀ elems, value ≠ .arr elems) → value ≠ .null →
        (Json.decodeImages value old).1 = old)) ∧
    (∀ payloads : List String,
      (MapStringsToStations payloads (UnmarshalStringsToStations env)).length = payloads.length ∧
      ∀ (i : Nat) (payload : String), payloads[i]? = some payload →
        (MapStringsToStations payloads (UnmarshalStringsToStations env))[i]?
          = some (UnmarshalStringsToStations env payload)) ∧
    (∀ (contractName : String) (numbers : List String) (lookup : String → Option String),
      numbers ≠ [] →
      (∀ keys, (env.cli.MGet keys).Val = keys.map fun k => bulkEntry (lookup k)) →
      ∃ r, (findByNumbers env contractName numbers).outcome = .ok r ∧
        r.length = (((numbers.map fun n => contractName ++ "_" ++ n).filter
          fun v => v != contractName ++ "_images").filterMap lookup).length) := by
  refine ⟨fun payload h => ?_, fun payload value h hobject => ?_, fun payload members h => ?_,
    ⟨fun field goType value old h => ?_, fun field value old h => ?_,
      fun field value old h => ?_, fun field value old h => ?_, fun value old h => ?_,
      fun value old h hnull => ?_⟩,
    fun payloads => ⟨?_, fun i payload hi => ?_⟩,
    fun contractName numbers lookup hne hpos => ?_⟩
  · rw [UnmarshalStringsToStations, hdecoder, Json.Unmarshal_malformed parseFloat _ _ h]
    exact ⟨by simp, rfl⟩
  · rw [UnmarshalStringsToStations, hdecoder]
    by_cases hnull : value = .null
    · subst hnull
      simp [Json.Unmarshal, h, Json.decodeStation]
    · rw [Json.Unmarshal_not_object parseFloat _ _ value h hobject hnull]
      simp [hnull]
  · simp only [UnmarshalStringsToStations, hdecoder, Json.Unmarshal, h, Json.decodeStation]
  · cases value <;> first | rfl | exact absurd rfl (h _)
  · cases value <;> first | rfl | exact absurd rfl (h _)
  · cases value <;> first | rfl | exact absurd rfl (h _)
  · cases value <;> first | rfl | exact absurd rfl (h _)
  · cases value <;> first | rfl | exact absurd rfl (h _)
  · cases value <;> first | rfl | exact absurd rfl (h _) | exact absurd rfl hnull
  · simp [MapStringsToStations]
  · simp [MapStringsToStations, hi]
  · have hlen : ¬ numbers.length ≤ 0 := by
      cases numbers with
      | nil => exact absurd rfl hne
      | cons _ _ => simp
    refine ⟨MapStringsToStations
      ((FilterString (MapStringsToStrings numbers fun number => contractName ++ "_" ++ number)
        fun v => v != contractName ++ "_images").filterMap lookup)
      (UnmarshalStringsToStations env), ?_, ?_⟩
    · unfold findByNumbers
      rw [if_neg hlen]
      simp only [hpos, MapObjectsToStrings_positional, Outcome.bind]
    · simp [MapStringsToStations, FilterString, MapStringsToStrings]

/-- The amended C15 on a cache holding a wrong-typed record and a text that is not JSON:
the text that is not JSON and the text of an array are decoded to the zero-valued Station,
and both entries of the cache stay in the result. -/
theorem UnmarshalStringsToStations_keeps_entry_witness :
    undecodableEnv.jsonUnmarshal = Json.Unmarshal sampleLib.ParseFloat ∧
      Json.parse textMalformed = none ∧
      UnmarshalStringsToStations undecodableEnv textMalformed = Station.zero ∧
      UnmarshalStringsToStations undecodableEnv textArray = Station.zero ∧
      (findByNumbers undecodableEnv "Paris" ["1", "2"]).outcome
        = .ok [{ Station.zero with Name := "A" }, Station.zero] :=
  ⟨rfl, rfl,
    ((UnmarshalStringsToStations_keeps_entry undecodableEnv sampleLib.ParseFloat rfl).1
      textMalformed rfl).2,
    ((UnmarshalStringsToStations_keeps_entry undecodableEnv sampleLib.ParseFloat rfl).2.1
      textArray (.arr [.num "1", .num "2"]) rfl (fun _ h => Json.noConfusion h)).2,
    by decide⟩

end Commute

/-! ## Round trip through the interchange format -/

namespace Commute

/-- C16 fails for a station whose latitude is a NaN: `json.Marshal` returns the error
`unsupported value: NaN` whatever the text of floats and whatever the slice of images, so
there is no text to decode and no Station comes back. -/
theorem Marshal_nan_counterexample :
    Json.isFinite nanStation.Position.Latitude = false ∧
      Json.wellFormed nanStation ∧
      ∃ err, ∀ (formatFloat : Float64 → String) (nilImages : Bool),
        Json.Marshal formatFloat nilImages nanStation = .error err :=
  ⟨by decide,
    ⟨by unfold Json.isInt64; decide, by unfold Json.isInt64; decide,
      by unfold Json.isInt64; decide, by unfold Json.isInt64; decide, fun _ h => nomatch h⟩,
    "json: unsupported value: NaN", fun _ _ => rfl⟩

/-- C16, amended: for every Station value whose latitude and longitude are finite (every
combination of the other field values, including a nil and an empty images list), encoding
it to the JSON interchange format given by the json field tags of the struct succeeds, and
decoding the text with `UnmarshalStringsToStations` yields a Station equal to the original,
the decoder reporting no error. The integer fields are Go integers, and `strconv` writes
each coordinate as a JSON number that it reads back as the same value. -/
theorem Marshal_UnmarshalStringsToStations_round_trip (env : Env)
    (formatFloat : Float64 → String) (parseFloat : String → Float64 × Option NumError)
    (nilImages : Bool) (station : Station)
    (hdecoder : env.jsonUnmarshal = Json.Unmarshal parseFloat)
    (hwf : Json.wellFormed station)
    (hlatFinite : Json.isFinite station.Position.Latitude = true)
    (hlngFinite : Json.isFinite station.Position.Longitude = true)
    (hlat : Json.floatText formatFloat parseFloat station.Position.Latitude)
    (hlng : Json.floatText formatFloat parseFloat station.Position.Longitude) :
    ∃ text, Json.Marshal formatFloat nilImages station = .ok text ∧
      env.jsonUnmarshal text Station.zero = (station, none) ∧
      UnmarshalStringsToStations env text = station := by
  have hmarshal := Json.Marshal_finite formatFloat nilImages station hlatFinite hlngFinite
  have hparse := Json.parse_Marshal formatFloat nilImages station _ hlat.1 hlng.1 hmarshal
  have hdecode := Json.decodeStation_stationJson formatFloat parseFloat nilImages station hwf
    hlat.2 hlng.2
  refine ⟨_, hmarshal, ?_, ?_⟩
  · simp only [hdecoder, Json.Unmarshal, hparse, hdecode]
  · simp only [UnmarshalStringsToStations, hdecoder, Json.Unmarshal, hparse, hdecode]

set_option maxRecDepth 100000 in
/-- The text `json.Marshal` writes for `fullStation`, with its escapes. -/
theorem Marshal_fullStation :
    Json.Marshal sampleFormatFloat false fullStation = .ok fullStationText := rfl

/-- The amended C16 on a station with every field set, and on the same station with a nil
and with an empty images list. -/
theorem Marshal_UnmarshalStringsToStations_round_trip_witness :
    jsonEnv.jsonUnmarshal = Json.Unmarshal sampleLib.ParseFloat ∧
      Json.wellFormed fullStation ∧
      Json.isFinite fullStation.Position.Latitude = true ∧
      Json.isFinite fullStation.Position.Longitude = true ∧
      Json.floatText sampleFormatFloat sampleLib.ParseFloat fullStation.Position.Latitude ∧
      Json.floatText sampleFormatFloat sampleLib.ParseFloat fullStation.Position.Longitude ∧
      Json.Marshal sampleFormatFloat false fullStation = .ok fullStationText ∧
      (∃ text, Json.Marshal sampleFormatFloat false fullStation = .ok text ∧
        jsonEnv.jsonUnmarshal text Station.zero = (fullStation, none) ∧
        UnmarshalStringsToStations jsonEnv text = fullStation) ∧
      (∃ text, Json.Marshal sampleFormatFloat true { fullStation with Images := [] } = .ok text ∧
        jsonEnv.jsonUnmarshal text Station.zero = ({ fullStation with Images := [] }, none) ∧
        UnmarshalStringsToStations jsonEnv text = { fullStation with Images := [] }) ∧
      (∃ text, Json.Marshal sampleFormatFloat false { fullStation with Images := [] } = .ok text ∧
        jsonEnv.jsonUnmarshal text Station.zero = ({ fullStation with Images := [] }, none) ∧
        UnmarshalStringsToStations jsonEnv text = { fullStation with Images := [] }) :=
  have hwf : Json.wellFormed fullStation := by
    refine ⟨by unfold Json.isInt64; decide, by unfold Json.isInt64; decide,
      by unfold Json.isInt64; decide, by unfold Json.isInt64; decide, fun image himage => ?_⟩
    simp only [fullStation, List.mem_cons, List.mem_singleton, List.not_mem_nil, or_false]
      at himage
    rcases himage with rfl | rfl <;>
      exact ⟨by unfold Json.isInt64; decide, by unfold Json.isInt64; decide,
        by unfold Json.isInt64; decide⟩
  have hwfEmpty : Json.wellFormed { fullStation with Images := [] } :=
    ⟨hwf.1, hwf.2.1, hwf.2.2.1, hwf.2.2.2.1, fun _ h => nomatch h⟩
  have hlat : Json.floatText sampleFormatFloat sampleLib.ParseFloat
      fullStation.Position.Latitude := ⟨by decide, by decide⟩
  have hlng : Json.floatText sampleFormatFloat sampleLib.ParseFloat
      fullStation.Position.Longitude := ⟨by decide, by decide⟩
  ⟨rfl, hwf, by decide, by decide, hlat, hlng, Marshal_fullStation,
    Marshal_UnmarshalStringsToStations_round_trip jsonEnv sampleFormatFloat sampleLib.ParseFloat
      false fullStation rfl hwf (by decide) (by decide) hlat hlng,
    Marshal_UnmarshalStringsToStations_round_trip jsonEnv sampleFormatFloat sampleLib.ParseFloat
      true { fullStation with Images := [] } rfl hwfEmpty (by decide) (by decide) hlat hlng,
    Marshal_UnmarshalStringsToStations_round_trip jsonEnv sampleFormatFloat sampleLib.ParseFloat
      false { fullStation with Images := [] } rfl hwfEmpty (by decide) (by decide) hlat hlng⟩

end Commute
